import Mathlib

/-!
# I2Cdev bit-field register transport

A shallow embedding of `Arduino/I2Cdev/I2Cdev.h` (the width-generic bit, byte and word
accessors) and of `Arduino/I2Cdev/I2Cdev_SoftWire_impl.h` (the `SoftWire` specialisations
of `readBytes`, `readWords`, `writeBytes`, `writeWords`).

Conventions.
* `uint8_t`, `uint16_t`, `uint32_t` values are natural numbers, reduced with `u8`, `u16`,
  `u32` wherever the C code stores into a variable of that type.
* `int8_t` values are integers, reduced with `i8` on every store.
* C `int` is the 32-bit two's-complement `int` of the STM32 targets `SoftWire` is written
  for; an `int` expression whose value provably stays inside that range is computed on
  unbounded numbers.
* A buffer passed by pointer is a function from index to element, so that accesses
  beyond the caller's array are visible.
* Stateful code is written in explicit state-passing style over `World`.
-/

namespace I2Cdev

/-! ## Machine arithmetic -/

/-- Store into a `uint8_t`. -/
def u8 (x : Nat) : Nat := x % 256

/-- Store into a `uint16_t`. -/
def u16 (x : Nat) : Nat := x % 65536

/-- Store into a `uint32_t`. -/
def u32 (x : Nat) : Nat := x % 4294967296

/-- Store into an `int8_t` (two's-complement wrap-around). -/
def i8 (x : Int) : Int := (x + 128) % 256 - 128

/-- Value of an `int8_t` converted to `uint8_t`. -/
def i8ToU8 (x : Int) : Nat := (x % 256).toNat

/-- Value of a `uint8_t` converted to `int8_t`. -/
def u8ToI8 (x : Nat) : Int := i8 (x : Int)

/-- Bit pattern of `~x` for a non-negative 32-bit `int` operand `x`. -/
def intNot (x : Nat) : Nat := 4294967295 - x

/-- Difference `a - b` of two `uint32_t` values. -/
def subU32 (a b : Nat) : Nat := u32 (u32 a + (4294967296 - u32 b))

/-- The shift count `bitStart - length + 1`, computed in `int`.  A negative count is
undefined behaviour in C; the model then shifts by zero. -/
def fieldShift (bitStart length : Nat) : Nat := ((bitStart : Int) - (length : Int) + 1).toNat

/-- The `int` expression `((1 << length) - 1) << (bitStart - length + 1)`. -/
def fieldMask (bitStart length : Nat) : Nat := ((1 <<< length) - 1) <<< fieldShift bitStart length

/-- A buffer with one element replaced. -/
def setAt {ι : Type} [DecidableEq ι] (data : ι → Nat) (i : ι) (v : Nat) : ι → Nat :=
  fun j => if j = i then v else data j

/-! ## The bus and the clock -/

/-- Modelled from the spec: the peripheral behind the bus handle (`SoftWire` and the chip
are not part of the sources).  `onWrite` consumes one completed transmission, addressed to
`addr` with payload `bytes`, and answers with the end-of-transmission status (0 = success);
`onRead` answers a request for `quantity` bytes with the bytes it delivers. -/
structure Device (σ : Type) where
  onWrite : σ → Nat → List Nat → σ × Nat
  onRead : σ → Nat → Nat → σ × List Nat

/-- One completed transaction as seen on the bus. -/
inductive BusEvent where
  | transmit (addr : Nat) (bytes : List Nat) (status : Nat)
  | request (addr : Nat) (quantity : Nat) (bytes : List Nat)
deriving DecidableEq

/-- Everything outside the transport object: the device, the bus handle's buffers, the
record of bus traffic and the number of clock readings taken so far. -/
structure World (σ : Type) where
  dev : σ
  txAddr : Nat
  txBuf : List Nat
  rxBuf : List Nat
  log : List BusEvent
  ticks : Nat

/-- The transport object `I2CdevT<WIRE, RegAddr>`: the bus handle `_wire` (given by the
behaviour of the device behind it), the member `_timeout`, and the millisecond clock, whose
`n`-th reading is `millis n`. -/
structure I2CdevT (σ : Type) where
  wire : Device σ
  millis : Nat → Nat
  _timeout : Nat

/-- Modelled from the spec: the chunk limit `BUFFER_LENGTH` of the bus library. -/
def BUFFER_LENGTH : Nat := 32

variable {σ : Type}

/-- Modelled from the spec: `_wire.beginTransmission(addr)`, "begin transmission to
address". -/
def beginTransmission (addr : Nat) (s : World σ) : World σ :=
  { s with txAddr := addr, txBuf := [] }

/-- Modelled from the spec: `_wire.write(b)`, "write byte". -/
def wireWrite (b : Nat) (s : World σ) : World σ :=
  { s with txBuf := s.txBuf ++ [u8 b] }

/-- Modelled from the spec: `_wire.endTransmission()`, "end transmission", reporting the
transmission status as a small integer. -/
def endTransmission (T : I2CdevT σ) (s : World σ) : Nat × World σ :=
  let r := T.wire.onWrite s.dev s.txAddr s.txBuf
  (u8 r.2, { s with dev := r.1, txBuf := [],
                    log := s.log ++ [BusEvent.transmit s.txAddr s.txBuf (u8 r.2)] })

/-- Modelled from the spec: `_wire.requestFrom(addr, quantity)`, "request N bytes". -/
def requestFrom (T : I2CdevT σ) (addr quantity : Nat) (s : World σ) : World σ :=
  let r := T.wire.onRead s.dev addr quantity
  { s with dev := r.1, rxBuf := r.2.map u8,
           log := s.log ++ [BusEvent.request addr quantity (r.2.map u8)] }

/-- The reading `millis()` takes in world `s`. -/
def millisNow (T : I2CdevT σ) (s : World σ) : Nat := u32 (T.millis s.ticks)

/-- The world after one call of `millis()`. -/
def tick (s : World σ) : World σ := { s with ticks := s.ticks + 1 }

/-! ## `I2Cdev_SoftWire_impl.h` -/

/-- The inner loop of `readBytes`:
`for (; _wire.available() && (_timeout == 0 || millis() - t1 < _timeout); count++)
   data[count] = _wire.read();`
It recurses on the receive buffer, one byte of which is consumed per iteration; `millis()`
is only called when a byte is available and the timeout is enabled. -/
def readBytesInner (T : I2CdevT σ) (t1 : Nat) :
    List Nat → Int → (Int → Nat) → Nat → List Nat × Int × (Int → Nat) × Nat
  | [], count, data, ticks => ([], count, data, ticks)
  | b :: rx, count, data, ticks =>
    if T._timeout = 0 then
      readBytesInner T t1 rx (i8 (count + 1)) (setAt data count (u8 b)) ticks
    else if subU32 (T.millis ticks) t1 < T._timeout then
      readBytesInner T t1 rx (i8 (count + 1)) (setAt data count (u8 b)) (ticks + 1)
    else (b :: rx, count, data, ticks + 1)

/-- One pass through the body of the chunk loop of `readBytes` (8-bit register address),
for loop counter `k`. -/
def readBytesChunk (T : I2CdevT σ) (devAddr regAddr length t1 k : Nat)
    (count : Int) (data : Int → Nat) (s : World σ) : Int × (Int → Nat) × World σ :=
  let s := beginTransmission devAddr s
  let s := wireWrite regAddr s
  let s := (endTransmission T s).2
  let s := beginTransmission devAddr s
  let s := requestFrom T devAddr (u8 (min (length - k) BUFFER_LENGTH)) s
  let r := readBytesInner T t1 s.rxBuf count data s.ticks
  (r.2.1, r.2.2.1, { s with rxBuf := r.1, ticks := r.2.2.2 })

/-- The chunk loop of `readBytes`:
`for (uint8_t k = 0; k < length; k += min(length, BUFFER_LENGTH)) { ... }`.
`none` means the loop is still running when the fuel is used up. -/
def readBytesLoop (T : I2CdevT σ) (devAddr regAddr length t1 : Nat) :
    Nat → Nat → Int → (Int → Nat) → World σ → Option (Int × (Int → Nat) × World σ)
  | 0, k, count, data, s => if k < length then none else some (count, data, s)
  | fuel + 1, k, count, data, s =>
    if k < length then
      let r := readBytesChunk T devAddr regAddr length t1 k count data s
      readBytesLoop T devAddr regAddr length t1 fuel (u8 (k + min length BUFFER_LENGTH))
        r.1 r.2.1 r.2.2
    else some (count, data, s)

/-- The final check of `readBytes` and `readWords`:
`if (_timeout > 0 && millis() - t1 >= _timeout && count < length) count = -1;`. -/
def timeoutCheck (T : I2CdevT σ) (t1 length : Nat) (count : Int) (s : World σ) :
    Int × World σ :=
  if 0 < T._timeout then
    if T._timeout ≤ subU32 (millisNow T s) t1 then
      (if count < (length : Int) then -1 else count, tick s)
    else (count, tick s)
  else (count, s)

/-- `I2CdevT<SoftWire, uint8_t>::readBytes` with an explicit bound on the number of
passes through the chunk loop.  Returns the status and the buffer. -/
def readBytesFuel (T : I2CdevT σ) (fuel devAddr regAddr length : Nat) (data : Int → Nat)
    (s : World σ) : Option (Int × (Int → Nat) × World σ) :=
  let t1 := millisNow T s
  let s := tick s
  match readBytesLoop T devAddr regAddr length t1 fuel 0 0 data s with
  | none => none
  | some (count, data, s) =>
    let r := timeoutCheck T t1 length count s
    some (r.1, data, r.2)

/-- `I2CdevT<SoftWire, uint8_t>::readBytes`, with fuel for 256 passes through the chunk
loop.  The loop either exits within 8 passes (`readBytesLoop_terminates`, for
`length ≤ 224`) or never exits (`readBytesLoop_cycle`, for `length ≥ 225`); `none` stands
for the latter. -/
def readBytes (T : I2CdevT σ) (devAddr regAddr length : Nat) (data : Int → Nat)
    (s : World σ) : Option (Int × (Int → Nat) × World σ) :=
  readBytesFuel T 256 devAddr regAddr length data s

/-- The inner loop of `readWords`:
`for (; _wire.available() && count < length && (_timeout == 0 || millis() - t1 < _timeout);)`
with the `msb` flag selecting which half of `data[count]` the next byte fills. -/
def readWordsInner (T : I2CdevT σ) (t1 length : Nat) :
    List Nat → Bool → Int → (Int → Nat) → Nat → List Nat × Int × (Int → Nat) × Nat
  | [], _, count, data, ticks => ([], count, data, ticks)
  | b :: rx, msb, count, data, ticks =>
    if count < (length : Int) then
      let data2 := if msb then setAt data count (u16 (u8 b <<< 8))
                   else setAt data count (u16 (data count ||| u8 b))
      let count2 := if msb then count else i8 (count + 1)
      if T._timeout = 0 then
        readWordsInner T t1 length rx (!msb) count2 data2 ticks
      else if subU32 (T.millis ticks) t1 < T._timeout then
        readWordsInner T t1 length rx (!msb) count2 data2 (ticks + 1)
      else (b :: rx, count, data, ticks + 1)
    else (b :: rx, count, data, ticks)

/-- One pass through the body of the chunk loop of `readWords`. -/
def readWordsChunk (T : I2CdevT σ) (devAddr regAddr length t1 : Nat)
    (count : Int) (data : Int → Nat) (s : World σ) : Int × (Int → Nat) × World σ :=
  let s := beginTransmission devAddr s
  let s := wireWrite regAddr s
  let s := (endTransmission T s).2
  let s := beginTransmission devAddr s
  let s := requestFrom T devAddr (u8 (length * 2)) s
  let r := readWordsInner T t1 length s.rxBuf true count data s.ticks
  let s := { s with rxBuf := r.1, ticks := r.2.2.2 }
  let s := (endTransmission T s).2
  (r.2.1, r.2.2.1, s)

/-- The chunk loop of `readWords`:
`for (uint8_t k = 0; k < length * 2; k += min(length * 2, BUFFER_LENGTH)) { ... }`. -/
def readWordsLoop (T : I2CdevT σ) (devAddr regAddr length t1 : Nat) :
    Nat → Nat → Int → (Int → Nat) → World σ → Option (Int × (Int → Nat) × World σ)
  | 0, k, count, data, s => if k < length * 2 then none else some (count, data, s)
  | fuel + 1, k, count, data, s =>
    if k < length * 2 then
      let r := readWordsChunk T devAddr regAddr length t1 count data s
      readWordsLoop T devAddr regAddr length t1 fuel (u8 (k + min (length * 2) BUFFER_LENGTH))
        r.1 r.2.1 r.2.2
    else some (count, data, s)

/-- `I2CdevT<SoftWire, uint8_t>::readWords` with an explicit bound on the number of passes
through the chunk loop. -/
def readWordsFuel (T : I2CdevT σ) (fuel devAddr regAddr length : Nat) (data : Int → Nat)
    (s : World σ) : Option (Int × (Int → Nat) × World σ) :=
  let t1 := millisNow T s
  let s := tick s
  match readWordsLoop T devAddr regAddr length t1 fuel 0 0 data s with
  | none => none
  | some (count, data, s) =>
    let r := timeoutCheck T t1 length count s
    some (r.1, data, r.2)

/-- `I2CdevT<SoftWire, uint8_t>::readWords`, with fuel for 256 passes through the chunk
loop; `none` stands for a run that is still in the loop after 256 passes. -/
def readWords (T : I2CdevT σ) (devAddr regAddr length : Nat) (data : Int → Nat)
    (s : World σ) : Option (Int × (Int → Nat) × World σ) :=
  readWordsFuel T 256 devAddr regAddr length data s

/-- The data loop of `writeBytes`:
`for (uint8_t i = 0; i < length; i++) _wire.write((uint8_t) data[i]);`
The first argument is the number of iterations left, `length - i`. -/
def writeBytesLoop (data : Nat → Nat) : Nat → Nat → World σ → World σ
  | 0, _, s => s
  | left + 1, i, s => writeBytesLoop data left (i + 1) (wireWrite (u8 (data i)) s)

/-- `I2CdevT<SoftWire, uint8_t>::writeBytes`. -/
def writeBytes (T : I2CdevT σ) (devAddr regAddr length : Nat) (data : Nat → Nat)
    (s : World σ) : Bool × World σ :=
  let s := beginTransmission devAddr s
  let s := wireWrite regAddr s
  let s := writeBytesLoop data length 0 s
  let r := endTransmission T s
  (decide (r.1 = 0), r.2)

/-- The data loop of `writeWords`:
`for (uint8_t i = 0; i < length * 2; i++) {
   _wire.write((uint8_t)(data[i] >> 8)); _wire.write((uint8_t)data[i++]); }`
The counter `i` is a `uint8_t` and is incremented twice per pass. -/
def writeWordsLoop (data : Nat → Nat) (length : Nat) : Nat → Nat → World σ → Option (World σ)
  | 0, i, s => if i < length * 2 then none else some s
  | fuel + 1, i, s =>
    if i < length * 2 then
      let s := wireWrite (u16 (data i) >>> 8) s
      let s := wireWrite (u16 (data i)) s
      writeWordsLoop data length fuel (u8 (u8 (i + 1) + 1)) s
    else some s

/-- `I2CdevT<SoftWire, uint8_t>::writeWords` with an explicit bound on the number of passes
through the data loop. -/
def writeWordsFuel (T : I2CdevT σ) (fuel devAddr regAddr length : Nat) (data : Nat → Nat)
    (s : World σ) : Option (Bool × World σ) :=
  let s := beginTransmission devAddr s
  let s := wireWrite regAddr s
  match writeWordsLoop data length fuel 0 s with
  | none => none
  | some s =>
    let r := endTransmission T s
    some (decide (r.1 = 0), r.2)

/-- `I2CdevT<SoftWire, uint8_t>::writeWords`, with fuel for 128 passes through the data
loop, as many as the counter `i` has values (0, 2, ..., 254); `none` stands for a run that
is still in the loop after 128 passes. -/
def writeWords (T : I2CdevT σ) (devAddr regAddr length : Nat) (data : Nat → Nat)
    (s : World σ) : Option (Bool × World σ) :=
  writeWordsFuel T 128 devAddr regAddr length data s

/-! ## `I2Cdev.h` -/

/-- The one-element buffer `&x` of a local variable holding `x`. -/
def cell {ι : Type} (x : Nat) : ι → Nat := fun _ => x

/-- `I2CdevT::readByte`. -/
def readByte (T : I2CdevT σ) (devAddr regAddr : Nat) (data : Int → Nat) (s : World σ) :
    Option (Int × (Int → Nat) × World σ) :=
  readBytes T devAddr regAddr 1 data s

/-- `I2CdevT::readWord`. -/
def readWord (T : I2CdevT σ) (devAddr regAddr : Nat) (data : Int → Nat) (s : World σ) :
    Option (Int × (Int → Nat) × World σ) :=
  readWords T devAddr regAddr 1 data s

/-- `I2CdevT::writeByte`. -/
def writeByte (T : I2CdevT σ) (devAddr regAddr data : Nat) (s : World σ) : Bool × World σ :=
  writeBytes T devAddr regAddr 1 (cell (u8 data)) s

/-- `I2CdevT::writeWord`. -/
def writeWord (T : I2CdevT σ) (devAddr regAddr data : Nat) (s : World σ) :
    Option (Bool × World σ) :=
  writeWords T devAddr regAddr (u8 1) (cell (u16 data)) s

/-- `I2CdevT::readBit`.  `b0` is the indeterminate initial value of the local `b`; the
result is the returned status and the value stored in `*data`. -/
def readBit (T : I2CdevT σ) (devAddr regAddr bitNum b0 : Nat) (s : World σ) :
    Option (Int × Nat × World σ) :=
  match readByte T devAddr regAddr (cell (u8 b0)) s with
  | none => none
  | some (c, buf, s) =>
    let count := i8ToU8 c
    some (u8ToI8 count, u8 (buf 0 &&& (1 <<< bitNum)), s)

/-- `I2CdevT::readBits`.  `b0` is the indeterminate initial value of the local `b`, `out`
the value `*data` holds before the call; the result is the returned status and the value
`*data` holds afterwards. -/
def readBits (T : I2CdevT σ) (devAddr regAddr bitStart length out b0 : Nat) (s : World σ) :
    Option (Int × Nat × World σ) :=
  match readByte T devAddr regAddr (cell (u8 b0)) s with
  | none => none
  | some (c, buf, s) =>
    let count := i8ToU8 c
    if count ≠ 0 then
      let mask := u8 (fieldMask bitStart length)
      let b := buf 0 &&& mask
      let b := u8 (b >>> fieldShift bitStart length)
      some (u8ToI8 count, b, s)
    else some (u8ToI8 count, out, s)

/-- `I2CdevT::readBitW`. -/
def readBitW (T : I2CdevT σ) (devAddr regAddr bitNum b0 : Nat) (s : World σ) :
    Option (Int × Nat × World σ) :=
  match readWord T devAddr regAddr (cell (u16 b0)) s with
  | none => none
  | some (c, buf, s) =>
    let count := i8ToU8 c
    some (u8ToI8 count, u16 (buf 0 &&& (1 <<< bitNum)), s)

/-- `I2CdevT::readBitsW`. -/
def readBitsW (T : I2CdevT σ) (devAddr regAddr bitStart length out w0 : Nat) (s : World σ) :
    Option (Int × Nat × World σ) :=
  match readWord T devAddr regAddr (cell (u16 w0)) s with
  | none => none
  | some (c, buf, s) =>
    let count := i8ToU8 c
    if count ≠ 0 then
      let mask := u16 (fieldMask bitStart length)
      let w := buf 0 &&& mask
      let w := u16 (w >>> fieldShift bitStart length)
      some (u8ToI8 count, w, s)
    else some (u8ToI8 count, out, s)

/-- `I2CdevT::writeBit`. -/
def writeBit (T : I2CdevT σ) (devAddr regAddr bitNum data b0 : Nat) (s : World σ) :
    Option (Bool × World σ) :=
  match readByte T devAddr regAddr (cell (u8 b0)) s with
  | none => none
  | some (_, buf, s) =>
    let b := buf 0
    let b := if data ≠ 0 then u8 (b ||| (1 <<< bitNum)) else u8 (b &&& intNot (1 <<< bitNum))
    some (writeByte T devAddr regAddr b s)

/-- The byte `writeBits` writes back over an old register content `b`. -/
def writeBitsValue (b bitStart length data : Nat) : Nat :=
  let mask := u8 (fieldMask bitStart length)
  let data := u8 (data <<< fieldShift bitStart length)
  let data := data &&& mask
  let b := u8 (b &&& intNot mask)
  b ||| data

/-- `I2CdevT::writeBits`. -/
def writeBits (T : I2CdevT σ) (devAddr regAddr bitStart length data b0 : Nat) (s : World σ) :
    Option (Bool × World σ) :=
  match readByte T devAddr regAddr (cell (u8 b0)) s with
  | none => none
  | some (c, buf, s) =>
    if c ≠ 0 then
      some (writeByte T devAddr regAddr (writeBitsValue (buf 0) bitStart length data) s)
    else some (false, s)

/-- `I2CdevT::writeBitW`. -/
def writeBitW (T : I2CdevT σ) (devAddr regAddr bitNum data w0 : Nat) (s : World σ) :
    Option (Bool × World σ) :=
  match readWord T devAddr regAddr (cell (u16 w0)) s with
  | none => none
  | some (_, buf, s) =>
    let w := buf 0
    let w := if data ≠ 0 then u16 (w ||| (1 <<< bitNum)) else u16 (w &&& intNot (1 <<< bitNum))
    writeWord T devAddr regAddr w s

/-- The word `writeBitsW` writes back over an old register content `w`. -/
def writeBitsWValue (w bitStart length data : Nat) : Nat :=
  let mask := u16 (fieldMask bitStart length)
  let data := u16 (data <<< fieldShift bitStart length)
  let data := data &&& mask
  let w := u16 (w &&& intNot mask)
  w ||| data

/-- `I2CdevT::writeBitsW`. -/
def writeBitsW (T : I2CdevT σ) (devAddr regAddr bitStart length data w0 : Nat) (s : World σ) :
    Option (Bool × World σ) :=
  match readWord T devAddr regAddr (cell (u16 w0)) s with
  | none => none
  | some (c, buf, s) =>
    if c ≠ 0 then
      writeWord T devAddr regAddr (writeBitsWValue (buf 0) bitStart length data) s
    else some (false, s)

/-! ## Register-file devices -/

/-- A register file with an address pointer. -/
structure RegFile where
  regs : Nat → Nat
  ptr : Nat

/-- Store consecutive bytes starting at register `r`. -/
def storeBytes (regs : Nat → Nat) : Nat → List Nat → Nat → Nat
  | _, [] => regs
  | r, v :: vs => storeBytes (setAt regs r v) (r + 1) vs

/-- A device with 8-bit registers: the first byte of a transmission sets the address
pointer, further bytes are stored at consecutive registers; each byte read comes from the
register under the pointer, which then advances.  Every transmission succeeds. -/
def byteRegs : Device RegFile where
  onWrite d _ bytes :=
    match bytes with
    | [] => (d, 0)
    | r :: vals => ({ regs := storeBytes d.regs r vals, ptr := r + vals.length }, 0)
  onRead d _ n :=
    ({ d with ptr := d.ptr + n }, (List.range n).map (fun i => d.regs (d.ptr + i)))

/-- A device with 16-bit registers: a one-byte transmission sets the address pointer, a
three-byte transmission also stores the word given high byte first; a read returns the
bytes of the register under the pointer, high byte first.  Every transmission succeeds. -/
def wordRegs : Device RegFile where
  onWrite d _ bytes :=
    match bytes with
    | [r] => ({ d with ptr := r }, 0)
    | [r, hi, lo] => ({ regs := setAt d.regs r (hi * 256 + lo), ptr := r }, 0)
    | _ => (d, 0)
  onRead d _ n :=
    (d, (List.range n).map (fun i => if i % 2 = 0 then d.regs d.ptr / 256 else d.regs d.ptr % 256))

/-- A world in which nothing has happened yet, around device state `d`. -/
def World.init (d : σ) : World σ :=
  { dev := d, txAddr := 0, txBuf := [], rxBuf := [], log := [], ticks := 0 }

/-- No read of one byte or one word sees the timeout elapse: the timeout is disabled, or
every clock reading is less than `_timeout` later than each of the two readings before it.
A read of one byte compares the reading that follows its start time `t1` with `t1`, a read
of one word the two readings that follow.  A clock that advances by one per reading
satisfies this for every `_timeout` above 2 (`subU32_running` for the default 1000). -/
def NoTimeout (T : I2CdevT σ) : Prop :=
  T._timeout = 0 ∨
    ∀ i j, i ≤ j → j ≤ i + 2 → subU32 (T.millis j) (T.millis i) < T._timeout

/-- The transport in front of the 8-bit register file. -/
def byteT (millis : Nat → Nat) (timeout : Nat) : I2CdevT RegFile :=
  { wire := byteRegs, millis := millis, _timeout := timeout }

/-- The transport in front of the 16-bit register file. -/
def wordT (millis : Nat → Nat) (timeout : Nat) : I2CdevT RegFile :=
  { wire := wordRegs, millis := millis, _timeout := timeout }

/-- A register file in which every register holds `x`. -/
def allRegs (x : Nat) : World RegFile := World.init { regs := fun _ => x, ptr := 0 }

/-- The device of the chunked-read example: registers 0..49 hold the bytes 0..49. -/
def countingRegs : World RegFile :=
  World.init { regs := fun i => if i < 50 then i else 0, ptr := 0 }

/-- `I2CdevT<SoftWire, uint16_t>::writeBytes`: the 16-bit register address goes out high
byte first. -/
def writeBytes16 (T : I2CdevT σ) (devAddr regAddr length : Nat) (data : Nat → Nat)
    (s : World σ) : Bool × World σ :=
  let s := beginTransmission devAddr s
  let s := wireWrite (u16 regAddr >>> 8) s
  let s := wireWrite (u8 (u16 regAddr)) s
  let s := writeBytesLoop data length 0 s
  let r := endTransmission T s
  (decide (r.1 = 0), r.2)

/-- An 8-bit register file that accepts every transmission like `byteRegs` but never
delivers a byte when asked to: the bus never reports an available byte. -/
def silentRegs : Device RegFile where
  onWrite := byteRegs.onWrite
  onRead d _ _ := (d, [])

/-- The transport in front of the silent register file. -/
def silentT (millis : Nat → Nat) (timeout : Nat) : I2CdevT RegFile :=
  { wire := silentRegs, millis := millis, _timeout := timeout }

/-- An 8-bit register file that refuses data: a transmission carrying only the register
address sets the pointer and succeeds, one that carries data bytes as well is answered with
status `st` and stores nothing when `st` is not 0 as a `uint8_t` (and is handled like
`byteRegs` when it is).  Reads work as in `byteRegs`. -/
def nackByteRegs (st : Nat) : Device RegFile where
  onWrite d a bytes :=
    match bytes with
    | [] => (d, 0)
    | [r] => ({ d with ptr := r }, 0)
    | r :: v :: vals => if u8 st = 0 then byteRegs.onWrite d a (r :: v :: vals)
                        else ({ d with ptr := r }, st)
  onRead := byteRegs.onRead

/-- A 16-bit register file that refuses data in the same way. -/
def nackWordRegs (st : Nat) : Device RegFile where
  onWrite d a bytes :=
    match bytes with
    | [r] => ({ d with ptr := r }, 0)
    | [r, hi, lo] => if u8 st = 0 then wordRegs.onWrite d a [r, hi, lo]
                     else ({ d with ptr := r }, st)
    | _ => (d, 0)
  onRead := wordRegs.onRead

/-- The transport in front of `nackByteRegs st`. -/
def nackByteT (st : Nat) (millis : Nat → Nat) (timeout : Nat) : I2CdevT RegFile :=
  { wire := nackByteRegs st, millis := millis, _timeout := timeout }

/-- The transport in front of `nackWordRegs st`. -/
def nackWordT (st : Nat) (millis : Nat → Nat) (timeout : Nat) : I2CdevT RegFile :=
  { wire := nackWordRegs st, millis := millis, _timeout := timeout }

/-! ## `DS1307.h` -/

/-- Register address `DS1307_RA_SECONDS`. -/
def DS1307_RA_SECONDS : Nat := 0x00

/-- Register address `DS1307_RA_MINUTES`. -/
def DS1307_RA_MINUTES : Nat := 0x01

/-- Register address `DS1307_RA_HOURS`. -/
def DS1307_RA_HOURS : Nat := 0x02

/-- Register address `DS1307_RA_DAY`. -/
def DS1307_RA_DAY : Nat := 0x03

/-- Register address `DS1307_RA_DATE`. -/
def DS1307_RA_DATE : Nat := 0x04

/-- Register address `DS1307_RA_MONTH`. -/
def DS1307_RA_MONTH : Nat := 0x05

/-- Register address `DS1307_RA_YEAR`. -/
def DS1307_RA_YEAR : Nat := 0x06

/-- Bit number `DS1307_SECONDS_CH_BIT`. -/
def DS1307_SECONDS_CH_BIT : Nat := 7

/-- Bit number `DS1307_HOURS_MODE_BIT` (0 = 24-hour mode, 1 = 12-hour mode). -/
def DS1307_HOURS_MODE_BIT : Nat := 6

/-- Bit number `DS1307_HOURS_AMPM_BIT`. -/
def DS1307_HOURS_AMPM_BIT : Nat := 5

/-- Field position `DS1307_DAY_BIT`. -/
def DS1307_DAY_BIT : Nat := 2

/-- Field width `DS1307_DAY_LENGTH`. -/
def DS1307_DAY_LENGTH : Nat := 3

/-- The data members of `class DS1307`: `devAddr`, `buffer[0]`, `mode12`, `clockHalt`.  The
transport `_i2cdev` is passed to every method. -/
structure DS1307 where
  devAddr : Nat
  buffer : Nat
  mode12 : Bool
  clockHalt : Bool

/-- The call `_i2cdev.readByte(devAddr, reg, buffer)` on the member `buffer`. -/
def DS1307.readReg (T : I2CdevT σ) (D : DS1307) (reg : Nat) (s : World σ) :
    Option (Int × DS1307 × World σ) :=
  match readByte T D.devAddr reg (cell (u8 D.buffer)) s with
  | none => none
  | some (c, buf, s) => some (c, { D with buffer := buf 0 }, s)

/-- The call `_i2cdev.readBit(devAddr, reg, bit, buffer)` on the member `buffer`; `b0` is the
indeterminate initial value of the local of `readBit`. -/
def DS1307.readRegBit (T : I2CdevT σ) (D : DS1307) (reg bit b0 : Nat) (s : World σ) :
    Option (Int × DS1307 × World σ) :=
  match readBit T D.devAddr reg bit b0 s with
  | none => none
  | some (c, v, s) => some (c, { D with buffer := v }, s)

/-- `DS1307::getClockRunning`. -/
def DS1307.getClockRunning (T : I2CdevT σ) (D : DS1307) (b0 : Nat) (s : World σ) :
    Option (Bool × DS1307 × World σ) :=
  match D.readRegBit T DS1307_RA_SECONDS DS1307_SECONDS_CH_BIT b0 s with
  | none => none
  | some (_, D, s) =>
    some (decide (D.buffer = 0), { D with clockHalt := decide (D.buffer ≠ 0) }, s)

/-- `DS1307::setClockRunning`. -/
def DS1307.setClockRunning (T : I2CdevT σ) (D : DS1307) (running : Bool) (b0 : Nat)
    (s : World σ) : Option (DS1307 × World σ) :=
  match writeBit T D.devAddr DS1307_RA_SECONDS DS1307_SECONDS_CH_BIT
      (if running then 0 else 1) b0 s with
  | none => none
  | some (_, s) => some (D, s)

/-- `DS1307::getSeconds`. -/
def DS1307.getSeconds (T : I2CdevT σ) (D : DS1307) (s : World σ) :
    Option (Nat × DS1307 × World σ) :=
  match D.readReg T DS1307_RA_SECONDS s with
  | none => none
  | some (_, D, s) =>
    some (u8 ((D.buffer &&& 0x0F) + ((D.buffer &&& 0x70) >>> 4) * 10),
          { D with clockHalt := decide (D.buffer &&& 0x80 ≠ 0) }, s)

/-- `DS1307::setSeconds`. -/
def DS1307.setSeconds (T : I2CdevT σ) (D : DS1307) (seconds : Nat) (s : World σ) :
    DS1307 × World σ :=
  if seconds > 59 then (D, s)
  else
    let value := u8 ((if D.clockHalt then 0x80 else 0x00) + ((seconds / 10) <<< 4) + seconds % 10)
    (D, (writeByte T D.devAddr DS1307_RA_SECONDS value s).2)

/-- `DS1307::getMinutes`. -/
def DS1307.getMinutes (T : I2CdevT σ) (D : DS1307) (s : World σ) :
    Option (Nat × DS1307 × World σ) :=
  match D.readReg T DS1307_RA_MINUTES s with
  | none => none
  | some (_, D, s) => some (u8 ((D.buffer &&& 0x0F) + ((D.buffer &&& 0x70) >>> 4) * 10), D, s)

/-- `DS1307::setMinutes`. -/
def DS1307.setMinutes (T : I2CdevT σ) (D : DS1307) (minutes : Nat) (s : World σ) :
    DS1307 × World σ :=
  if minutes > 59 then (D, s)
  else
    let value := u8 (((minutes / 10) <<< 4) + minutes % 10)
    (D, (writeByte T D.devAddr DS1307_RA_MINUTES value s).2)

/-- `DS1307::getMode`. -/
def DS1307.getMode (T : I2CdevT σ) (D : DS1307) (b0 : Nat) (s : World σ) :
    Option (Nat × DS1307 × World σ) :=
  match D.readRegBit T DS1307_RA_HOURS DS1307_HOURS_MODE_BIT b0 s with
  | none => none
  | some (_, D, s) => some (D.buffer, { D with mode12 := decide (D.buffer ≠ 0) }, s)

/-- `DS1307::setMode`. -/
def DS1307.setMode (T : I2CdevT σ) (D : DS1307) (mode b0 : Nat) (s : World σ) :
    Option (DS1307 × World σ) :=
  match writeBit T D.devAddr DS1307_RA_HOURS DS1307_HOURS_MODE_BIT mode b0 s with
  | none => none
  | some (_, s) => some (D, s)

/-- `DS1307::getAMPM`. -/
def DS1307.getAMPM (T : I2CdevT σ) (D : DS1307) (b0 : Nat) (s : World σ) :
    Option (Nat × DS1307 × World σ) :=
  match D.readRegBit T DS1307_RA_HOURS DS1307_HOURS_AMPM_BIT b0 s with
  | none => none
  | some (_, D, s) => some (D.buffer, D, s)

/-- `DS1307::setAMPM`. -/
def DS1307.setAMPM (T : I2CdevT σ) (D : DS1307) (ampm b0 : Nat) (s : World σ) :
    Option (DS1307 × World σ) :=
  match writeBit T D.devAddr DS1307_RA_HOURS DS1307_HOURS_AMPM_BIT ampm b0 s with
  | none => none
  | some (_, s) => some (D, s)

/-- The value `getHours12` computes from the HOURS byte `b` it has read into `buffer[0]`. -/
def DS1307.hours12Of (b : Nat) : Nat :=
  if b &&& 0x40 ≠ 0 then
    u8 ((b &&& 0x0F) + ((b &&& 0x10) >>> 4) * 10)
  else
    let hours := u8 ((b &&& 0x0F) + ((b &&& 0x30) >>> 4) * 10)
    if hours > 12 then u8 (hours - 12) else if hours = 0 then 12 else hours

/-- `DS1307::getHours12`. -/
def DS1307.getHours12 (T : I2CdevT σ) (D : DS1307) (s : World σ) :
    Option (Nat × DS1307 × World σ) :=
  match D.readReg T DS1307_RA_HOURS s with
  | none => none
  | some (_, D, s) =>
    some (DS1307.hours12Of D.buffer, { D with mode12 := decide (D.buffer &&& 0x40 ≠ 0) }, s)

/-- The byte `setHours12` writes to the HOURS register for `hours` in 1..12, by the cached
mode. -/
def DS1307.hours12Byte (mode12 : Bool) (hours ampm : Nat) : Nat :=
  if mode12 then
    let ampm := if ampm > 0 then 0x20 else ampm
    u8 (0x40 + ampm + ((hours / 10) <<< 4) + hours % 10)
  else
    let hours := if ampm > 0 then u8 (hours + 12) else hours
    let hours := if hours = 0 then 12 else if hours = 24 then 12 else hours
    u8 (((hours / 10) <<< 4) + hours % 10)

/-- `DS1307::setHours12`. -/
def DS1307.setHours12 (T : I2CdevT σ) (D : DS1307) (hours ampm : Nat) (s : World σ) :
    DS1307 × World σ :=
  if hours > 12 ∨ hours < 1 then (D, s)
  else (D, (writeByte T D.devAddr DS1307_RA_HOURS (DS1307.hours12Byte D.mode12 hours ampm) s).2)

/-- The value `getHours24` computes from the HOURS byte `b` it has read into `buffer[0]`. -/
def DS1307.hours24Of (b : Nat) : Nat :=
  if b &&& 0x40 ≠ 0 then
    let hours := u8 ((b &&& 0x0F) + ((b &&& 0x10) >>> 4) * 10)
    if b &&& 0x20 ≠ 0 then (if hours < 12 then u8 (hours + 12) else hours)
    else (if hours = 12 then 0 else hours)
  else
    u8 ((b &&& 0x0F) + ((b &&& 0x30) >>> 4) * 10)

/-- `DS1307::getHours24`. -/
def DS1307.getHours24 (T : I2CdevT σ) (D : DS1307) (s : World σ) :
    Option (Nat × DS1307 × World σ) :=
  match D.readReg T DS1307_RA_HOURS s with
  | none => none
  | some (_, D, s) =>
    some (DS1307.hours24Of D.buffer, { D with mode12 := decide (D.buffer &&& 0x40 ≠ 0) }, s)

/-- The byte `setHours24` writes to the HOURS register for `hours` in 0..23, by the cached
mode. -/
def DS1307.hours24Byte (mode12 : Bool) (hours : Nat) : Nat :=
  if mode12 then
    let ampm := if hours > 11 then 0x20 else 0
    let hours := if hours > 12 then u8 (hours - 12) else if hours = 0 then 12 else hours
    u8 (0x40 + ampm + ((hours / 10) <<< 4) + hours % 10)
  else
    u8 (((hours / 10) <<< 4) + hours % 10)

/-- `DS1307::setHours24`. -/
def DS1307.setHours24 (T : I2CdevT σ) (D : DS1307) (hours : Nat) (s : World σ) :
    DS1307 × World σ :=
  if hours > 23 then (D, s)
  else (D, (writeByte T D.devAddr DS1307_RA_HOURS (DS1307.hours24Byte D.mode12 hours) s).2)

/-- `DS1307::getDayOfWeek`: `readBits` leaves `buffer[0]` as it was when the read fails. -/
def DS1307.getDayOfWeek (T : I2CdevT σ) (D : DS1307) (b0 : Nat) (s : World σ) :
    Option (Nat × DS1307 × World σ) :=
  match readBits T D.devAddr DS1307_RA_DAY DS1307_DAY_BIT DS1307_DAY_LENGTH (u8 D.buffer) b0 s with
  | none => none
  | some (_, v, s) => some (v, { D with buffer := v }, s)

/-- `DS1307::setDayOfWeek`. -/
def DS1307.setDayOfWeek (T : I2CdevT σ) (D : DS1307) (dow b0 : Nat) (s : World σ) :
    Option (DS1307 × World σ) :=
  if dow < 1 ∨ dow > 7 then some (D, s)
  else
    match writeBits T D.devAddr DS1307_RA_DAY DS1307_DAY_BIT DS1307_DAY_LENGTH dow b0 s with
    | none => none
    | some (_, s) => some (D, s)

/-- `DS1307::getDay`. -/
def DS1307.getDay (T : I2CdevT σ) (D : DS1307) (s : World σ) :
    Option (Nat × DS1307 × World σ) :=
  match D.readReg T DS1307_RA_DATE s with
  | none => none
  | some (_, D, s) => some (u8 ((D.buffer &&& 0x0F) + ((D.buffer &&& 0x30) >>> 4) * 10), D, s)

/-- `DS1307::setDay`. -/
def DS1307.setDay (T : I2CdevT σ) (D : DS1307) (day : Nat) (s : World σ) :
    DS1307 × World σ :=
  let value := u8 (((day / 10) <<< 4) + day % 10)
  (D, (writeByte T D.devAddr DS1307_RA_DATE value s).2)

/-- `DS1307::getMonth`. -/
def DS1307.getMonth (T : I2CdevT σ) (D : DS1307) (s : World σ) :
    Option (Nat × DS1307 × World σ) :=
  match D.readReg T DS1307_RA_MONTH s with
  | none => none
  | some (_, D, s) => some (u8 ((D.buffer &&& 0x0F) + ((D.buffer &&& 0x10) >>> 4) * 10), D, s)

/-- `DS1307::setMonth`. -/
def DS1307.setMonth (T : I2CdevT σ) (D : DS1307) (month : Nat) (s : World σ) :
    DS1307 × World σ :=
  if month < 1 ∨ month > 12 then (D, s)
  else
    let value := u8 (((month / 10) <<< 4) + month % 10)
    (D, (writeByte T D.devAddr DS1307_RA_MONTH value s).2)

/-- `DS1307::getYear`. -/
def DS1307.getYear (T : I2CdevT σ) (D : DS1307) (s : World σ) :
    Option (Nat × DS1307 × World σ) :=
  match D.readReg T DS1307_RA_YEAR s with
  | none => none
  | some (_, D, s) =>
    some (u16 (2000 + (D.buffer &&& 0x0F) + ((D.buffer &&& 0xF0) >>> 4) * 10), D, s)

/-- `DS1307::setYear`. -/
def DS1307.setYear (T : I2CdevT σ) (D : DS1307) (year : Nat) (s : World σ) :
    DS1307 × World σ :=
  if year < 2000 then (D, s)
  else
    let year := u16 (year - 2000)
    let value := u8 (((year / 10) <<< 4) + year % 10)
    (D, (writeByte T D.devAddr DS1307_RA_YEAR value s).2)

/-- `DS1307::initialize`. -/
def DS1307.initialize (T : I2CdevT σ) (D : DS1307) (b0 b1 : Nat) (s : World σ) :
    Option (DS1307 × World σ) :=
  match D.getMode T b0 s with
  | none => none
  | some (_, D, s) =>
    match D.getClockRunning T b1 s with
    | none => none
    | some (_, D, s) => some (D, s)

/-! ## DateTime (`Arduino/DS1307/DS1307.cpp`)

`long` is the 32-bit two's-complement type of the 8-bit and 32-bit targets of the library
(the header describes `secondstime` and `unixtime` as "32-bit times").  Overflow of a `long`
expression is undefined in ISO C; the model takes the two's-complement wrap-around these
targets produce, written `i32`. -/

/-- Store into a 32-bit `long` (two's-complement wrap-around). -/
def i32 (x : Int) : Int := (x + 2147483648) % 4294967296 - 2147483648

/-- Value of a signed integer converted to `uint8_t`. -/
def u8OfInt (x : Int) : Nat := (x % 256).toNat

/-- Value of a signed integer converted to `uint16_t`. -/
def u16OfInt (x : Int) : Nat := (x % 65536).toNat

/-- Value of a signed integer converted to `uint32_t`. -/
def u32OfInt (x : Int) : Nat := (x % 4294967296).toNat

def SECONDS_PER_DAY : Nat := 86400
def SECONDS_FROM_1970_TO_2000 : Nat := 946684800

/-- The table `daysInMonth[]`. -/
def daysInMonth : List Nat := [31, 28, 31, 30, 31, 30, 31, 31, 30, 31, 30, 31]

/-- The read `pgm_read_byte(daysInMonth + i - 1)` for a `uint8_t` index variable `i`:
`none` when the address lies outside the table. -/
def readDaysInMonth (i : Nat) : Option Nat :=
  if i = 0 then none else daysInMonth[i - 1]?

/-- The `for (uint8_t i = 1; i < m; ++i)` loop of `date2days`; `none` when the fuel runs out
or a table read falls outside the table. -/
def date2daysLoop : Nat → Nat → Nat → Nat → Option Nat
  | 0, _, _, _ => none
  | fuel + 1, i, m, days =>
    if i < m then
      match readDaysInMonth i with
      | none => none
      | some n => date2daysLoop fuel (u8 (i + 1)) m (u16 (days + n))
    else some days

/-- `date2days(y, m, d)`. -/
def date2days (y m d : Nat) : Option Nat :=
  let y := if y ≥ 2000 then u16 (y - 2000) else y
  match date2daysLoop 256 1 m (u16 d) with
  | none => none
  | some days =>
    let days := if m > 2 ∧ y % 4 = 0 then u16 (days + 1) else days
    some (u16OfInt ((days : Int) + 365 * (y : Int) + ((y : Int) + 3) / 4 - 1))

/-- `time2long(days, h, m, s)`: the `long` expression `((days * 24L + h) * 60 + m) * 60 + s`. -/
def time2long (days h m s : Nat) : Int :=
  let x := i32 ((days : Int) * 24)
  let x := i32 (x + h)
  let x := i32 (x * 60)
  let x := i32 (x + m)
  let x := i32 (x * 60)
  i32 (x + s)

/-- The fields of `class DateTime`, all `uint8_t`. -/
structure DateTime where
  yOff : Nat
  m : Nat
  d : Nat
  hh : Nat
  mm : Nat
  ss : Nat
deriving DecidableEq

/-- The first loop of `DateTime::DateTime(uint32_t)`, `for (yOff = 0; ; ++yOff)`, entered
with the current `yOff` and `days`; returns `yOff`, `leap` and `days` at the `break`.  The
subtraction `days -= 365 + leap` is only reached with `days ≥ 365 + leap`. -/
def yearLoop : Nat → Nat → Nat → Option (Nat × Nat × Nat)
  | 0, _, _ => none
  | fuel + 1, yOff, days =>
    let leap := if yOff % 4 = 0 then 1 else 0
    if days < 365 + leap then some (yOff, leap, days)
    else yearLoop fuel (u8 (yOff + 1)) (u16 (days - (365 + leap)))

/-- The second loop of `DateTime::DateTime(uint32_t)`, `for (m = 1; ; ++m)`, entered with
the current `m` and `days`; returns `m` and `days` at the `break`, `none` when the fuel runs
out or a table read falls outside the table. -/
def monthLoop : Nat → Nat → Nat → Nat → Option (Nat × Nat)
  | 0, _, _, _ => none
  | fuel + 1, leap, m, days =>
    match readDaysInMonth m with
    | none => none
    | some n =>
      let daysPerMonth := if leap ≠ 0 ∧ m = 2 then u8 (n + 1) else n
      if days < daysPerMonth then some (m, days)
      else monthLoop fuel leap (u8 (m + 1)) (u16 (days - daysPerMonth))

/-- `DateTime::DateTime(uint32_t t)` with `fuel` passes allowed to each of its two loops. -/
def DateTime.ofUnixtimeFuel (fuel t : Nat) : Option DateTime :=
  let t := subU32 t SECONDS_FROM_1970_TO_2000
  let ss := u8 (t % 60)
  let t := t / 60
  let mm := u8 (t % 60)
  let t := t / 60
  let hh := u8 (t % 24)
  let days := u16 (t / 24)
  match yearLoop fuel 0 days with
  | none => none
  | some (yOff, leap, days) =>
    match monthLoop fuel leap 1 days with
    | none => none
    | some (m, days) => some ⟨yOff, m, u8 (days + 1), hh, mm, ss⟩

/-- `DateTime::DateTime(uint32_t t)`, with fuel for 256 passes through each loop: the year
loop leaves within 180 passes since `days` is a `uint16_t`, and the month loop leaves or
reads outside the table within 13. -/
def DateTime.ofUnixtime (t : Nat) : Option DateTime :=
  DateTime.ofUnixtimeFuel 256 t

/-- `DateTime::DateTime(uint16_t year, uint8_t month, uint8_t day, uint8_t hour,
uint8_t min, uint8_t sec)`. -/
def DateTime.ofFields (year month day hour min sec : Nat) : DateTime :=
  let year := if year ≥ 2000 then u16 (year - 2000) else year
  ⟨u8 year, u8 month, u8 day, u8 hour, u8 min, u8 sec⟩

/-- `conv2d(p)` on the characters `p[0]`, `p[1]` of a string given as its character
codes; a read past the end of the list gives 0, the terminator. -/
def conv2d (p : List Nat) : Nat :=
  let v := if '0'.toNat ≤ p.getD 0 0 ∧ p.getD 0 0 ≤ '9'.toNat
    then u8 (p.getD 0 0 - '0'.toNat) else 0
  u8OfInt (10 * (v : Int) + (p.getD 1 0 : Int) - ('0'.toNat : Int))

/-- `DateTime::DateTime(const char* date, const char* time)`; `m0` is the indeterminate
value `m` keeps when no `case` of the `switch` matches. -/
def DateTime.ofStrings (date time : List Nat) (m0 : Nat) : DateTime :=
  let yOff := conv2d (date.drop 9)
  let c := date.getD 0 0
  let m :=
    if c = 'J'.toNat then
      (if date.getD 1 0 = 'a'.toNat then 1 else (if date.getD 2 0 = 'n'.toNat then 6 else 7))
    else if c = 'F'.toNat then 2
    else if c = 'A'.toNat then (if date.getD 2 0 = 'r'.toNat then 4 else 8)
    else if c = 'M'.toNat then (if date.getD 2 0 = 'r'.toNat then 3 else 5)
    else if c = 'S'.toNat then 9
    else if c = 'O'.toNat then 10
    else if c = 'N'.toNat then 11
    else if c = 'D'.toNat then 12
    else m0
  let d := conv2d (date.drop 4)
  let hh := conv2d time
  let mm := conv2d (time.drop 3)
  let ss := conv2d (time.drop 6)
  ⟨yOff, m, d, hh, mm, ss⟩

/-- `DateTime::year`. -/
def DateTime.year (t : DateTime) : Nat := u16 (2000 + t.yOff)

/-- `DateTime::month`. -/
def DateTime.month (t : DateTime) : Nat := t.m

/-- `DateTime::day`. -/
def DateTime.day (t : DateTime) : Nat := t.d

/-- `DateTime::hour`. -/
def DateTime.hour (t : DateTime) : Nat := t.hh

/-- `DateTime::minute`. -/
def DateTime.minute (t : DateTime) : Nat := t.mm

/-- `DateTime::second`. -/
def DateTime.second (t : DateTime) : Nat := t.ss

/-- `DateTime::secondstime`: the `long` from `time2long` is stored in the `uint32_t` local
and returned as `long`. -/
def DateTime.secondstime (t : DateTime) : Option Int :=
  match date2days t.yOff t.m t.d with
  | none => none
  | some days => some (i32 (u32OfInt (time2long days t.hh t.mm t.ss)))

/-- `DateTime::unixtime`: a `long` sum converted to `uint32_t`. -/
def DateTime.unixtime (t : DateTime) : Option Nat :=
  match t.secondstime with
  | none => none
  | some x => some (u32OfInt (i32 (x + SECONDS_FROM_1970_TO_2000)))

/-- `DateTime::dayOfWeek`: the `long` quotient (rounded towards zero) is stored in a
`uint16_t`. -/
def DateTime.dayOfWeek (t : DateTime) : Option Nat :=
  match t.secondstime with
  | none => none
  | some x =>
    let day := u16OfInt (Int.tdiv x SECONDS_PER_DAY)
    some (u8 ((day + 6) % 7))

/-- The character codes of a string literal. -/
def cstr (s : List Char) : List Nat := s.map Char.toNat


/-- The month abbreviations of the compiler's `__DATE__` string, in calendar order. -/
def monthAbbrev : List (List Char) :=
  [['J', 'a', 'n'], ['F', 'e', 'b'], ['M', 'a', 'r'], ['A', 'p', 'r'], ['M', 'a', 'y'],
   ['J', 'u', 'n'], ['J', 'u', 'l'], ['A', 'u', 'g'], ['S', 'e', 'p'], ['O', 'c', 't'],
   ['N', 'o', 'v'], ['D', 'e', 'c']]

/-- The character code of the decimal digit `n`. -/
def digit (n : Nat) : Nat := '0'.toNat + n

/-! ## ADS1115 driver (`Arduino/ADS1115/ADS1115.h`)

The member `buffer[2]` is only ever accessed at index 0, so it is modelled by that element.
Every method takes a value `w0`, the indeterminate initial content of the `uint16_t` locals
of the transport calls made on its way. -/

def ADS1115_RA_CONVERSION : Nat := 0x00
def ADS1115_RA_CONFIG : Nat := 0x01
def ADS1115_RA_LO_THRESH : Nat := 0x02
def ADS1115_RA_HI_THRESH : Nat := 0x03

def ADS1115_CFG_OS_BIT : Nat := 15
def ADS1115_CFG_MUX_BIT : Nat := 14
def ADS1115_CFG_MUX_LENGTH : Nat := 3
def ADS1115_CFG_PGA_BIT : Nat := 11
def ADS1115_CFG_PGA_LENGTH : Nat := 3
def ADS1115_CFG_MODE_BIT : Nat := 8
def ADS1115_CFG_DR_BIT : Nat := 7
def ADS1115_CFG_DR_LENGTH : Nat := 3
def ADS1115_CFG_COMP_MODE_BIT : Nat := 4
def ADS1115_CFG_COMP_POL_BIT : Nat := 3
def ADS1115_CFG_COMP_LAT_BIT : Nat := 2
def ADS1115_CFG_COMP_QUE_BIT : Nat := 1
def ADS1115_CFG_COMP_QUE_LENGTH : Nat := 2

def ADS1115_MUX_P0_N1 : Nat := 0x00
def ADS1115_MUX_P0_N3 : Nat := 0x01
def ADS1115_MUX_P1_N3 : Nat := 0x02
def ADS1115_MUX_P2_N3 : Nat := 0x03
def ADS1115_MUX_P0_NG : Nat := 0x04
def ADS1115_MUX_P1_NG : Nat := 0x05
def ADS1115_MUX_P2_NG : Nat := 0x06
def ADS1115_MUX_P3_NG : Nat := 0x07

def ADS1115_PGA_2P048 : Nat := 0x02
def ADS1115_RATE_128 : Nat := 0x04
def ADS1115_COMP_QUE_DISABLE : Nat := 0x03
def I2CDEV_DEFAULT_READ_TIMEOUT : Nat := 1000

/-- `ADS1115_MODE_CONTINUOUS` (0x00) and `ADS1115_MODE_SINGLESHOT` (0x01) as values of the
`bool` member `devMode`. -/
def ADS1115_MODE_CONTINUOUS : Bool := false
def ADS1115_MODE_SINGLESHOT : Bool := true

/-- Value of a `uint16_t` converted to `int16_t`. -/
def u16ToI16 (x : Nat) : Int := if u16 x < 32768 then (u16 x : Int) else (u16 x : Int) - 65536

/-- Value of a `bool` passed where an integer is expected. -/
def boolToNat (b : Bool) : Nat := if b then 1 else 0

/-- The members of `class ADS1115`. -/
structure ADS1115 where
  devAddr : Nat
  buffer : Nat
  devMode : Bool
  muxMode : Nat
  pgaMode : Nat

/-- The constructor `ADS1115(i2cdev, address)`; `buffer` starts indeterminate, `b0`. -/
def ADS1115.new (address b0 : Nat) : ADS1115 :=
  { devAddr := u8 address, buffer := u16 b0, devMode := false, muxMode := 0, pgaMode := 0 }

/-- `ADS1115::isConversionReady`. -/
def ADS1115.isConversionReady (T : I2CdevT σ) (D : ADS1115) (w0 : Nat) (s : World σ) :
    Option (Bool × ADS1115 × World σ) :=
  match readBitW T D.devAddr ADS1115_RA_CONFIG ADS1115_CFG_OS_BIT w0 s with
  | none => none
  | some (_, v, s) => some (decide (v ≠ 0), { D with buffer := v }, s)

/-- `ADS1115::triggerConversion`. -/
def ADS1115.triggerConversion (T : I2CdevT σ) (D : ADS1115) (w0 : Nat) (s : World σ) :
    Option (ADS1115 × World σ) :=
  match writeBitW T D.devAddr ADS1115_RA_CONFIG ADS1115_CFG_OS_BIT 1 w0 s with
  | none => none
  | some (_, s) => some (D, s)

/-- `ADS1115::pollConversion`: the counter `i` runs from 0 up to `max_retries` without
wrapping, so the loop is a recursion over the passes that are left. -/
def ADS1115.pollConversion (T : I2CdevT σ) (w0 : Nat) :
    Nat → ADS1115 → World σ → Option (Bool × ADS1115 × World σ)
  | 0, D, s => some (false, D, s)
  | left + 1, D, s =>
    match D.isConversionReady T w0 s with
    | none => none
    | some (true, D, s) => some (true, D, s)
    | some (false, D, s) => ADS1115.pollConversion T w0 left D s

/-- `ADS1115::getConversion`. -/
def ADS1115.getConversion (T : I2CdevT σ) (D : ADS1115) (triggerAndPoll : Bool) (w0 : Nat)
    (s : World σ) : Option (Int × ADS1115 × World σ) :=
  let polled : Option (ADS1115 × World σ) :=
    if triggerAndPoll ∧ D.devMode = ADS1115_MODE_SINGLESHOT then
      match D.triggerConversion T w0 s with
      | none => none
      | some (D, s) =>
        match ADS1115.pollConversion T w0 I2CDEV_DEFAULT_READ_TIMEOUT D s with
        | none => none
        | some (_, D, s) => some (D, s)
    else some (D, s)
  match polled with
  | none => none
  | some (D, s) =>
    match readWord T D.devAddr ADS1115_RA_CONVERSION (cell D.buffer) s with
    | none => none
    | some (_, buf, s) => some (u16ToI16 (buf 0), { D with buffer := buf 0 }, s)

/-- `ADS1115::setMode`. -/
def ADS1115.setMode (T : I2CdevT σ) (D : ADS1115) (mode : Bool) (w0 : Nat) (s : World σ) :
    Option (ADS1115 × World σ) :=
  match writeBitW T D.devAddr ADS1115_RA_CONFIG ADS1115_CFG_MODE_BIT (boolToNat mode) w0 s with
  | none => none
  | some (ok, s) => some (if ok then { D with devMode := mode } else D, s)

/-- The tail shared by `setMultiplexer` and `setGain` when the driver is in continuous mode:
`setMode(ADS1115_MODE_SINGLESHOT); getConversion(); setMode(ADS1115_MODE_CONTINUOUS);`. -/
def ADS1115.restartContinuous (T : I2CdevT σ) (D : ADS1115) (w0 : Nat) (s : World σ) :
    Option (ADS1115 × World σ) :=
  if D.devMode = ADS1115_MODE_CONTINUOUS then
    match D.setMode T ADS1115_MODE_SINGLESHOT w0 s with
    | none => none
    | some (D, s) =>
      match D.getConversion T true w0 s with
      | none => none
      | some (_, D, s) => D.setMode T ADS1115_MODE_CONTINUOUS w0 s
  else some (D, s)

/-- `ADS1115::setMultiplexer`. -/
def ADS1115.setMultiplexer (T : I2CdevT σ) (D : ADS1115) (mux w0 : Nat) (s : World σ) :
    Option (ADS1115 × World σ) :=
  match writeBitsW T D.devAddr ADS1115_RA_CONFIG ADS1115_CFG_MUX_BIT ADS1115_CFG_MUX_LENGTH
      (u8 mux) w0 s with
  | none => none
  | some (ok, s) =>
    if ok then ADS1115.restartContinuous T { D with muxMode := u8 mux } w0 s
    else some (D, s)

/-- `ADS1115::setGain`. -/
def ADS1115.setGain (T : I2CdevT σ) (D : ADS1115) (gain w0 : Nat) (s : World σ) :
    Option (ADS1115 × World σ) :=
  match writeBitsW T D.devAddr ADS1115_RA_CONFIG ADS1115_CFG_PGA_BIT ADS1115_CFG_PGA_LENGTH
      (u8 gain) w0 s with
  | none => none
  | some (ok, s) =>
    if ok then ADS1115.restartContinuous T { D with pgaMode := u8 gain } w0 s
    else some (D, s)

/-- `ADS1115::setRate`. -/
def ADS1115.setRate (T : I2CdevT σ) (D : ADS1115) (rate w0 : Nat) (s : World σ) :
    Option (ADS1115 × World σ) :=
  match writeBitsW T D.devAddr ADS1115_RA_CONFIG ADS1115_CFG_DR_BIT ADS1115_CFG_DR_LENGTH
      (u8 rate) w0 s with
  | none => none
  | some (_, s) => some (D, s)

/-- `ADS1115::setComparatorMode`. -/
def ADS1115.setComparatorMode (T : I2CdevT σ) (D : ADS1115) (mode : Bool) (w0 : Nat)
    (s : World σ) : Option (ADS1115 × World σ) :=
  match writeBitW T D.devAddr ADS1115_RA_CONFIG ADS1115_CFG_COMP_MODE_BIT (boolToNat mode)
      w0 s with
  | none => none
  | some (_, s) => some (D, s)

/-- `ADS1115::setComparatorPolarity`. -/
def ADS1115.setComparatorPolarity (T : I2CdevT σ) (D : ADS1115) (polarity : Bool) (w0 : Nat)
    (s : World σ) : Option (ADS1115 × World σ) :=
  match writeBitW T D.devAddr ADS1115_RA_CONFIG ADS1115_CFG_COMP_POL_BIT (boolToNat polarity)
      w0 s with
  | none => none
  | some (_, s) => some (D, s)

/-- `ADS1115::setComparatorLatchEnabled`. -/
def ADS1115.setComparatorLatchEnabled (T : I2CdevT σ) (D : ADS1115) (enabled : Bool)
    (w0 : Nat) (s : World σ) : Option (ADS1115 × World σ) :=
  match writeBitW T D.devAddr ADS1115_RA_CONFIG ADS1115_CFG_COMP_LAT_BIT (boolToNat enabled)
      w0 s with
  | none => none
  | some (_, s) => some (D, s)

/-- `ADS1115::setComparatorQueueMode`. -/
def ADS1115.setComparatorQueueMode (T : I2CdevT σ) (D : ADS1115) (mode w0 : Nat)
    (s : World σ) : Option (ADS1115 × World σ) :=
  match writeBitsW T D.devAddr ADS1115_RA_CONFIG ADS1115_CFG_COMP_QUE_BIT
      ADS1115_CFG_COMP_QUE_LENGTH (u8 mode) w0 s with
  | none => none
  | some (_, s) => some (D, s)

/-- `ADS1115::initialize`. -/
def ADS1115.initialize (T : I2CdevT σ) (D : ADS1115) (w0 : Nat) (s : World σ) :
    Option (ADS1115 × World σ) :=
  (D.setMultiplexer T ADS1115_MUX_P0_N1 w0 s).bind fun p =>
  (p.1.setGain T ADS1115_PGA_2P048 w0 p.2).bind fun p =>
  (p.1.setMode T ADS1115_MODE_SINGLESHOT w0 p.2).bind fun p =>
  (p.1.setRate T ADS1115_RATE_128 w0 p.2).bind fun p =>
  (p.1.setComparatorMode T false w0 p.2).bind fun p =>
  (p.1.setComparatorPolarity T false w0 p.2).bind fun p =>
  (p.1.setComparatorLatchEnabled T false w0 p.2).bind fun p =>
  p.1.setComparatorQueueMode T ADS1115_COMP_QUE_DISABLE w0 p.2

/-- The body shared by the eight `getConversionPxNy` methods, for the multiplexer code `mux`:
`if (muxMode != mux) setMultiplexer(mux); return getConversion();`. -/
def ADS1115.getConversionMux (T : I2CdevT σ) (D : ADS1115) (mux w0 : Nat) (s : World σ) :
    Option (Int × ADS1115 × World σ) :=
  if D.muxMode ≠ mux then
    match D.setMultiplexer T mux w0 s with
    | none => none
    | some (D, s) => D.getConversion T true w0 s
  else D.getConversion T true w0 s

/-- `ADS1115::getConversionP0N1`. -/
def ADS1115.getConversionP0N1 (T : I2CdevT σ) (D : ADS1115) (w0 : Nat) (s : World σ) :=
  D.getConversionMux T ADS1115_MUX_P0_N1 w0 s

/-- `ADS1115::getConversionP0N3`. -/
def ADS1115.getConversionP0N3 (T : I2CdevT σ) (D : ADS1115) (w0 : Nat) (s : World σ) :=
  D.getConversionMux T ADS1115_MUX_P0_N3 w0 s

/-- `ADS1115::getConversionP1N3`. -/
def ADS1115.getConversionP1N3 (T : I2CdevT σ) (D : ADS1115) (w0 : Nat) (s : World σ) :=
  D.getConversionMux T ADS1115_MUX_P1_N3 w0 s

/-- `ADS1115::getConversionP2N3`. -/
def ADS1115.getConversionP2N3 (T : I2CdevT σ) (D : ADS1115) (w0 : Nat) (s : World σ) :=
  D.getConversionMux T ADS1115_MUX_P2_N3 w0 s

/-- `ADS1115::getConversionP0GND`. -/
def ADS1115.getConversionP0GND (T : I2CdevT σ) (D : ADS1115) (w0 : Nat) (s : World σ) :=
  D.getConversionMux T ADS1115_MUX_P0_NG w0 s

/-- `ADS1115::getConversionP1GND`. -/
def ADS1115.getConversionP1GND (T : I2CdevT σ) (D : ADS1115) (w0 : Nat) (s : World σ) :=
  D.getConversionMux T ADS1115_MUX_P1_NG w0 s

/-- `ADS1115::getConversionP2GND`. -/
def ADS1115.getConversionP2GND (T : I2CdevT σ) (D : ADS1115) (w0 : Nat) (s : World σ) :=
  D.getConversionMux T ADS1115_MUX_P2_NG w0 s

/-- `ADS1115::getConversionP3GND`. -/
def ADS1115.getConversionP3GND (T : I2CdevT σ) (D : ADS1115) (w0 : Nat) (s : World σ) :=
  D.getConversionMux T ADS1115_MUX_P3_NG w0 s

/-- `ADS1115::setConversionReadyPinMode`. -/
def ADS1115.setConversionReadyPinMode (T : I2CdevT σ) (D : ADS1115) (w0 : Nat)
    (s : World σ) : Option (ADS1115 × World σ) :=
  (writeBitW T D.devAddr ADS1115_RA_HI_THRESH 15 1 w0 s).bind fun p =>
  (writeBitW T D.devAddr ADS1115_RA_LO_THRESH 15 0 w0 p.2).bind fun p =>
  (D.setComparatorPolarity T false w0 p.2).bind fun p =>
  p.1.setComparatorQueueMode T 0 w0 p.2

/-- The word `writeBitW` writes back over an old register content `w`. -/
def writeBitWValue (w bitNum data : Nat) : Nat :=
  if data ≠ 0 then u16 (w ||| (1 <<< bitNum)) else u16 (w &&& intNot (1 <<< bitNum))

/-! ## Threshold registers, polling traces and the DS1307 convenience methods -/

/-- `ADS1115::getLowThreshold`. -/
def ADS1115.getLowThreshold (T : I2CdevT σ) (D : ADS1115) (s : World σ) :
    Option (Int × ADS1115 × World σ) :=
  match readWord T D.devAddr ADS1115_RA_LO_THRESH (cell D.buffer) s with
  | none => none
  | some (_, buf, s) => some (u16ToI16 (buf 0), { D with buffer := buf 0 }, s)

/-- `ADS1115::setLowThreshold`: the `int16_t` argument is converted to the `uint16_t`
parameter of `writeWord`. -/
def ADS1115.setLowThreshold (T : I2CdevT σ) (D : ADS1115) (threshold : Int) (s : World σ) :
    Option (ADS1115 × World σ) :=
  match writeWord T D.devAddr ADS1115_RA_LO_THRESH (u16OfInt threshold) s with
  | none => none
  | some (_, s) => some (D, s)

/-- `ADS1115::getHighThreshold`. -/
def ADS1115.getHighThreshold (T : I2CdevT σ) (D : ADS1115) (s : World σ) :
    Option (Int × ADS1115 × World σ) :=
  match readWord T D.devAddr ADS1115_RA_HI_THRESH (cell D.buffer) s with
  | none => none
  | some (_, buf, s) => some (u16ToI16 (buf 0), { D with buffer := buf 0 }, s)

/-- `ADS1115::setHighThreshold`. -/
def ADS1115.setHighThreshold (T : I2CdevT σ) (D : ADS1115) (threshold : Int) (s : World σ) :
    Option (ADS1115 × World σ) :=
  match writeWord T D.devAddr ADS1115_RA_HI_THRESH (u16OfInt threshold) s with
  | none => none
  | some (_, s) => some (D, s)

/-- The outcome of `k` consecutive calls of `isConversionReady`, none of them skipped: the
values returned, in order, and the state reached. -/
def ADS1115.isConversionReadyTimes (T : I2CdevT σ) (w0 : Nat) :
    Nat → ADS1115 → World σ → Option (List Bool × ADS1115 × World σ)
  | 0, D, s => some ([], D, s)
  | k + 1, D, s =>
    match D.isConversionReady T w0 s with
    | none => none
    | some (r, D, s) =>
      match ADS1115.isConversionReadyTimes T w0 k D s with
      | none => none
      | some (rs, D, s) => some (r :: rs, D, s)

/-- The number of read requests in a record of bus traffic. -/
def requestCount : List BusEvent → Nat
  | [] => 0
  | BusEvent.request _ _ _ :: l => requestCount l + 1
  | BusEvent.transmit _ _ _ :: l => requestCount l

/-- `DS1307::setTime24`. -/
def DS1307.setTime24 (T : I2CdevT σ) (D : DS1307) (hours minutes seconds : Nat)
    (s : World σ) : DS1307 × World σ :=
  let r := D.setSeconds T seconds s
  let r := r.1.setMinutes T minutes r.2
  r.1.setHours24 T hours r.2

/-- `DS1307::getTime12`, returning the four outputs `*hours`, `*minutes`, `*seconds`,
`*ampm`. -/
def DS1307.getTime12 (T : I2CdevT σ) (D : DS1307) (b0 : Nat) (s : World σ) :
    Option ((Nat × Nat × Nat × Nat) × DS1307 × World σ) :=
  match D.getHours12 T s with
  | none => none
  | some (hours, D, s) =>
    match D.getMinutes T s with
    | none => none
    | some (minutes, D, s) =>
      match D.getSeconds T s with
      | none => none
      | some (seconds, D, s) =>
        match D.getAMPM T b0 s with
        | none => none
        | some (ampm, D, s) => some ((hours, minutes, seconds, ampm), D, s)

/-- The coherence of the cached flags of the DS1307 driver with the chip: `clockHalt` is
bit 7 of the SECONDS register and `mode12` is bit 6 of the HOURS register. -/
def DS1307.Inv (D : DS1307) (s : World RegFile) : Prop :=
  D.clockHalt = (s.dev.regs DS1307_RA_SECONDS).testBit DS1307_SECONDS_CH_BIT
    ∧ D.mode12 = (s.dev.regs DS1307_RA_HOURS).testBit DS1307_HOURS_MODE_BIT

instance (D : DS1307) (s : World RegFile) : Decidable (DS1307.Inv D s) := by
  unfold DS1307.Inv
  exact inferInstance

/-! ## Width-generic forms of the bit-field arithmetic -/

/-- Width-generic form of the value written back by the bit-field write. -/
def fieldWrite (w b bitStart length data : Nat) : Nat :=
  ((b &&& intNot (fieldMask bitStart length % 2 ^ w)) % 2 ^ w)
    ||| (((data <<< fieldShift bitStart length) % 2 ^ w) &&& (fieldMask bitStart length % 2 ^ w))

/-- Width-generic form of the value extracted by the bit-field read. -/
def fieldRead (w b bitStart length : Nat) : Nat :=
  ((b &&& (fieldMask bitStart length % 2 ^ w)) >>> fieldShift bitStart length) % 2 ^ w

/-! ## Machine arithmetic lemmas -/

theorem fieldShift_eq (bitStart length : Nat) (h : length ≤ bitStart + 1) :
    fieldShift bitStart length = bitStart + 1 - length := by
  unfold fieldShift; omega

theorem testBit_fieldMask (bitStart length i : Nat) :
    (fieldMask bitStart length).testBit i
      = (decide (fieldShift bitStart length ≤ i) && decide (i - fieldShift bitStart length < length)) := by
  unfold fieldMask
  rw [Nat.testBit_shiftLeft, Nat.one_shiftLeft, Nat.testBit_two_pow_sub_one]

theorem testBit_intNot (x i : Nat) (h : x < 4294967296) :
    (intNot x).testBit i = (decide (i < 32) && !x.testBit i) := by
  have h2 : intNot x = 2 ^ 32 - (x + 1) := by unfold intNot; omega
  rw [h2]
  exact Nat.testBit_two_pow_sub_succ (by simpa using h) i

theorem testBit_fieldWrite (w b bitStart length data i : Nat) (hw : w ≤ 32)
    (h2 : length ≤ bitStart + 1) :
    (fieldWrite w b bitStart length data).testBit i
      = (decide (i < w) &&
          (if bitStart + 1 - length ≤ i ∧ i ≤ bitStart then data.testBit (i - (bitStart + 1 - length))
           else b.testBit i)) := by
  have hm : fieldMask bitStart length % 2 ^ w < 4294967296 := by
    have : 2 ^ w ≤ 2 ^ 32 := Nat.pow_le_pow_right (by decide) hw
    have := Nat.mod_lt (fieldMask bitStart length) (Nat.two_pow_pos w)
    omega
  unfold fieldWrite
  simp only [Nat.testBit_or, Nat.testBit_and, Nat.testBit_mod_two_pow, testBit_intNot _ _ hm,
    testBit_fieldMask, Nat.testBit_shiftLeft, fieldShift_eq _ _ h2]
  by_cases hi : i < w
  · by_cases h4 : bitStart + 1 - length ≤ i
    · by_cases h5 : i ≤ bitStart
      · have : i - (bitStart + 1 - length) < length := by omega
        have : i < 32 := by omega
        simp [*]
      · have : ¬ (i - (bitStart + 1 - length) < length) := by omega
        have : i < 32 := by omega
        simp [*]
    · have : i < 32 := by omega
      simp [*]
  · simp [hi]


theorem fieldRead_eq (w b bitStart length : Nat)
    (h2 : length ≤ bitStart + 1) (h3 : bitStart < w) :
    fieldRead w b bitStart length = (b >>> (bitStart + 1 - length)) % 2 ^ length := by
  apply Nat.eq_of_testBit_eq
  intro j
  unfold fieldRead
  simp only [Nat.testBit_and, Nat.testBit_mod_two_pow, testBit_fieldMask, Nat.testBit_shiftRight,
    fieldShift_eq _ _ h2]
  by_cases hj : j < length
  · have : j < w := by omega
    have : bitStart + 1 - length + j < w := by omega
    have : bitStart + 1 - length + j - (bitStart + 1 - length) < length := by omega
    simp [*]
  · have : ¬ (bitStart + 1 - length + j - (bitStart + 1 - length) < length) := by omega
    simp [*]

theorem fieldRead_fieldWrite (w b bitStart length data : Nat) (hw : w ≤ 32)
    (h2 : length ≤ bitStart + 1) (h3 : bitStart < w) :
    fieldRead w (fieldWrite w b bitStart length data) bitStart length = data % 2 ^ length := by
  rw [fieldRead_eq _ _ _ _ h2 h3]
  apply Nat.eq_of_testBit_eq
  intro j
  simp only [Nat.testBit_mod_two_pow, Nat.testBit_shiftRight, testBit_fieldWrite _ _ _ _ _ _ hw h2]
  by_cases hj : j < length
  · have h5 : bitStart + 1 - length + j < w := by omega
    have h6 : bitStart + 1 - length ≤ bitStart + 1 - length + j ∧
        bitStart + 1 - length + j ≤ bitStart := by omega
    simp [hj, h5, h6]
  · simp [hj]

theorem fieldWrite_formula (w b bitStart length data : Nat) (hw : w ≤ 32) (hb : b < 2 ^ w)
    (h2 : length ≤ bitStart + 1) (h3 : bitStart < w) :
    fieldWrite w b bitStart length data
      = (b &&& (2 ^ w - 1 - (2 ^ length - 1) * 2 ^ (bitStart + 1 - length)))
        ||| ((data <<< (bitStart + 1 - length)) &&& ((2 ^ length - 1) * 2 ^ (bitStart + 1 - length))) := by
  have hmask : (2 ^ length - 1) * 2 ^ (bitStart + 1 - length) = fieldMask bitStart length := by
    unfold fieldMask
    rw [fieldShift_eq _ _ h2, Nat.shiftLeft_eq, Nat.one_shiftLeft]
  have hlt : fieldMask bitStart length < 2 ^ w := by
    apply Nat.lt_pow_two_of_testBit
    intro i hi
    rw [testBit_fieldMask, fieldShift_eq _ _ h2]
    have : ¬ (i - (bitStart + 1 - length) < length) := by omega
    simp [this]
  have hnot : 2 ^ w - 1 - fieldMask bitStart length = 2 ^ w - (fieldMask bitStart length + 1) := by
    omega
  rw [hmask, hnot]
  apply Nat.eq_of_testBit_eq
  intro i
  rw [testBit_fieldWrite _ _ _ _ _ _ hw h2]
  simp only [Nat.testBit_or, Nat.testBit_and, Nat.testBit_two_pow_sub_succ hlt, testBit_fieldMask,
    Nat.testBit_shiftLeft, fieldShift_eq _ _ h2]
  by_cases hi : i < w
  · by_cases h4 : bitStart + 1 - length ≤ i
    · by_cases h5 : i ≤ bitStart
      · have : i - (bitStart + 1 - length) < length := by omega
        simp [*]
      · have : ¬ (i - (bitStart + 1 - length) < length) := by omega
        simp [*]
    · simp [*]
  · have hbi : b.testBit i = false := Nat.testBit_lt_two_pow (lt_of_lt_of_le hb (Nat.pow_le_pow_right (by decide) (by omega)))
    have : ¬ (i - (bitStart + 1 - length) < length) := by omega
    simp [*]

theorem writeBitsValue_eq (b bitStart length data : Nat) :
    writeBitsValue b bitStart length data = fieldWrite 8 b bitStart length data := rfl

theorem writeBitsWValue_eq (b bitStart length data : Nat) :
    writeBitsWValue b bitStart length data = fieldWrite 16 b bitStart length data := rfl


theorem subU32_u32_right (a b : Nat) : subU32 a (u32 b) = subU32 a b := by
  simp [subU32, u32]

/-- On a clock that advances by one per reading, a reading is at most 2 later than each of
the two readings before it, also across the wrap-around of the 32-bit counter, so less than
the default timeout of 1000. -/
theorem subU32_running (i j : Nat) (h1 : i ≤ j) (h2 : j ≤ i + 2) : subU32 j i < 1000 := by
  simp only [subU32, u32]
  omega

theorem u8_one : u8 1 = 1 := rfl

theorem u8_two : u8 2 = 2 := rfl

theorem u8_zero : u8 0 = 0 := rfl

theorem u16_idem (x : Nat) : u16 (u16 x) = u16 x := by
  simp [u16]

theorem setAt_same {ι : Type} [DecidableEq ι] (data : ι → Nat) (i : ι) (v : Nat) :
    setAt data i v i = v := by
  simp [setAt]

theorem setAt_setAt {ι : Type} [DecidableEq ι] (data : ι → Nat) (i : ι) (v w : Nat) :
    setAt (setAt data i v) i w = setAt data i w := by
  funext j
  by_cases h : j = i <;> simp [setAt, h]

theorem range_one : List.range 1 = [0] := rfl

theorem range_two : List.range 2 = [0, 1] := rfl

theorem readByte_byteRegs (T : I2CdevT RegFile) (hw : T.wire = byteRegs) (hT : NoTimeout T)
    (a r : Nat) (data : Int → Nat) (s : World RegFile) :
    ∃ s2, readByte T a r data s = some (1, setAt data 0 (u8 (s.dev.regs (u8 r))), s2)
      ∧ s2.dev.regs = s.dev.regs
      ∧ s2.log = s.log ++ [BusEvent.transmit a [u8 r] 0,
                           BusEvent.request a 1 [u8 (s.dev.regs (u8 r))]] := by
  rcases hT with h0 | hT
  · simp [readByte, readBytes, readBytesFuel, readBytesLoop, readBytesChunk, readBytesInner,
      timeoutCheck, beginTransmission, wireWrite, endTransmission, requestFrom, tick, hw,
      byteRegs, storeBytes, h0, BUFFER_LENGTH, u8, i8, range_one]
  · have h1 := hT s.ticks (s.ticks + 1) (by omega) (by omega)
    have hpos : 0 < T._timeout := by omega
    have hne : T._timeout ≠ 0 := by omega
    simp [readByte, readBytes, readBytesFuel, readBytesLoop, readBytesChunk, readBytesInner,
      timeoutCheck, beginTransmission, wireWrite, endTransmission, requestFrom, tick, hw,
      byteRegs, storeBytes, hne, hpos, h1, millisNow, subU32_u32_right, BUFFER_LENGTH, u8, i8,
      range_one]

theorem writeByte_byteRegs (T : I2CdevT RegFile) (hw : T.wire = byteRegs)
    (a r v : Nat) (s : World RegFile) :
    ∃ s2, writeByte T a r v s = (true, s2)
      ∧ s2.dev.regs = setAt s.dev.regs (u8 r) (u8 v)
      ∧ s2.log = s.log ++ [BusEvent.transmit a [u8 r, u8 v] 0] := by
  simp [writeByte, writeBytes, writeBytesLoop, beginTransmission, wireWrite, endTransmission, hw,
    byteRegs, storeBytes, cell, u8]

theorem u16_split (x : Nat) : u8 (u16 x >>> 8) * 256 + u8 (u16 x) = u16 x := by
  simp only [u8, u16, Nat.shiftRight_eq_div_pow]
  omega

theorem u16_join (x : Nat) : u16 (u16 (u8 (u8 (x / 256)) <<< 8) ||| u8 (u8 (x % 256))) = u16 x := by
  have h : u8 (u8 (x / 256)) <<< 8 = 2 ^ 8 * u8 (u8 (x / 256)) := by
    rw [Nat.shiftLeft_eq, Nat.mul_comm]
  have hlt : u8 (u8 (x % 256)) < 2 ^ 8 := by simp only [u8]; omega
  have h2 : u16 (u8 (u8 (x / 256)) <<< 8) = 2 ^ 8 * u8 (u8 (x / 256)) := by
    rw [h]; simp only [u8, u16]; omega
  rw [h2, ← Nat.mul_add_lt_is_or hlt]
  simp only [u8, u16]; omega

theorem readWord_wordRegs (T : I2CdevT RegFile) (hw : T.wire = wordRegs) (hT : NoTimeout T)
    (a r : Nat) (data : Int → Nat) (s : World RegFile) :
    ∃ s2, readWord T a r data s = some (1, setAt data 0 (u16 (s.dev.regs (u8 r))), s2)
      ∧ s2.dev.regs = s.dev.regs
      ∧ s2.log = s.log ++ [BusEvent.transmit a [u8 r] 0,
            BusEvent.request a 2 [u8 (s.dev.regs (u8 r) / 256), u8 (s.dev.regs (u8 r) % 256)],
            BusEvent.transmit a [] 0] := by
  rcases hT with h0 | hT
  · simp [readWord, readWords, readWordsFuel, readWordsLoop, readWordsChunk, readWordsInner,
      timeoutCheck, beginTransmission, wireWrite, endTransmission, requestFrom, tick, hw,
      wordRegs, h0, BUFFER_LENGTH, range_two, u16_join, u8_zero, u8_one, u8_two, i8, setAt_same,
      setAt_setAt]
  · have h1 := hT s.ticks (s.ticks + 1) (by omega) (by omega)
    have h2 := hT s.ticks (s.ticks + 1 + 1) (by omega) (by omega)
    have hpos : 0 < T._timeout := by omega
    have hne : T._timeout ≠ 0 := by omega
    simp [readWord, readWords, readWordsFuel, readWordsLoop, readWordsChunk, readWordsInner,
      timeoutCheck, beginTransmission, wireWrite, endTransmission, requestFrom, tick, hw,
      wordRegs, hne, hpos, h1, h2, millisNow, subU32_u32_right, BUFFER_LENGTH, range_two,
      u16_join, u8_zero, u8_one, u8_two, i8, setAt_same, setAt_setAt]

theorem writeWord_wordRegs (T : I2CdevT RegFile) (hw : T.wire = wordRegs)
    (a r v : Nat) (s : World RegFile) :
    ∃ s2, writeWord T a r v s = some (true, s2)
      ∧ s2.dev.regs = setAt s.dev.regs (u8 r) (u16 v)
      ∧ s2.log = s.log ++ [BusEvent.transmit a [u8 r, u8 (u16 v >>> 8), u8 (u16 v)] 0] := by
  simp [writeWord, writeWords, writeWordsFuel, writeWordsLoop, beginTransmission, wireWrite,
    endTransmission, hw, wordRegs, cell, u8_zero, u8_one, u8_two, u16_split, u16_idem]

theorem u8_shiftRight_eight (x : Nat) (h : x < 2 ^ 16) : u8 (x >>> 8) = x / 256 := by
  simp only [u8, Nat.shiftRight_eq_div_pow]; omega

theorem fieldWrite_lt (w b bitStart length data : Nat) :
    fieldWrite w b bitStart length data < 2 ^ w := by
  unfold fieldWrite
  apply Nat.or_lt_two_pow
  · exact Nat.mod_lt _ (Nat.two_pow_pos w)
  · exact lt_of_le_of_lt Nat.and_le_left (Nat.mod_lt _ (Nat.two_pow_pos w))

theorem u8_writeBitsValue (b bitStart length data : Nat) :
    u8 (writeBitsValue b bitStart length data) = writeBitsValue b bitStart length data := by
  have := fieldWrite_lt 8 b bitStart length data
  rw [writeBitsValue_eq]
  exact Nat.mod_eq_of_lt this

theorem u16_writeBitsWValue (b bitStart length data : Nat) :
    u16 (writeBitsWValue b bitStart length data) = writeBitsWValue b bitStart length data := by
  have := fieldWrite_lt 16 b bitStart length data
  rw [writeBitsWValue_eq]
  exact Nat.mod_eq_of_lt this

theorem writeBits_byteRegs (T : I2CdevT RegFile) (hw : T.wire = byteRegs) (hT : NoTimeout T)
    (a r bitStart length v b0 : Nat) (s : World RegFile) :
    ∃ s2, writeBits T a r bitStart length v b0 s = some (true, s2)
      ∧ s2.dev.regs = setAt s.dev.regs (u8 r)
          (writeBitsValue (u8 (s.dev.regs (u8 r))) bitStart length v)
      ∧ s2.log = s.log ++ [BusEvent.transmit a [u8 r] 0,
          BusEvent.request a 1 [u8 (s.dev.regs (u8 r))],
          BusEvent.transmit a [u8 r, writeBitsValue (u8 (s.dev.regs (u8 r))) bitStart length v] 0] := by
  obtain ⟨s1, h1, h2, h3⟩ := readByte_byteRegs T hw hT a r (cell (u8 b0)) s
  obtain ⟨s2, h4, h5, h6⟩ := writeByte_byteRegs T hw a r
    (writeBitsValue (u8 (s.dev.regs (u8 r))) bitStart length v) s1
  refine ⟨s2, ?_, ?_, ?_⟩
  · simp [writeBits, h1, setAt_same, h4]
  · rw [h5, h2, u8_writeBitsValue]
  · rw [h6, h3, u8_writeBitsValue]; simp

theorem readBits_byteRegs (T : I2CdevT RegFile) (hw : T.wire = byteRegs) (hT : NoTimeout T)
    (a r bitStart length out b0 : Nat) (s : World RegFile) :
    ∃ s2, readBits T a r bitStart length out b0 s
        = some (1, fieldRead 8 (u8 (s.dev.regs (u8 r))) bitStart length, s2)
      ∧ s2.dev.regs = s.dev.regs := by
  obtain ⟨s1, h1, h2, _⟩ := readByte_byteRegs T hw hT a r (cell (u8 b0)) s
  refine ⟨s1, ?_, h2⟩
  simp [readBits, h1, setAt_same, i8ToU8, u8ToI8, i8]
  rfl

theorem writeBitsW_wordRegs (T : I2CdevT RegFile) (hw : T.wire = wordRegs) (hT : NoTimeout T)
    (a r bitStart length v w0 : Nat) (s : World RegFile) :
    ∃ s2, writeBitsW T a r bitStart length v w0 s = some (true, s2)
      ∧ s2.dev.regs = setAt s.dev.regs (u8 r)
          (writeBitsWValue (u16 (s.dev.regs (u8 r))) bitStart length v)
      ∧ ∃ pre, s2.log = pre ++ [BusEvent.transmit a [u8 r,
          writeBitsWValue (u16 (s.dev.regs (u8 r))) bitStart length v / 256,
          writeBitsWValue (u16 (s.dev.regs (u8 r))) bitStart length v % 256] 0] := by
  obtain ⟨s1, h1, h2, h3⟩ := readWord_wordRegs T hw hT a r (cell (u16 w0)) s
  obtain ⟨s2, h4, h5, h6⟩ := writeWord_wordRegs T hw a r
    (writeBitsWValue (u16 (s.dev.regs (u8 r))) bitStart length v) s1
  refine ⟨s2, ?_, ?_, ?_⟩
  · simp [writeBitsW, h1, setAt_same, h4]
  · rw [h5, h2, u16_writeBitsWValue]
  · refine ⟨s1.log, ?_⟩
    rw [h6, u16_writeBitsWValue]
    have hlt := fieldWrite_lt 16 (u16 (s.dev.regs (u8 r))) bitStart length v
    rw [← writeBitsWValue_eq] at hlt
    rw [u8_shiftRight_eight _ hlt]; rfl

theorem readBitsW_wordRegs (T : I2CdevT RegFile) (hw : T.wire = wordRegs) (hT : NoTimeout T)
    (a r bitStart length out w0 : Nat) (s : World RegFile) :
    ∃ s2, readBitsW T a r bitStart length out w0 s
        = some (1, fieldRead 16 (u16 (s.dev.regs (u8 r))) bitStart length, s2)
      ∧ s2.dev.regs = s.dev.regs := by
  obtain ⟨s1, h1, h2, _⟩ := readWord_wordRegs T hw hT a r (cell (u16 w0)) s
  refine ⟨s1, ?_, h2⟩
  simp [readBitsW, h1, setAt_same, i8ToU8, u8ToI8, i8]
  rfl


theorem writeWord_any (T : I2CdevT σ) (a r x : Nat) (s : World σ) :
    ∃ st s1, writeWord T a r x s = some (decide (st = 0), s1)
      ∧ s1.log = s.log ++ [BusEvent.transmit a [u8 r, u8 (u16 x >>> 8), u8 (u16 x)] st] := by
  refine ⟨u8 (T.wire.onWrite s.dev a [u8 r, u8 (u16 x >>> 8), u8 (u16 x)]).2, ?_⟩
  simp [writeWord, writeWords, writeWordsFuel, writeWordsLoop, beginTransmission, wireWrite,
    endTransmission, cell, u8_one, u8_two, u16_idem]

/-! ## The claims -/

/-- C1. Field round-trip on the register-file devices, for both register widths: when no
read times out, `writeBits(bitStart, length, v)` succeeds and a following
`readBits(bitStart, length)` returns status 1 and stores `v mod 2^length`, for every register
content, every `length ≤ bitStart + 1 ≤ 8` and every `v`; likewise `writeBitsW` and
`readBitsW` for `length ≤ bitStart + 1 ≤ 16`.
Here no read times out when the timeout is disabled, or when every clock reading is less
than the timeout later than each of the two readings before it, as on any running clock
whose readings are under half a timeout apart. -/
theorem field_round_trip (millis : Nat → Nat) (timeout : Nat)
    (hT : timeout = 0 ∨
      ∀ i j, i ≤ j → j ≤ i + 2 → subU32 (millis j) (millis i) < timeout)
    (a r bitStart length v out b0 b1 : Nat) (s : World RegFile)
    (h2 : length ≤ bitStart + 1) :
    (bitStart ≤ 7 → ∃ s1 s2,
        writeBits (byteT millis timeout) a r bitStart length v b0 s = some (true, s1)
        ∧ readBits (byteT millis timeout) a r bitStart length out b1 s1
            = some (1, v % 2 ^ length, s2))
    ∧ (bitStart ≤ 15 → ∃ s1 s2,
        writeBitsW (wordT millis timeout) a r bitStart length v b0 s = some (true, s1)
        ∧ readBitsW (wordT millis timeout) a r bitStart length out b1 s1
            = some (1, v % 2 ^ length, s2)) := by
  constructor
  · intro h3
    obtain ⟨s1, e1, e2, _⟩ := writeBits_byteRegs (byteT millis timeout) rfl hT a r bitStart
      length v b0 s
    obtain ⟨s2, e3, _⟩ := readBits_byteRegs (byteT millis timeout) rfl hT a r bitStart length
      out b1 s1
    refine ⟨s1, s2, e1, ?_⟩
    rw [e3, e2, setAt_same, u8_writeBitsValue, writeBitsValue_eq,
      fieldRead_fieldWrite 8 _ _ _ _ (by decide) h2 (by omega)]
  · intro h3
    obtain ⟨s1, e1, e2, _⟩ := writeBitsW_wordRegs (wordT millis timeout) rfl hT a r bitStart
      length v b0 s
    obtain ⟨s2, e3, _⟩ := readBitsW_wordRegs (wordT millis timeout) rfl hT a r bitStart length
      out b1 s1
    refine ⟨s1, s2, e1, ?_⟩
    rw [e3, e2, setAt_same, u16_writeBitsWValue, writeBitsWValue_eq,
      fieldRead_fieldWrite 16 _ _ _ _ (by decide) h2 (by omega)]

/-- Witness for C1: a 3-bit field at `bitStart = 4`, value `0b101`, register `0xC3`, with
the default 1000 ms timeout on a clock that advances by one per reading. -/
theorem field_round_trip_witness :
    (∃ s1 s2, writeBits (byteT (fun n => n) 1000) 0x68 3 4 3 5 0 (allRegs 0xC3) = some (true, s1)
        ∧ readBits (byteT (fun n => n) 1000) 0x68 3 4 3 0 0 s1 = some (1, 5 % 2 ^ 3, s2))
    ∧ (∃ s1 s2, writeBitsW (wordT (fun n => n) 1000) 0x68 3 4 3 5 0 (allRegs 0xC3) = some (true, s1)
        ∧ readBitsW (wordT (fun n => n) 1000) 0x68 3 4 3 0 0 s1 = some (1, 5 % 2 ^ 3, s2)) :=
  ⟨(field_round_trip (fun n => n) 1000 (Or.inr subU32_running) 0x68 3 4 3 5 0 0 0
      (allRegs 0xC3) (by decide)).1 (by decide),
   (field_round_trip (fun n => n) 1000 (Or.inr subU32_running) 0x68 3 4 3 5 0 0 0
      (allRegs 0xC3) (by decide)).2 (by decide)⟩

/-- C2. Frame of the bit-field write on the register-file devices, for both register
widths: when no read times out and `length ≤ bitStart + 1 ≤ 8` (resp. `≤ 16`), the value `x`
that `writeBits` (resp. `writeBitsW`) sends back to the register and leaves in it agrees
with the old content on every bit outside `[bitStart-length+1, bitStart]`, and
`x = (old AND NOT mask) OR ((v << (bitStart-length+1)) AND mask)` with
`mask = (2^length - 1) << (bitStart-length+1)`.  The two samples of the code comments are
included.
Here no read times out when the timeout is disabled, or when every clock reading is less
than the timeout later than each of the two readings before it, as on any running clock
whose readings are under half a timeout apart. -/
theorem write_bits_frame (millis : Nat → Nat) (timeout : Nat)
    (hT : timeout = 0 ∨
      ∀ i j, i ≤ j → j ≤ i + 2 → subU32 (millis j) (millis i) < timeout)
    (a r bitStart length v b0 : Nat) (s : World RegFile)
    (h2 : length ≤ bitStart + 1) :
    (bitStart ≤ 7 → ∃ s1 x pre,
        writeBits (byteT millis timeout) a r bitStart length v b0 s = some (true, s1)
        ∧ s1.dev.regs (u8 r) = x
        ∧ s1.log = pre ++ [BusEvent.transmit a [u8 r, x] 0]
        ∧ (∀ i, i < bitStart + 1 - length ∨ bitStart < i →
            x.testBit i = (u8 (s.dev.regs (u8 r))).testBit i)
        ∧ x = (u8 (s.dev.regs (u8 r)) &&& (2 ^ 8 - 1 - (2 ^ length - 1) * 2 ^ (bitStart + 1 - length)))
              ||| ((v <<< (bitStart + 1 - length))
                    &&& ((2 ^ length - 1) * 2 ^ (bitStart + 1 - length))))
    ∧ (bitStart ≤ 15 → ∃ s1 x pre,
        writeBitsW (wordT millis timeout) a r bitStart length v b0 s = some (true, s1)
        ∧ s1.dev.regs (u8 r) = x
        ∧ s1.log = pre ++ [BusEvent.transmit a [u8 r, x / 256, x % 256] 0]
        ∧ (∀ i, i < bitStart + 1 - length ∨ bitStart < i →
            x.testBit i = (u16 (s.dev.regs (u8 r))).testBit i)
        ∧ x = (u16 (s.dev.regs (u8 r)) &&& (2 ^ 16 - 1 - (2 ^ length - 1) * 2 ^ (bitStart + 1 - length)))
              ||| ((v <<< (bitStart + 1 - length))
                    &&& ((2 ^ length - 1) * 2 ^ (bitStart + 1 - length))))
    ∧ writeBitsValue 0b10101111 4 3 0b010 = 0b10101011
    ∧ writeBitsWValue 0b1010111110010110 12 3 0b010 = 0b1010101110010110 := by
  refine ⟨?_, ?_, by decide, by decide⟩
  · intro h3
    obtain ⟨s1, e1, e2, e3⟩ := writeBits_byteRegs (byteT millis timeout) rfl hT a r bitStart
      length v b0 s
    have hold : u8 (s.dev.regs (u8 r)) < 2 ^ 8 := Nat.mod_lt _ (by decide)
    refine ⟨s1, _, s.log ++ [BusEvent.transmit a [u8 r] 0,
      BusEvent.request a 1 [u8 (s.dev.regs (u8 r))]], e1, by rw [e2, setAt_same], ?_, ?_, ?_⟩
    · rw [e3]; simp
    · intro i hi
      rw [writeBitsValue_eq, testBit_fieldWrite 8 _ _ _ _ _ (by decide) h2]
      have hn : ¬ (bitStart + 1 - length ≤ i ∧ i ≤ bitStart) := by omega
      rw [if_neg hn]
      by_cases h8 : i < 8
      · simp [h8]
      · have : (u8 (s.dev.regs (u8 r))).testBit i = false :=
          Nat.testBit_lt_two_pow (lt_of_lt_of_le hold (Nat.pow_le_pow_right (by decide) (by omega)))
        simp [h8, this]
    · rw [writeBitsValue_eq]
      exact fieldWrite_formula 8 _ _ _ _ (by decide) hold h2 (by omega)
  · intro h3
    obtain ⟨s1, e1, e2, pre, e3⟩ := writeBitsW_wordRegs (wordT millis timeout) rfl hT a r
      bitStart length v b0 s
    have hold : u16 (s.dev.regs (u8 r)) < 2 ^ 16 := Nat.mod_lt _ (by decide)
    refine ⟨s1, _, pre, e1, by rw [e2, setAt_same], e3, ?_, ?_⟩
    · intro i hi
      rw [writeBitsWValue_eq, testBit_fieldWrite 16 _ _ _ _ _ (by decide) h2]
      have hn : ¬ (bitStart + 1 - length ≤ i ∧ i ≤ bitStart) := by omega
      rw [if_neg hn]
      by_cases h8 : i < 16
      · simp [h8]
      · have : (u16 (s.dev.regs (u8 r))).testBit i = false :=
          Nat.testBit_lt_two_pow (lt_of_lt_of_le hold (Nat.pow_le_pow_right (by decide) (by omega)))
        simp [h8, this]
    · rw [writeBitsWValue_eq]
      exact fieldWrite_formula 16 _ _ _ _ (by decide) hold h2 (by omega)

/-- Witness for C2: the field `bitStart = 4`, `length = 3` of a register holding
`0b10101111`. -/
theorem write_bits_frame_witness :
    (1000 = 0 ∨ ∀ i j : Nat, i ≤ j → j ≤ i + 2 →
        subU32 ((fun n => n) j) ((fun n => n) i) < 1000) ∧ 3 ≤ 4 + 1 ∧
    ∃ s1 x pre,
        writeBits (byteT (fun n => n) 1000) 0x68 3 4 3 2 0 (allRegs 0xAF) = some (true, s1)
        ∧ s1.dev.regs (u8 3) = x
        ∧ s1.log = pre ++ [BusEvent.transmit 0x68 [u8 3, x] 0]
        ∧ (∀ i, i < 4 + 1 - 3 ∨ 4 < i →
            x.testBit i = (u8 ((allRegs 0xAF).dev.regs (u8 3))).testBit i)
        ∧ x = (u8 ((allRegs 0xAF).dev.regs (u8 3)) &&& (2 ^ 8 - 1 - (2 ^ 3 - 1) * 2 ^ (4 + 1 - 3)))
              ||| ((2 <<< (4 + 1 - 3)) &&& ((2 ^ 3 - 1) * 2 ^ (4 + 1 - 3))) :=
  ⟨Or.inr subU32_running, by decide,
   (write_bits_frame (fun n => n) 1000 (Or.inr subU32_running)
      0x68 3 4 3 2 0 (allRegs 0xAF) (by decide)).1 (by decide)⟩

/-- C3, counterexample to the claim as stated: with the register holding `0xC3`,
`writeBits` with `bitStart = 4`, `length = 3` and value `0b101` succeeds and leaves `0xD7`
in the register, which is not `0xD3`. -/
theorem writeBits_example_not_0xD3 :
    ∃ s1, writeBits (byteT (fun n => n) 1000) 0x68 0 4 3 0b101 0 (allRegs 0xC3) = some (true, s1)
      ∧ s1.dev.regs 0 = 0xD7 ∧ s1.dev.regs 0 ≠ 0xD3 := by
  obtain ⟨s1, e1, e2, _⟩ := writeBits_byteRegs (byteT (fun n => n) 1000) rfl
    (Or.inr subU32_running) 0x68 0 4 3 0b101 0 (allRegs 0xC3)
  have h : s1.dev.regs 0 = 0xD7 := by
    rw [e2]
    exact setAt_same _ _ _
  exact ⟨s1, e1, h, by rw [h]; decide⟩

/-- C3 as amended: with the 8-bit register holding `0xC3`, `writeBits` with `bitStart = 4`,
`length = 3` and value `0b101` leaves the register holding `0xD7` (bits 4..2 replaced by
`101`, the other bits untouched), on the 8-bit register file when no read times out.
Here no read times out when the timeout is disabled, or when every clock reading is less
than the timeout later than each of the two readings before it, as on any running clock
whose readings are under half a timeout apart. -/
theorem writeBits_example_0xD7 (millis : Nat → Nat) (timeout : Nat)
    (hT : timeout = 0 ∨
      ∀ i j, i ≤ j → j ≤ i + 2 → subU32 (millis j) (millis i) < timeout)
    (a r b0 : Nat) (s : World RegFile) (h : u8 (s.dev.regs (u8 r)) = 0xC3) :
    ∃ s1, writeBits (byteT millis timeout) a r 4 3 0b101 b0 s = some (true, s1)
      ∧ s1.dev.regs (u8 r) = 0xD7 := by
  obtain ⟨s1, e1, e2, _⟩ := writeBits_byteRegs (byteT millis timeout) rfl hT a r 4 3 0b101 b0 s
  refine ⟨s1, e1, ?_⟩
  rw [e2, setAt_same, h]
  decide

/-- Witness for the amended C3: device address `0x68`, register 7, with the default 1000 ms
timeout on a clock that advances by one per reading. -/
theorem writeBits_example_0xD7_witness :
    u8 ((allRegs 0xC3).dev.regs (u8 7)) = 0xC3 ∧
    ∃ s1, writeBits (byteT (fun n => n) 1000) 0x68 7 4 3 0b101 0 (allRegs 0xC3)
        = some (true, s1)
      ∧ s1.dev.regs (u8 7) = 0xD7 :=
  ⟨by decide, writeBits_example_0xD7 (fun n => n) 1000 (Or.inr subU32_running) 0x68 7 0
    (allRegs 0xC3) (by decide)⟩

/-- C4. Bit-field read is a right-justified extraction, for both register widths: on the
register-file devices, when no read times out and `length ≤ bitStart + 1 ≤ 8` (resp.
`≤ 16`), `readBits` (resp. `readBitsW`) returns status 1 and stores
`(b >> (bitStart-length+1)) mod 2^length`, where `b` is the register content; and whenever
bits `bitStart`, `bitStart-1`, `bitStart-2` of `b` read `101`, that value is `0x05` for
`length = 3`.
Here no read times out when the timeout is disabled, or when every clock reading is less
than the timeout later than each of the two readings before it, as on any running clock
whose readings are under half a timeout apart. -/
theorem read_bits_right_justified (millis : Nat → Nat) (timeout : Nat)
    (hT : timeout = 0 ∨
      ∀ i j, i ≤ j → j ≤ i + 2 → subU32 (millis j) (millis i) < timeout)
    (a r bitStart length out b0 : Nat) (s : World RegFile)
    (h2 : length ≤ bitStart + 1) :
    (bitStart ≤ 7 → ∃ s1,
        readBits (byteT millis timeout) a r bitStart length out b0 s
          = some (1, (u8 (s.dev.regs (u8 r)) >>> (bitStart + 1 - length)) % 2 ^ length, s1))
    ∧ (bitStart ≤ 15 → ∃ s1,
        readBitsW (wordT millis timeout) a r bitStart length out b0 s
          = some (1, (u16 (s.dev.regs (u8 r)) >>> (bitStart + 1 - length)) % 2 ^ length, s1))
    ∧ (∀ b : Nat, 2 ≤ bitStart → b.testBit bitStart = true → b.testBit (bitStart - 1) = false →
        b.testBit (bitStart - 2) = true → (b >>> (bitStart + 1 - 3)) % 2 ^ 3 = 0x05) := by
  refine ⟨?_, ?_, ?_⟩
  · intro h3
    obtain ⟨s1, e1, _⟩ := readBits_byteRegs (byteT millis timeout) rfl hT a r bitStart length
      out b0 s
    exact ⟨s1, by rw [e1, fieldRead_eq 8 _ _ _ h2 (by omega)]⟩
  · intro h3
    obtain ⟨s1, e1, _⟩ := readBitsW_wordRegs (wordT millis timeout) rfl hT a r bitStart length
      out b0 s
    exact ⟨s1, by rw [e1, fieldRead_eq 16 _ _ _ h2 (by omega)]⟩
  · intro b hb t2 t1 t0
    have e0 : bitStart + 1 - 3 + 0 = bitStart - 2 := by omega
    have e1 : bitStart + 1 - 3 + 1 = bitStart - 1 := by omega
    have e2 : bitStart + 1 - 3 + 2 = bitStart := by omega
    apply Nat.eq_of_testBit_eq
    intro j
    rw [Nat.testBit_mod_two_pow, Nat.testBit_shiftRight]
    rcases j with _ | _ | _ | j
    · rw [e0, t0]; decide
    · rw [e1, t1]; decide
    · rw [e2, t2]; decide
    · have h5 : (5 : Nat).testBit (j + 1 + 1 + 1) = false :=
        Nat.testBit_lt_two_pow (lt_of_lt_of_le (by decide : 5 < 2 ^ 3)
          (Nat.pow_le_pow_right (by decide) (by omega)))
      have h6 : ¬ (j + 1 + 1 + 1 < 3) := by omega
      simp [h5, h6]

/-- Witness for C4, the sample of the code comment: register `0b01101001`, `bitStart = 4`,
`length = 3` gives `0b010`. -/
theorem read_bits_right_justified_witness :
    ∃ s1, readBits (byteT (fun n => n) 1000) 0x68 3 4 3 0 0 (allRegs 0b01101001)
      = some (1, 0b010, s1) :=
  (read_bits_right_justified (fun n => n) 1000
    (Or.inr subU32_running) 0x68 3 4 3 0 0 (allRegs 0b01101001)
    (by decide)).1 (by decide)

/-- C5. Single-word wire order: for every 16-bit `x` and 8-bit register address `r`, on any
device, `writeWord(dev, r, x)` terminates and adds exactly one transmission to the bus
traffic, with payload `[r, x >> 8, x AND 0xFF]`, and returns whether its status is 0; for
`x = 0x1234` the data bytes are `[0x12, 0x34]`. -/
theorem writeWord_wire_order (T : I2CdevT σ) (a r x : Nat) (s : World σ)
    (hr : r < 256) (hx : x < 65536) :
    (∃ st s1, writeWord T a r x s = some (decide (st = 0), s1)
      ∧ s1.log = s.log ++ [BusEvent.transmit a [r, x >>> 8, x &&& 0xFF] st])
    ∧ (∃ st s1, writeWord T a r 0x1234 s = some (decide (st = 0), s1)
      ∧ s1.log = s.log ++ [BusEvent.transmit a [r, 0x12, 0x34] st]) := by
  have hr8 : u8 r = r := Nat.mod_eq_of_lt hr
  constructor
  · obtain ⟨st, s1, e1, e2⟩ := writeWord_any T a r x s
    refine ⟨st, s1, e1, ?_⟩
    have hx16 : u16 x = x := Nat.mod_eq_of_lt hx
    have hhi : u8 (x >>> 8) = x >>> 8 := by
      rw [u8_shiftRight_eight x (by simpa using hx), Nat.shiftRight_eq_div_pow]
    have hlo : u8 x = x &&& 0xFF := by
      simp only [u8]
      exact (Nat.and_pow_two_sub_one_eq_mod x 8).symm
    rw [e2, hr8, hx16, hhi, hlo]
  · obtain ⟨st, s1, e1, e2⟩ := writeWord_any T a r 0x1234 s
    refine ⟨st, s1, e1, ?_⟩
    rw [e2, hr8]
    rfl

/-- Witness for C5: `x = 0xBEEF` to register 1 of the 16-bit register file. -/
theorem writeWord_wire_order_witness :
    ∃ st s1, writeWord (wordT (fun _ => 0) 1000) 0x48 1 0xBEEF (allRegs 0) = some (decide (st = 0), s1)
      ∧ s1.log = (allRegs 0).log ++ [BusEvent.transmit 0x48 [1, 0xBEEF >>> 8, 0xBEEF &&& 0xFF] st] :=
  (writeWord_wire_order (wordT (fun _ => 0) 1000) 0x48 1 0xBEEF (allRegs 0)
    (by decide) (by decide)).1

theorem readBytesLoop_cycle (T : I2CdevT σ) (a r t1 n : Nat) :
    ∀ (fuel k : Nat) (c : Int) (d : Int → Nat) (s : World σ), k % 32 = 0 → k ≤ 224 →
      readBytesLoop T a r (225 + n) t1 fuel k c d s = none := by
  intro fuel
  induction fuel with
  | zero =>
    intro k c d s _ hk
    have : k < 225 + n := by omega
    simp [readBytesLoop, this]
  | succ fuel ih =>
    intro k c d s hm hk
    have h1 : k < 225 + n := by omega
    have h2 : min (225 + n) BUFFER_LENGTH = 32 := by unfold BUFFER_LENGTH; omega
    rw [readBytesLoop, if_pos h1]
    apply ih
    · rw [h2]; simp only [u8]; omega
    · rw [h2]; simp only [u8]; omega

/-- For `length ≤ 224` the chunk loop of `readBytes` exits once the fuel covers the
remaining chunks. -/
theorem readBytesLoop_terminates (T : I2CdevT σ) (a r length t1 : Nat) (hlen : length ≤ 224) :
    ∀ (fuel k : Nat) (c : Int) (d : Int → Nat) (s : World σ),
      length ≤ k + fuel * min length BUFFER_LENGTH →
      ∃ res, readBytesLoop T a r length t1 fuel k c d s = some res := by
  intro fuel
  induction fuel with
  | zero =>
    intro k c d s hf
    have hk : ¬ k < length := by omega
    exact ⟨(c, d, s), by simp [readBytesLoop, hk]⟩
  | succ fuel ih =>
    intro k c d s hf
    by_cases hk : k < length
    · rw [readBytesLoop, if_pos hk]
      have hk2 : u8 (k + min length BUFFER_LENGTH) = k + min length BUFFER_LENGTH := by
        simp only [u8, BUFFER_LENGTH]; omega
      have hmul : (fuel + 1) * min length BUFFER_LENGTH
          = fuel * min length BUFFER_LENGTH + min length BUFFER_LENGTH := Nat.succ_mul _ _
      exact ih _ _ _ _ (by rw [hk2]; omega)
    · exact ⟨(c, d, s), by simp [readBytesLoop, hk]⟩

/-- For `length ≥ 128` the data loop of `writeWords` is still running after any number of
passes: every value of the 8-bit counter is below `length * 2`. -/
theorem writeWordsLoop_cycle (data : Nat → Nat) (n : Nat) :
    ∀ (fuel i : Nat) (s : World σ), i < 256 →
      writeWordsLoop data (128 + n) fuel i s = none := by
  intro fuel
  induction fuel with
  | zero =>
    intro i s hi
    have : i < (128 + n) * 2 := by omega
    simp [writeWordsLoop, this]
  | succ fuel ih =>
    intro i s hi
    have h1 : i < (128 + n) * 2 := by omega
    rw [writeWordsLoop, if_pos h1]
    exact ih _ _ (Nat.mod_lt _ (by decide))

/-- C6, the code at the failing input `n = 2`: on any device and for any buffer,
`writeWords(dev, r, 2, data)` transmits the register address followed by the two bytes of
`data[0]` and the two bytes of `data[2]`; `data[1]` is never sent, and `data[2]` lies
beyond a buffer of two words. -/
theorem writeWords_two_sends_index_two (T : I2CdevT σ) (a r : Nat) (data : Nat → Nat)
    (s : World σ) :
    ∃ st s1, writeWords T a r 2 data s = some (decide (st = 0), s1)
      ∧ s1.log = s.log ++ [BusEvent.transmit a
          [u8 r, u8 (u16 (data 0) >>> 8), u8 (u16 (data 0)),
                 u8 (u16 (data 2) >>> 8), u8 (u16 (data 2))] st] := by
  refine ⟨u8 (T.wire.onWrite s.dev a [u8 r, u8 (u16 (data 0) >>> 8), u8 (u16 (data 0)),
                 u8 (u16 (data 2) >>> 8), u8 (u16 (data 2))]).2, ?_⟩
  simp [writeWords, writeWordsFuel, writeWordsLoop, beginTransmission, wireWrite,
    endTransmission, u8_one, u8_two, show u8 3 = 3 from rfl, show u8 4 = 4 from rfl]

set_option maxRecDepth 100000 in
/-- C8, the code at the failing input: with chunk limit 32 and registers 0..49 holding
0..49, `readBytes(addr, 0, 50)` returns 50 but leaves `0..31` followed by `0..17` in the
buffer: the second chunk re-sends register address 0, so the device starts again at
register 0.  The buffer is not `[0, 1, ..., 49]`. -/
theorem readBytes_fifty_rereads_chunk :
    (readBytes (byteT (fun _ => 0) 1000) 0x50 0 50 (cell 0xEE) countingRegs).map
        (fun p => (p.1, (List.range 50).map (fun i => p.2.1 (i : Int))))
      = some (50, List.range 32 ++ List.range 18)
    ∧ List.range 32 ++ List.range 18 ≠ List.range 50 := by
  decide

/-- C9, the code at the failing inputs: for every `length ≥ 225` (in particular for the
parameter values 225..255) the chunk loop of `readBytes` is still running after any number
of passes, on any bus and whatever the timeout: the 8-bit counter `k` goes
0, 32, ..., 224 and then wraps to 0.  Accordingly `readBytes` never returns. -/
theorem readBytes_chunk_loop_diverges (T : I2CdevT σ) (a r t1 n fuel : Nat) (c : Int)
    (d : Int → Nat) (s : World σ) :
    readBytesLoop T a r (225 + n) t1 fuel 0 c d s = none
    ∧ readBytesFuel T fuel a r (225 + n) d s = none
    ∧ readBytes T a r (225 + n) d s = none := by
  refine ⟨readBytesLoop_cycle T a r t1 n fuel 0 c d s rfl (by decide), ?_, ?_⟩
  · simp [readBytesFuel, readBytesLoop_cycle T a r _ n fuel 0 0 d _ rfl (by decide)]
  · simp [readBytes, readBytesFuel, readBytesLoop_cycle T a r _ n 256 0 0 d _ rfl (by decide)]


theorem readWordsLoop_exit (T : I2CdevT σ) (a r n t1 fuel k : Nat) (c : Int) (d : Int → Nat)
    (s : World σ) (h : ¬ k < n * 2) :
    readWordsLoop T a r n t1 fuel k c d s = some (c, d, s) := by
  cases fuel <;> simp [readWordsLoop, h]

theorem readWordsLoop_step (T : I2CdevT σ) (a r n t1 fuel k : Nat) (c : Int) (d : Int → Nat)
    (s : World σ) (h : k < n * 2) :
    readWordsLoop T a r n t1 (fuel + 1) k c d s
      = readWordsLoop T a r n t1 fuel (u8 (k + min (n * 2) BUFFER_LENGTH))
          (readWordsChunk T a r n t1 c d s).1 (readWordsChunk T a r n t1 c d s).2.1
          (readWordsChunk T a r n t1 c d s).2.2 := by
  rw [readWordsLoop, if_pos h]

theorem i8_of_small (x : Int) (h0 : -128 ≤ x) (h1 : x ≤ 127) : i8 x = x := by
  unfold i8; omega

theorem word_join (b0 b1 : Nat) : u16 (u16 (u8 b0 <<< 8) ||| u8 b1) = u8 b0 <<< 8 ||| u8 b1 := by
  have h : u8 b0 <<< 8 = 2 ^ 8 * u8 b0 := by rw [Nat.shiftLeft_eq, Nat.mul_comm]
  have hlt : u8 b1 < 2 ^ 8 := by simp only [u8]; omega
  have h0 : u8 b0 < 256 := by simp only [u8]; omega
  have h2 : u16 (2 ^ 8 * u8 b0) = 2 ^ 8 * u8 b0 := by simp only [u16]; omega
  rw [h, h2, ← Nat.mul_add_lt_is_or hlt]
  simp only [u16]; omega

/-- The inner loop of `readWords` on a receive buffer of `2 * m` bytes, when none of the
`2 * m` clock readings it takes (readings `ticks`, ..., `ticks + 2 * m - 1`) is `_timeout`
or more after `t1`, and `count + m ≤ length ≤ 127`: all bytes are consumed, `count` grows by
`m`, word `count + j` is built from bytes `2j` and `2j+1`, and nothing below `count` is
touched. -/
theorem readWordsInner_pairs (T : I2CdevT σ) (t1 n : Nat) (hn : n ≤ 127) :
    ∀ (m : Nat) (rx : List Nat) (count : Int) (data : Int → Nat) (ticks : Nat),
      (T._timeout = 0 ∨
        ∀ j, ticks ≤ j → j < ticks + 2 * m → subU32 (T.millis j) t1 < T._timeout) →
      rx.length = 2 * m → 0 ≤ count → count + m ≤ n →
      ∃ data2 ticks2, readWordsInner T t1 n rx true count data ticks
          = ([], count + m, data2, ticks2)
        ∧ (∀ j : Nat, j < m → data2 (count + j)
              = u8 (rx.getD (2 * j) 0) <<< 8 ||| u8 (rx.getD (2 * j + 1) 0))
        ∧ (∀ i : Int, i < count → data2 i = data i) := by
  intro m
  induction m with
  | zero =>
    intro rx count data ticks _ hl _ _
    have : rx = [] := List.length_eq_zero.mp (by simpa using hl)
    subst this
    exact ⟨data, ticks, by simp [readWordsInner], by intro j hj; omega, fun _ _ => rfl⟩
  | succ m ih =>
    intro rx count data ticks ht hl h0 hc
    match rx, hl with
    | b0 :: b1 :: rest, hl =>
      have hrest : rest.length = 2 * m := by simp at hl; omega
      have hlt : count < (n : Int) := by omega
      have hi8 : i8 (count + 1) = count + 1 := i8_of_small _ (by omega) (by omega)
      have key : ∃ ticks1, readWordsInner T t1 n (b0 :: b1 :: rest) true count data ticks
          = readWordsInner T t1 n rest true (count + 1)
              (setAt data count (u8 b0 <<< 8 ||| u8 b1)) ticks1
          ∧ (T._timeout = 0 ∨
              ∀ j, ticks1 ≤ j → j < ticks1 + 2 * m → subU32 (T.millis j) t1 < T._timeout) := by
        rcases ht with h0t | ht
        · refine ⟨ticks, ?_, Or.inl h0t⟩
          simp [readWordsInner, hlt, h0t, hi8, setAt_same, setAt_setAt, word_join]
        · have h1 := ht ticks (le_refl _) (by omega)
          have h2 := ht (ticks + 1) (by omega) (by omega)
          have hne : T._timeout ≠ 0 := by omega
          refine ⟨ticks + 1 + 1, ?_, Or.inr (fun j hj1 hj2 => ht j (by omega) (by omega))⟩
          simp [readWordsInner, hlt, hne, h1, h2, hi8, setAt_same, setAt_setAt, word_join]
      obtain ⟨ticks1, hkey, ht1⟩ := key
      obtain ⟨data2, ticks2, e1, e2, e3⟩ := ih rest (count + 1)
        (setAt data count (u8 b0 <<< 8 ||| u8 b1)) ticks1 ht1 hrest (by omega) (by omega)
      refine ⟨data2, ticks2, ?_, ?_, ?_⟩
      · rw [hkey, e1]; push_cast; congr 2; omega
      · intro j hj
        cases j with
        | zero =>
          have := e3 count (by omega)
          simpa [setAt_same] using this
        | succ j =>
          have := e2 j (by omega)
          have e : count + ((j + 1 : Nat) : Int) = count + 1 + (j : Int) := by push_cast; omega
          rw [e, this]
          have e4 : 2 * (j + 1) = 2 * j + 1 + 1 := by omega
          rw [e4]
          simp only [List.getD_cons_succ]
      · intro i hi
        rw [e3 i (by omega)]
        have : i ≠ count := by omega
        simp [setAt, this]

theorem subU32_u32_left (a b : Nat) : subU32 (u32 a) b = subU32 a b := by
  simp [subU32, u32]

/-- The final check of a read leaves a full count alone, whatever the clock says: `count`
is only replaced by -1 when it is below `length`. -/
theorem timeoutCheck_full (T : I2CdevT σ) (t1 : Nat) (s : World σ) (n : Nat) :
    (timeoutCheck T t1 n (n : Int) s).1 = (n : Int) := by
  simp only [timeoutCheck]
  split_ifs with h1 h2 h3
  · exact absurd h3 (lt_irrefl _)
  all_goals rfl

/-- C7. Word read reassembly: for `1 ≤ n ≤ 16`, when the bus answers the request for `2n`
bytes with the `2n` bytes `bs` and no timeout occurs in the call (the timeout is disabled,
or each of the `2n` clock readings the receive loop takes, one per byte, is less than
`_timeout` after the reading `t1` taken at the start of the call), `readWords` returns `n`
and stores `data[i] = (bs[2i] << 8) OR bs[2i+1]` for every `i < n`. -/
theorem readWords_reassembly (T : I2CdevT σ) (a r n : Nat)
    (data : Int → Nat) (s : World σ) (bs : List Nat) (h1 : 1 ≤ n) (h16 : n ≤ 16)
    (hT : T._timeout = 0 ∨ ∀ j, s.ticks < j → j ≤ s.ticks + 2 * n →
      subU32 (T.millis j) (T.millis s.ticks) < T._timeout)
    (hbs : (T.wire.onRead (T.wire.onWrite s.dev a [u8 r]).1 a (2 * n)).2 = bs)
    (hlen : bs.length = 2 * n) :
    ∃ data2 s2, readWords T a r n data s = some ((n : Int), data2, s2)
      ∧ ∀ i : Nat, i < n → data2 (i : Int)
          = u8 (bs.getD (2 * i) 0) <<< 8 ||| u8 (bs.getD (2 * i + 1) 0) := by
  have ht : T._timeout = 0 ∨ ∀ j, s.ticks + 1 ≤ j → j < s.ticks + 1 + 2 * n →
      subU32 (T.millis j) (millisNow T s) < T._timeout := by
    rcases hT with h | h
    · exact Or.inl h
    · exact Or.inr (fun j hj1 hj2 => by
        rw [millisNow, subU32_u32_right]; exact h j (by omega) (by omega))
  obtain ⟨data2, ticks2, e1, e2, _⟩ := readWordsInner_pairs T (millisNow T s) n (by omega) n
    (bs.map u8) 0 data (s.ticks + 1) ht (by simpa using hlen) (le_refl _) (by omega)
  have hq : u8 (n * 2) = 2 * n := by simp only [u8]; omega
  have hk : u8 (0 + min (n * 2) BUFFER_LENGTH) = n * 2 := by
    simp only [u8, BUFFER_LENGTH]; omega
  have hchunk : readWordsChunk T a r n (millisNow T s) 0 data (tick s)
      = ((n : Int), data2, (readWordsChunk T a r n (millisNow T s) 0 data (tick s)).2.2) := by
    simp only [readWordsChunk, beginTransmission, wireWrite, endTransmission, requestFrom, tick,
      List.nil_append, hq, hbs, e1]
    simp
  refine ⟨data2, (timeoutCheck T (millisNow T s) n n
    (readWordsChunk T a r n (millisNow T s) 0 data (tick s)).2.2).2, ?_, ?_⟩
  · have hstep := readWordsLoop_step T a r n (millisNow T s) 255 0 0 data (tick s) (by omega)
    have h256 : (256 : Nat) = 255 + 1 := rfl
    rw [readWords, readWordsFuel]
    simp only []
    rw [h256, hstep, hk, readWordsLoop_exit _ _ _ _ _ _ _ _ _ _ (lt_irrefl _), hchunk]
    simp only []
    rw [timeoutCheck_full]
  · intro i hi
    have := e2 i hi
    simp only [zero_add] at this
    rw [this]
    have g : ∀ k, (bs.map u8).getD k 0 = u8 (bs.getD k 0) := by
      intro k
      simp [List.getD_eq_getElem?_getD, List.getElem?_map]
      cases bs[k]? <;> simp [u8]
    rw [g, g]
    simp [u8]

/-- Witness for C7, with the default 1000 ms timeout on a clock that advances by one per
reading: the register holds `0x1234`, so the bus delivers `[0x12, 0x34]`, and one word is
read back as `0x1234`. -/
theorem readWords_reassembly_witness :
    ∃ data2 s2, readWords (wordT (fun n => n) 1000) 0x48 1 1 (cell 0) (allRegs 0x1234)
        = some (1, data2, s2) ∧ data2 0 = 0x1234 := by
  obtain ⟨data2, s2, e, h⟩ := readWords_reassembly (wordT (fun n => n) 1000)
    0x48 1 1 (cell 0) (allRegs 0x1234) [0x12, 0x34] (by decide) (by decide)
    (Or.inr (fun j hj1 hj2 => subU32_running 0 j (Nat.zero_le j) (by simpa using hj2)))
    (by decide) (by decide)
  exact ⟨data2, s2, e, h 0 (by decide)⟩

/-- The inner loop of `readBytes` when `count` cannot overflow: `count` grows by at most the
number of bytes available, and only the buffer positions it passes are written. -/
theorem readBytesInner_bound (T : I2CdevT σ) (t1 : Nat) :
    ∀ (rx : List Nat) (count : Int) (data : Int → Nat) (ticks : Nat),
      0 ≤ count → count + rx.length ≤ 127 →
      count ≤ (readBytesInner T t1 rx count data ticks).2.1
      ∧ (readBytesInner T t1 rx count data ticks).2.1 ≤ count + rx.length
      ∧ ∀ i : Int, i < count ∨ (readBytesInner T t1 rx count data ticks).2.1 ≤ i →
          (readBytesInner T t1 rx count data ticks).2.2.1 i = data i := by
  intro rx
  induction rx with
  | nil =>
    intro count data ticks _ _
    simp [readBytesInner]
  | cons b rx ih =>
    intro count data ticks h0 h1
    have hl : ((b :: rx).length : Int) = (rx.length : Int) + 1 := by simp
    have hi8 : i8 (count + 1) = count + 1 := i8_of_small _ (by omega) (by omega)
    have step : ∀ ticks2,
        count ≤ (readBytesInner T t1 rx (i8 (count + 1)) (setAt data count (u8 b)) ticks2).2.1
        ∧ (readBytesInner T t1 rx (i8 (count + 1)) (setAt data count (u8 b)) ticks2).2.1
            ≤ count + (b :: rx).length
        ∧ ∀ i : Int, i < count ∨
            (readBytesInner T t1 rx (i8 (count + 1)) (setAt data count (u8 b)) ticks2).2.1 ≤ i →
            (readBytesInner T t1 rx (i8 (count + 1)) (setAt data count (u8 b)) ticks2).2.2.1 i
              = data i := by
      intro ticks2
      rw [hi8]
      obtain ⟨g1, g2, g3⟩ := ih (count + 1) (setAt data count (u8 b)) ticks2 (by omega)
        (by omega)
      refine ⟨by omega, by omega, ?_⟩
      intro i hi
      rw [g3 i (by omega)]
      have : i ≠ count := by omega
      simp [setAt, this]
    rw [readBytesInner]
    split
    · exact step ticks
    · split
      · exact step (ticks + 1)
      · dsimp only
        exact ⟨le_refl _, by omega, fun _ _ => rfl⟩

/-- The chunk loop of `readBytes` for `length ≤ 127` on a bus that never delivers more than
was requested: with enough fuel it exits, `count` stays between its initial value and
`length`, and only the buffer positions `count` passes are written. -/
theorem readBytesLoop_spec (T : I2CdevT σ)
    (hdev : ∀ d a q, (T.wire.onRead d a q).2.length ≤ q) (a r length t1 : Nat)
    (hlen : length ≤ 127) :
    ∀ (fuel k : Nat) (count : Int) (data : Int → Nat) (s : World σ),
      length ≤ k + fuel * min length BUFFER_LENGTH → 0 ≤ count → count ≤ min k length →
      ∃ (c : Int) (data2 : Int → Nat) (s2 : World σ),
        readBytesLoop T a r length t1 fuel k count data s = some (c, data2, s2)
        ∧ count ≤ c ∧ c ≤ length
        ∧ ∀ i : Int, i < count ∨ c ≤ i → data2 i = data i := by
  intro fuel
  induction fuel with
  | zero =>
    intro k count data s hf h0 hc
    have hk : ¬ k < length := by omega
    exact ⟨count, data, s, by simp [readBytesLoop, hk], le_refl _, by omega, fun _ _ => rfl⟩
  | succ fuel ih =>
    intro k count data s hf h0 hc
    by_cases hk : k < length
    · rw [readBytesLoop, if_pos hk]
      have hq : u8 (min (length - k) BUFFER_LENGTH) = min (length - k) BUFFER_LENGTH := by
        simp only [u8, BUFFER_LENGTH]; omega
      have hk2 : u8 (k + min length BUFFER_LENGTH) = k + min length BUFFER_LENGTH := by
        simp only [u8, BUFFER_LENGTH]; omega
      have hrx := hdev (T.wire.onWrite s.dev a [u8 r]).1 a (min (length - k) BUFFER_LENGTH)
      have hrx2 : ((List.map u8 (T.wire.onRead (T.wire.onWrite s.dev a [u8 r]).1 a
          (min (length - k) BUFFER_LENGTH)).2).length : Int) ≤ min (length - k) BUFFER_LENGTH := by
        rw [List.length_map]; exact_mod_cast hrx
      have hB : BUFFER_LENGTH = 32 := rfl
      obtain ⟨g1, g2, g3⟩ := readBytesInner_bound T t1
        (List.map u8 (T.wire.onRead (T.wire.onWrite s.dev a [u8 r]).1 a
          (min (length - k) BUFFER_LENGTH)).2) count data s.ticks h0 (by omega)
      have hmul : (fuel + 1) * min length BUFFER_LENGTH
          = fuel * min length BUFFER_LENGTH + min length BUFFER_LENGTH := Nat.succ_mul _ _
      obtain ⟨c, data2, s2, e1, e2, e3, e4⟩ := ih (u8 (k + min length BUFFER_LENGTH))
        (readBytesChunk T a r length t1 k count data s).1
        (readBytesChunk T a r length t1 k count data s).2.1
        (readBytesChunk T a r length t1 k count data s).2.2
        (by rw [hk2]; omega)
        (by
          simp only [readBytesChunk, beginTransmission, wireWrite, endTransmission, requestFrom,
            List.nil_append, hq]
          omega)
        (by
          rw [hk2]
          simp only [readBytesChunk, beginTransmission, wireWrite, endTransmission, requestFrom,
            List.nil_append, hq]
          omega)
      refine ⟨c, data2, s2, e1, ?_, e3, ?_⟩
      · simp only [readBytesChunk, beginTransmission, wireWrite, endTransmission, requestFrom,
          List.nil_append, hq] at e2
        omega
      · intro i hi
        simp only [readBytesChunk, beginTransmission, wireWrite, endTransmission, requestFrom,
          List.nil_append, hq] at e2 e4
        rw [e4 i (by omega)]
        exact g3 i (by omega)
    · exact ⟨count, data, s, by simp [readBytesLoop, hk], le_refl _, by omega, fun _ _ => rfl⟩

/-- C10. Return code of `readBytes`, for `length ≤ 127` on a bus that never delivers more
than was requested: the chunk loop exits (in world `s1`, where the final check is made)
with `stored` bytes in the buffer, `stored ≤ length`, all of them at positions
`0 .. stored-1`; `readBytes` then returns -1 exactly when the timeout is non-zero, the clock
reading of the final check is at least `_timeout` after the reading `t1` taken at the start
of the call, and `stored < length`, and returns `stored` otherwise.  With `_timeout = 0` it
returns `stored`, never -1. -/
theorem readBytes_return_code (T : I2CdevT σ)
    (hdev : ∀ d a q, (T.wire.onRead d a q).2.length ≤ q) (a r length : Nat)
    (hlen : length ≤ 127) (data : Int → Nat) (s : World σ) :
    ∃ (stored : Nat) (data2 : Int → Nat) (s1 s2 : World σ) (ret : Int),
      readBytesLoop T a r length (millisNow T s) 256 0 0 data (tick s)
        = some ((stored : Int), data2, s1)
      ∧ stored ≤ length
      ∧ (∀ i : Int, i < 0 ∨ (stored : Int) ≤ i → data2 i = data i)
      ∧ readBytes T a r length data s = some (ret, data2, s2)
      ∧ (ret = -1 ↔ (T._timeout ≠ 0
            ∧ T._timeout ≤ subU32 (millisNow T s1) (millisNow T s) ∧ stored < length))
      ∧ (ret ≠ -1 → ret = (stored : Int))
      ∧ (T._timeout = 0 → ret = (stored : Int)) := by
  obtain ⟨c, data2, s1, e1, e2, e3, e4⟩ := readBytesLoop_spec T hdev a r length (millisNow T s)
    hlen 256 0 0 data (tick s) (by simp only [BUFFER_LENGTH]; omega) (le_refl _) (by omega)
  obtain ⟨stored, rfl⟩ := Int.eq_ofNat_of_zero_le e2
  have hst : stored ≤ length := by exact_mod_cast e3
  refine ⟨stored, data2, s1, (timeoutCheck T (millisNow T s) length stored s1).2,
    (timeoutCheck T (millisNow T s) length stored s1).1, e1, hst, e4, ?_, ?_, ?_, ?_⟩
  · simp [readBytes, readBytesFuel, e1]
  · unfold timeoutCheck
    by_cases h0 : 0 < T._timeout
    · by_cases h1 : T._timeout ≤ subU32 (millisNow T s1) (millisNow T s)
      · by_cases h2 : stored < length
        · have h3 : (stored : Int) < (length : Int) := by exact_mod_cast h2
          simp [h0, h1, h2, h3]
          omega
        · have h3 : ¬ (stored : Int) < (length : Int) := by exact_mod_cast h2
          simp [h0, h1, h2, h3]
      · simp [h0, h1]
    · simp [h0]
      omega
  · unfold timeoutCheck
    intro h
    by_cases h0 : 0 < T._timeout
    · by_cases h1 : T._timeout ≤ subU32 (millisNow T s1) (millisNow T s)
      · by_cases h3 : (stored : Int) < (length : Int)
        · simp [h0, h1, h3, timeoutCheck] at h
        · simp [h0, h1, h3]
      · simp [h0, h1]
    · simp [h0]
  · intro h
    simp [timeoutCheck, h]

/-- Witness for C10: 5 bytes from the 8-bit register file with a 1000 ms timeout, on a
clock that advances 400 ms per reading. -/
theorem readBytes_return_code_witness :
    ∃ (stored : Nat) (data2 : Int → Nat) (s1 s2 : World RegFile) (ret : Int),
      readBytesLoop (byteT (fun n => 400 * n) 1000) 0x50 0 5
          (millisNow (byteT (fun n => 400 * n) 1000) countingRegs) 256 0 0 (cell 0)
          (tick countingRegs) = some ((stored : Int), data2, s1)
      ∧ stored ≤ 5
      ∧ (∀ i : Int, i < 0 ∨ (stored : Int) ≤ i → data2 i = (cell 0 : Int → Nat) i)
      ∧ readBytes (byteT (fun n => 400 * n) 1000) 0x50 0 5 (cell 0) countingRegs
          = some (ret, data2, s2)
      ∧ (ret = -1 ↔ ((byteT (fun n => 400 * n) 1000)._timeout ≠ 0
            ∧ (byteT (fun n => 400 * n) 1000)._timeout
                ≤ subU32 (millisNow (byteT (fun n => 400 * n) 1000) s1)
                    (millisNow (byteT (fun n => 400 * n) 1000) countingRegs)
            ∧ stored < 5))
      ∧ (ret ≠ -1 → ret = (stored : Int))
      ∧ ((byteT (fun n => 400 * n) 1000)._timeout = 0 → ret = (stored : Int)) :=
  readBytes_return_code (byteT (fun n => 400 * n) 1000)
    (fun d _ q => by simp [byteT, byteRegs]) 0x50 0 5 (by decide) (cell 0) countingRegs


/-- On a bus that never delivers a byte, the chunk loop of `readBytes` (for `length ≤ 224`)
exits with `count`, the buffer and the clock untouched. -/
theorem readBytesLoop_silent (T : I2CdevT σ) (hdev : ∀ d a q, (T.wire.onRead d a q).2 = [])
    (a r length t1 : Nat) (hlen : length ≤ 224) :
    ∀ (fuel k : Nat) (c : Int) (d : Int → Nat) (s : World σ),
      length ≤ k + fuel * min length BUFFER_LENGTH →
      ∃ s2, readBytesLoop T a r length t1 fuel k c d s = some (c, d, s2)
        ∧ s2.ticks = s.ticks := by
  intro fuel
  induction fuel with
  | zero =>
    intro k c d s hf
    have hk : ¬ k < length := by omega
    exact ⟨s, by simp [readBytesLoop, hk], rfl⟩
  | succ fuel ih =>
    intro k c d s hf
    by_cases hk : k < length
    · rw [readBytesLoop, if_pos hk]
      have hk2 : u8 (k + min length BUFFER_LENGTH) = k + min length BUFFER_LENGTH := by
        simp only [u8, BUFFER_LENGTH]; omega
      have hmul : (fuel + 1) * min length BUFFER_LENGTH
          = fuel * min length BUFFER_LENGTH + min length BUFFER_LENGTH := Nat.succ_mul _ _
      have hch : readBytesChunk T a r length t1 k c d s
          = (c, d, (readBytesChunk T a r length t1 k c d s).2.2) := by
        simp [readBytesChunk, requestFrom, hdev, readBytesInner]
      have htk : (readBytesChunk T a r length t1 k c d s).2.2.ticks = s.ticks := by
        simp [readBytesChunk, requestFrom, hdev, readBytesInner, endTransmission, wireWrite,
          beginTransmission]
      obtain ⟨s2, e1, e2⟩ := ih (u8 (k + min length BUFFER_LENGTH)) c d
        (readBytesChunk T a r length t1 k c d s).2.2 (by rw [hk2]; omega)
      refine ⟨s2, ?_, by rw [e2, htk]⟩
      rw [hch]
      exact e1
    · exact ⟨s, by simp [readBytesLoop, hk], rfl⟩

/-- C11, counterexample to the claim as stated: with a 1000 ms timeout, `length = 1` and a
bus that never reports an available byte, `readBytes` returns 0 when the clock has not
advanced by the time of the final check. -/
theorem readBytes_silent_returns_zero :
    (readBytes (silentT (fun _ => 0) 1000) 0x68 0 1 (cell 0) (allRegs 0)).map (fun p => p.1)
      = some 0 := by
  decide

/-- C11 as amended: with a non-zero timeout and `1 ≤ length ≤ 224`, a `readBytes` call
during which the bus never reports an available byte does not wait: it reads the clock once
more after the reading `t1` taken at the start, and returns -1 when that second reading is at
least `_timeout` after `t1`, and 0 otherwise; the buffer is untouched. -/
theorem readBytes_silent_result (T : I2CdevT σ)
    (hdev : ∀ d a q, (T.wire.onRead d a q).2 = []) (a r length : Nat) (data : Int → Nat)
    (s : World σ) (h0 : T._timeout ≠ 0) (h1 : 1 ≤ length) (h2 : length ≤ 224) :
    ∃ s2, readBytes T a r length data s
      = some (if T._timeout ≤ subU32 (T.millis (s.ticks + 1)) (T.millis s.ticks)
              then -1 else 0, data, s2) := by
  obtain ⟨s1, e1, e2⟩ := readBytesLoop_silent T hdev a r length (millisNow T s) h2 256 0 0 data
    (tick s) (by simp only [BUFFER_LENGTH]; omega)
  have hpos : 0 < T._timeout := Nat.pos_of_ne_zero h0
  have hlt : (0 : Int) < (length : Int) := by exact_mod_cast h1
  have ht : s1.ticks = s.ticks + 1 := by rw [e2]; rfl
  refine ⟨(timeoutCheck T (millisNow T s) length 0 s1).2, ?_⟩
  simp only [readBytes, readBytesFuel, e1]
  simp only [timeoutCheck, hpos, if_true, millisNow, ht, subU32_u32_left, subU32_u32_right, hlt]
  split <;> rfl

/-- Witness for the amended C11: the silent register file, timeout 1000 ms, a clock that
advances 1500 ms per reading: the call returns -1. -/
theorem readBytes_silent_result_witness :
    ∃ s2, readBytes (silentT (fun n => 1500 * n) 1000) 0x68 0 4 (cell 7) (allRegs 0)
      = some (-1, cell 7, s2) :=
  readBytes_silent_result (silentT (fun n => 1500 * n) 1000) (fun _ _ _ => rfl) 0x68 0 4 (cell 7)
    (allRegs 0) (by decide) (by decide) (by decide)

theorem u8_idem (x : Nat) : u8 (u8 x) = u8 x := by
  simp [u8]

/-- The data loop of `writeBytes` appends `data[i], ..., data[i+left-1]` to the
transmit buffer. -/
theorem writeBytesLoop_txBuf (data : Nat → Nat) :
    ∀ (left i : Nat) (s : World σ),
      writeBytesLoop data left i s
        = { s with txBuf := s.txBuf ++ (List.range left).map (fun j => u8 (data (i + j))) } := by
  intro left
  induction left with
  | zero => intro i s; simp [writeBytesLoop]
  | succ left ih =>
    intro i s
    rw [writeBytesLoop, ih, List.range_succ_eq_map]
    simp only [wireWrite, u8_idem, List.map_cons, List.map_map, List.append_assoc,
      List.singleton_append, Nat.add_zero]
    congr 2
    congr 1
    apply List.map_congr_left
    intro j _
    simp only [Function.comp, Nat.succ_eq_add_one]
    congr 2
    omega

/-- C12. Wire format and status of `writeBytes`, on any device, for every register address,
every count `n` and every buffer: with an 8-bit register address the call makes exactly one
transmission, with payload `regAddr, d[0], ..., d[n-1]`; with a 16-bit register address
the payload is `regAddr >> 8, regAddr AND 0xFF, d[0], ..., d[n-1]`; in both cases the
result is `true` exactly when the status `st` the bus reports for that transmission is 0. -/
theorem writeBytes_wire_format (T : I2CdevT σ) (a r n : Nat) (data : Nat → Nat) (s : World σ) :
    (∃ st, st = u8 (T.wire.onWrite s.dev a (u8 r :: (List.range n).map (fun i => u8 (data i)))).2
      ∧ (writeBytes T a r n data s).1 = decide (st = 0)
      ∧ (writeBytes T a r n data s).2.log = s.log ++
          [BusEvent.transmit a (u8 r :: (List.range n).map (fun i => u8 (data i))) st])
    ∧ (∃ st, st = u8 (T.wire.onWrite s.dev a
              (u16 r >>> 8 :: u16 r % 256 :: (List.range n).map (fun i => u8 (data i)))).2
      ∧ (writeBytes16 T a r n data s).1 = decide (st = 0)
      ∧ (writeBytes16 T a r n data s).2.log = s.log ++
          [BusEvent.transmit a
            (u16 r >>> 8 :: u16 r % 256 :: (List.range n).map (fun i => u8 (data i))) st]) := by
  constructor
  · refine ⟨_, rfl, ?_, ?_⟩ <;>
      simp [writeBytes, writeBytesLoop_txBuf, beginTransmission, wireWrite, endTransmission]
  · have hlt : u16 r < 2 ^ 16 := Nat.mod_lt _ (by decide)
    have h : u8 (u16 r >>> 8) = u16 r >>> 8 := by
      rw [u8_shiftRight_eight _ hlt, Nat.shiftRight_eq_div_pow]
    have h2 : u8 (u8 (u16 r)) = u16 r % 256 := by simp [u8]
    refine ⟨_, rfl, ?_, ?_⟩ <;>
      simp [writeBytes16, writeBytesLoop_txBuf, beginTransmission, wireWrite, endTransmission,
        h, h2]

set_option maxRecDepth 100000 in
/-- C13, the code at the failing input: timeout 1000 ms on a clock that advances 1000 ms
per reading, so the initial register read times out and returns -1 without storing the
register content.  `writeBits` (register `0xC3`, `bitStart = 4`, `length = 3`, value
`0b101`, local `b` initially 0) nevertheless transmits `[regAddr, 0x14]`, returns `true`
and leaves `0x14` in the register; `writeBitsW` (register `0xC3C3`, `bitStart = 12`)
likewise transmits `[regAddr, 0x14, 0x00]` and leaves `0x1400`. -/
theorem writeBits_writes_after_timed_out_read :
    (readByte (byteT (fun n => 1000 * n) 1000) 0x68 3 (cell (u8 0)) (allRegs 0xC3)).map
        (fun p => p.1) = some (-1)
    ∧ (writeBits (byteT (fun n => 1000 * n) 1000) 0x68 3 4 3 0b101 0 (allRegs 0xC3)).map
        (fun p => (p.1, p.2.dev.regs 3, p.2.log.getLast?))
      = some (true, 0x14, some (BusEvent.transmit 0x68 [3, 0x14] 0))
    ∧ (readWord (wordT (fun n => 1000 * n) 1000) 0x48 3 (cell (u16 0)) (allRegs 0xC3C3)).map
        (fun p => p.1) = some (-1)
    ∧ (writeBitsW (wordT (fun n => 1000 * n) 1000) 0x48 3 12 3 0b101 0 (allRegs 0xC3C3)).map
        (fun p => (p.1, p.2.dev.regs 3, p.2.log.getLast?))
      = some (true, 0x1400, some (BusEvent.transmit 0x48 [3, 0x14, 0x00] 0)) := by
  decide

set_option maxRecDepth 100000 in
/-- C14, the code at the failing inputs.  On a bus that never delivers a byte (timeout
disabled) the initial read of `writeBit` returns 0, yet `writeBit(reg 3, bit 0, 1)` transmits
`[3, 0x01]`, returns `true` and replaces the register content `0xC2` by `0x01`.  With a read
that times out (returns -1), `writeBitW(reg 1, bit 15, 1)` transmits `[1, 0x80, 0x00]`,
returns `true` and replaces `0x0583` by `0x8000`. -/
theorem writeBit_writes_after_failed_read :
    (readByte (silentT (fun _ => 0) 0) 0x68 3 (cell (u8 0)) (allRegs 0xC2)).map
        (fun p => p.1) = some 0
    ∧ (writeBit (silentT (fun _ => 0) 0) 0x68 3 0 1 0 (allRegs 0xC2)).map
        (fun p => (p.1, p.2.dev.regs 3, p.2.log.getLast?))
      = some (true, 0x01, some (BusEvent.transmit 0x68 [3, 0x01] 0))
    ∧ (readWord (wordT (fun n => 1000 * n) 1000) 0x48 1 (cell (u16 0)) (allRegs 0x0583)).map
        (fun p => p.1) = some (-1)
    ∧ (writeBitW (wordT (fun n => 1000 * n) 1000) 0x48 1 15 1 0 (allRegs 0x0583)).map
        (fun p => (p.1, p.2.dev.regs 1, p.2.log.getLast?))
      = some (true, 0x8000, some (BusEvent.transmit 0x48 [1, 0x80, 0x00] 0)) := by
  decide

/-- A read that delivers nothing (status 0) makes `writeBits` and `writeBitsW` stop before
the write. -/
theorem writeBits_aborts_on_zero (T : I2CdevT σ) (a r bitStart length v b0 : Nat)
    (buf : Int → Nat) (s s1 : World σ) :
    (readByte T a r (cell (u8 b0)) s = some (0, buf, s1) →
        writeBits T a r bitStart length v b0 s = some (false, s1))
    ∧ (readWord T a r (cell (u16 b0)) s = some (0, buf, s1) →
        writeBitsW T a r bitStart length v b0 s = some (false, s1)) := by
  constructor <;> intro h <;> simp [writeBits, writeBitsW, h]

theorem readByte_nackByte (st : Nat) (millis : Nat → Nat) (timeout : Nat)
    (hT : NoTimeout (nackByteT st millis timeout)) (a r : Nat) (data : Int → Nat)
    (s : World RegFile) :
    ∃ s2, readByte (nackByteT st millis timeout) a r data s
        = some (1, setAt data 0 (u8 (s.dev.regs (u8 r))), s2)
      ∧ s2.dev.regs = s.dev.regs := by
  rcases hT with h0 | hT
  · have h0 : timeout = 0 := h0
    simp [readByte, readBytes, readBytesFuel, readBytesLoop, readBytesChunk, readBytesInner,
      timeoutCheck, beginTransmission, wireWrite, endTransmission, requestFrom, tick, nackByteT,
      nackByteRegs, byteRegs, h0, BUFFER_LENGTH, u8, i8, range_one]
  · have h1 : subU32 (millis (s.ticks + 1)) (millis s.ticks) < timeout :=
      hT s.ticks (s.ticks + 1) (by omega) (by omega)
    have hpos : 0 < timeout := by omega
    have hne : timeout ≠ 0 := by omega
    simp [readByte, readBytes, readBytesFuel, readBytesLoop, readBytesChunk, readBytesInner,
      timeoutCheck, beginTransmission, wireWrite, endTransmission, requestFrom, tick, nackByteT,
      nackByteRegs, byteRegs, hne, hpos, h1, millisNow, subU32_u32_right, BUFFER_LENGTH, u8, i8,
      range_one]

theorem writeByte_nackByte (st : Nat) (millis : Nat → Nat) (timeout : Nat) (hst : u8 st ≠ 0)
    (a r v : Nat) (s : World RegFile) :
    ∃ s2, writeByte (nackByteT st millis timeout) a r v s = (false, s2)
      ∧ s2.dev.regs = s.dev.regs
      ∧ s2.log = s.log ++ [BusEvent.transmit a [u8 r, u8 v] (u8 st)] := by
  simp [writeByte, writeBytes, writeBytesLoop, beginTransmission, wireWrite, endTransmission,
    nackByteT, nackByteRegs, cell, u8_idem, hst]

theorem readWord_nackWord (st : Nat) (millis : Nat → Nat) (timeout : Nat)
    (hT : NoTimeout (nackWordT st millis timeout)) (a r : Nat) (data : Int → Nat)
    (s : World RegFile) :
    ∃ s2, readWord (nackWordT st millis timeout) a r data s
        = some (1, setAt data 0 (u16 (s.dev.regs (u8 r))), s2)
      ∧ s2.dev.regs = s.dev.regs := by
  rcases hT with h0 | hT
  · have h0 : timeout = 0 := h0
    simp [readWord, readWords, readWordsFuel, readWordsLoop, readWordsChunk, readWordsInner,
      timeoutCheck, beginTransmission, wireWrite, endTransmission, requestFrom, tick, nackWordT,
      nackWordRegs, wordRegs, h0, BUFFER_LENGTH, range_two, u16_join, u8_zero, u8_one, u8_two,
      i8, setAt_same, setAt_setAt]
  · have h1 : subU32 (millis (s.ticks + 1)) (millis s.ticks) < timeout :=
      hT s.ticks (s.ticks + 1) (by omega) (by omega)
    have h2 : subU32 (millis (s.ticks + 1 + 1)) (millis s.ticks) < timeout :=
      hT s.ticks (s.ticks + 1 + 1) (by omega) (by omega)
    have hpos : 0 < timeout := by omega
    have hne : timeout ≠ 0 := by omega
    simp [readWord, readWords, readWordsFuel, readWordsLoop, readWordsChunk, readWordsInner,
      timeoutCheck, beginTransmission, wireWrite, endTransmission, requestFrom, tick, nackWordT,
      nackWordRegs, wordRegs, hne, hpos, h1, h2, millisNow, subU32_u32_right, BUFFER_LENGTH,
      range_two, u16_join, u8_zero, u8_one, u8_two, i8, setAt_same, setAt_setAt]

theorem writeWord_nackWord (st : Nat) (millis : Nat → Nat) (timeout : Nat) (hst : u8 st ≠ 0)
    (a r v : Nat) (s : World RegFile) :
    ∃ s2, writeWord (nackWordT st millis timeout) a r v s = some (false, s2)
      ∧ s2.dev.regs = s.dev.regs := by
  simp [writeWord, writeWords, writeWordsFuel, writeWordsLoop, beginTransmission, wireWrite,
    endTransmission, nackWordT, nackWordRegs, cell, u8_zero, u8_one, u8_two, u16_idem, hst]

/-- C15. Write failure short-circuits: on the register files that store nothing when they
answer a data write with a non-zero status `st`, and when no read times out, each of
`writeBit`, `writeBits`, `writeBitW`, `writeBitsW` returns `false`, leaves every register at
its pre-call value, and a following read of the target register returns that value.
Here no read times out when the timeout is disabled, or when every clock reading is less
than the timeout later than each of the two readings before it, as on any running clock
whose readings are under half a timeout apart. -/
theorem write_failure_short_circuits (st : Nat) (millis : Nat → Nat) (timeout : Nat)
    (hT : timeout = 0 ∨
      ∀ i j, i ≤ j → j ≤ i + 2 → subU32 (millis j) (millis i) < timeout) (hst : u8 st ≠ 0)
    (a r bitNum bitStart length v b0 : Nat) (data : Int → Nat) (s : World RegFile) :
    (∃ s1 s2, writeBit (nackByteT st millis timeout) a r bitNum v b0 s = some (false, s1)
        ∧ s1.dev.regs = s.dev.regs
        ∧ readByte (nackByteT st millis timeout) a r data s1
            = some (1, setAt data 0 (u8 (s.dev.regs (u8 r))), s2))
    ∧ (∃ s1 s2, writeBits (nackByteT st millis timeout) a r bitStart length v b0 s
          = some (false, s1)
        ∧ s1.dev.regs = s.dev.regs
        ∧ readByte (nackByteT st millis timeout) a r data s1
            = some (1, setAt data 0 (u8 (s.dev.regs (u8 r))), s2))
    ∧ (∃ s1 s2, writeBitW (nackWordT st millis timeout) a r bitNum v b0 s = some (false, s1)
        ∧ s1.dev.regs = s.dev.regs
        ∧ readWord (nackWordT st millis timeout) a r data s1
            = some (1, setAt data 0 (u16 (s.dev.regs (u8 r))), s2))
    ∧ (∃ s1 s2, writeBitsW (nackWordT st millis timeout) a r bitStart length v b0 s
          = some (false, s1)
        ∧ s1.dev.regs = s.dev.regs
        ∧ readWord (nackWordT st millis timeout) a r data s1
            = some (1, setAt data 0 (u16 (s.dev.regs (u8 r))), s2)) := by
  refine ⟨?_, ?_, ?_, ?_⟩
  · obtain ⟨s0, e0, r0⟩ := readByte_nackByte st millis timeout hT a r (cell (u8 b0)) s
    obtain ⟨x, hx⟩ : ∃ x, writeBit (nackByteT st millis timeout) a r bitNum v b0 s
        = some (writeByte (nackByteT st millis timeout) a r x s0) := by
      simp only [writeBit, e0]; exact ⟨_, rfl⟩
    obtain ⟨s1, e1, r1, _⟩ := writeByte_nackByte st millis timeout hst a r x s0
    obtain ⟨s2, e2, _⟩ := readByte_nackByte st millis timeout hT a r data s1
    exact ⟨s1, s2, by rw [hx, e1], by rw [r1, r0], by rw [e2, r1, r0]⟩
  · obtain ⟨s0, e0, r0⟩ := readByte_nackByte st millis timeout hT a r (cell (u8 b0)) s
    obtain ⟨x, hx⟩ : ∃ x, writeBits (nackByteT st millis timeout) a r bitStart length v b0 s
        = some (writeByte (nackByteT st millis timeout) a r x s0) := by
      simp only [writeBits, e0]; exact ⟨_, if_pos (by decide)⟩
    obtain ⟨s1, e1, r1, _⟩ := writeByte_nackByte st millis timeout hst a r x s0
    obtain ⟨s2, e2, _⟩ := readByte_nackByte st millis timeout hT a r data s1
    exact ⟨s1, s2, by rw [hx, e1], by rw [r1, r0], by rw [e2, r1, r0]⟩
  · obtain ⟨s0, e0, r0⟩ := readWord_nackWord st millis timeout hT a r (cell (u16 b0)) s
    obtain ⟨x, hx⟩ : ∃ x, writeBitW (nackWordT st millis timeout) a r bitNum v b0 s
        = writeWord (nackWordT st millis timeout) a r x s0 := by
      simp only [writeBitW, e0]; exact ⟨_, rfl⟩
    obtain ⟨s1, e1, r1⟩ := writeWord_nackWord st millis timeout hst a r x s0
    obtain ⟨s2, e2, _⟩ := readWord_nackWord st millis timeout hT a r data s1
    exact ⟨s1, s2, by rw [hx, e1], by rw [r1, r0], by rw [e2, r1, r0]⟩
  · obtain ⟨s0, e0, r0⟩ := readWord_nackWord st millis timeout hT a r (cell (u16 b0)) s
    obtain ⟨x, hx⟩ : ∃ x, writeBitsW (nackWordT st millis timeout) a r bitStart length v b0 s
        = writeWord (nackWordT st millis timeout) a r x s0 := by
      simp only [writeBitsW, e0]; exact ⟨_, if_pos (by decide)⟩
    obtain ⟨s1, e1, r1⟩ := writeWord_nackWord st millis timeout hst a r x s0
    obtain ⟨s2, e2, _⟩ := readWord_nackWord st millis timeout hT a r data s1
    exact ⟨s1, s2, by rw [hx, e1], by rw [r1, r0], by rw [e2, r1, r0]⟩

/-- Witness for C15: status 3 (data not acknowledged), register `0xC3`, bit 0 and the field
`bitStart = 4`, `length = 3`. -/
theorem write_failure_short_circuits_witness :
    ∃ s1 s2, writeBits (nackByteT 3 (fun n => n) 1000) 0x68 2 4 3 5 0 (allRegs 0xC3)
          = some (false, s1)
        ∧ s1.dev.regs = (allRegs 0xC3).dev.regs
        ∧ readByte (nackByteT 3 (fun n => n) 1000) 0x68 2 (cell 0) s1
            = some (1, setAt (cell 0) 0 (u8 ((allRegs 0xC3).dev.regs (u8 2))), s2) :=
  (write_failure_short_circuits 3 (fun n => n) 1000
    (Or.inr subU32_running) (by decide) 0x68 2 0 4 3 5 0 (cell 0)
    (allRegs 0xC3)).2.1

/-- C16. Out-of-range clock values are silently discarded, on any device: `setSeconds(x)`
and `setMinutes(x)` with `x > 59`, `setHours24(x)` with `x > 23`, `setHours12(x, _)` with
`x` outside 1..12, `setDayOfWeek(x)` with `x` outside 1..7, `setMonth(x)` with `x` outside
1..12 and `setYear(x)` with `x < 2000` return with the driver object and the world (device
registers, bus traffic, bus buffers, clock) exactly as they were. -/
theorem ds1307_out_of_range_discarded (T : I2CdevT σ) (D : DS1307) (s : World σ)
    (x ampm b0 : Nat) :
    (x > 59 → D.setSeconds T x s = (D, s))
    ∧ (x > 59 → D.setMinutes T x s = (D, s))
    ∧ (x > 23 → D.setHours24 T x s = (D, s))
    ∧ (x < 1 ∨ x > 12 → D.setHours12 T x ampm s = (D, s))
    ∧ (x < 1 ∨ x > 7 → D.setDayOfWeek T x b0 s = some (D, s))
    ∧ (x < 1 ∨ x > 12 → D.setMonth T x s = (D, s))
    ∧ (x < 2000 → D.setYear T x s = (D, s)) := by
  refine ⟨?_, ?_, ?_, ?_, ?_, ?_, ?_⟩
  · intro h; simp [DS1307.setSeconds, h]
  · intro h; simp [DS1307.setMinutes, h]
  · intro h; simp [DS1307.setHours24, h]
  · intro h
    have h2 : x > 12 ∨ x < 1 := h.symm
    simp only [DS1307.setHours12, if_pos h2]
  · intro h; simp only [DS1307.setDayOfWeek, if_pos h]
  · intro h; simp only [DS1307.setMonth, if_pos h]
  · intro h; simp [DS1307.setYear, h]

/-- Witness for C16: the value 60 is out of range for every one of the seven setters. -/
theorem ds1307_out_of_range_discarded_witness :
    DS1307.setSeconds (byteT (fun _ => 0) 1000) ⟨0x68, 0, false, false⟩ 60 (allRegs 0x15)
        = (⟨0x68, 0, false, false⟩, allRegs 0x15)
    ∧ DS1307.setDayOfWeek (byteT (fun _ => 0) 1000) ⟨0x68, 0, false, false⟩ 60 0 (allRegs 0x15)
        = some (⟨0x68, 0, false, false⟩, allRegs 0x15)
    ∧ DS1307.setYear (byteT (fun _ => 0) 1000) ⟨0x68, 0, false, false⟩ 60 (allRegs 0x15)
        = (⟨0x68, 0, false, false⟩, allRegs 0x15) :=
  ⟨(ds1307_out_of_range_discarded (byteT (fun _ => 0) 1000) ⟨0x68, 0, false, false⟩
      (allRegs 0x15) 60 0 0).1 (by decide),
   (ds1307_out_of_range_discarded (byteT (fun _ => 0) 1000) ⟨0x68, 0, false, false⟩
      (allRegs 0x15) 60 0 0).2.2.2.2.1 (Or.inr (by decide)),
   (ds1307_out_of_range_discarded (byteT (fun _ => 0) 1000) ⟨0x68, 0, false, false⟩
      (allRegs 0x15) 60 0 0).2.2.2.2.2.2 (by decide)⟩

/-- C17, the code at the failing inputs: `setDay` has no range check.  On the 8-bit
register file with the DATE register holding `0x15`, `setDay(32)` transmits `[0x04, 0x32]`
and leaves `0x32` in DATE, and `setDay(0)` transmits `[0x04, 0x00]` and leaves `0x00`. -/
theorem ds1307_setDay_writes_out_of_range :
    ((DS1307.setDay (byteT (fun _ => 0) 1000) ⟨0x68, 0, false, false⟩ 32 (allRegs 0x15)).2.log
        = [BusEvent.transmit 0x68 [0x04, 0x32] 0]
      ∧ (DS1307.setDay (byteT (fun _ => 0) 1000) ⟨0x68, 0, false, false⟩ 32
          (allRegs 0x15)).2.dev.regs DS1307_RA_DATE = 0x32)
    ∧ ((DS1307.setDay (byteT (fun _ => 0) 1000) ⟨0x68, 0, false, false⟩ 0 (allRegs 0x15)).2.log
        = [BusEvent.transmit 0x68 [0x04, 0x00] 0]
      ∧ (DS1307.setDay (byteT (fun _ => 0) 1000) ⟨0x68, 0, false, false⟩ 0
          (allRegs 0x15)).2.dev.regs DS1307_RA_DATE = 0x00) := by
  decide

/-- On the 8-bit register file, when no read times out, a register read by the driver
right after `writeByte` put `v` there returns `v`; the write is the single transmission
`[reg, v]`. -/
theorem ds1307_write_then_read (millis : Nat → Nat) (timeout : Nat)
    (hT : timeout = 0 ∨
      ∀ i j, i ≤ j → j ≤ i + 2 → subU32 (millis j) (millis i) < timeout)
    (D : DS1307) (reg v : Nat) (s : World RegFile) :
    ∃ s2, D.readReg (byteT millis timeout) reg
          (writeByte (byteT millis timeout) D.devAddr reg v s).2
        = some (1, { D with buffer := u8 v }, s2)
      ∧ (writeByte (byteT millis timeout) D.devAddr reg v s).2.log
          = s.log ++ [BusEvent.transmit D.devAddr [u8 reg, u8 v] 0] := by
  obtain ⟨s1, e1, r1, l1⟩ := writeByte_byteRegs (byteT millis timeout) rfl D.devAddr reg v s
  obtain ⟨s2, e2, _, _⟩ := readByte_byteRegs (byteT millis timeout) rfl hT D.devAddr reg
    (cell (u8 D.buffer)) s1
  refine ⟨s2, ?_, by rw [e1]; exact l1⟩
  simp only [DS1307.readReg, e1, e2, r1, setAt_same, u8_idem]

theorem bcd_seconds (x : Nat) (hx : x ≤ 59) (ch : Bool) :
    u8 ((u8 (u8 ((if ch then 0x80 else 0x00) + ((x / 10) <<< 4) + x % 10)) &&& 0x0F)
        + ((u8 (u8 ((if ch then 0x80 else 0x00) + ((x / 10) <<< 4) + x % 10)) &&& 0x70) >>> 4) * 10)
      = x
    ∧ decide (u8 (u8 ((if ch then 0x80 else 0x00) + ((x / 10) <<< 4) + x % 10)) &&& 0x80 ≠ 0) = ch
    ∧ u8 ((if ch then 0x80 else 0x00) + ((x / 10) <<< 4) + x % 10)
        = (if ch then 0x80 else 0x00) + (16 * (x / 10) + x % 10) := by
  interval_cases x <;> cases ch <;> decide

theorem bcd_minutes (x : Nat) (hx : x ≤ 59) :
    u8 ((u8 (u8 (((x / 10) <<< 4) + x % 10)) &&& 0x0F)
        + ((u8 (u8 (((x / 10) <<< 4) + x % 10)) &&& 0x70) >>> 4) * 10) = x
    ∧ u8 (((x / 10) <<< 4) + x % 10) = 16 * (x / 10) + x % 10 := by
  interval_cases x <;> decide

theorem bcd_day (x : Nat) (hx : x ≤ 31) :
    u8 ((u8 (u8 (((x / 10) <<< 4) + x % 10)) &&& 0x0F)
        + ((u8 (u8 (((x / 10) <<< 4) + x % 10)) &&& 0x30) >>> 4) * 10) = x
    ∧ u8 (((x / 10) <<< 4) + x % 10) = 16 * (x / 10) + x % 10 := by
  interval_cases x <;> decide

theorem bcd_month (x : Nat) (hx : x ≤ 12) :
    u8 ((u8 (u8 (((x / 10) <<< 4) + x % 10)) &&& 0x0F)
        + ((u8 (u8 (((x / 10) <<< 4) + x % 10)) &&& 0x10) >>> 4) * 10) = x
    ∧ u8 (((x / 10) <<< 4) + x % 10) = 16 * (x / 10) + x % 10 := by
  interval_cases x <;> decide

theorem bcd_year (y : Nat) (hy : y ≤ 99) :
    u16 (2000 + (u8 (u8 (((u16 y / 10) <<< 4) + u16 y % 10)) &&& 0x0F)
        + ((u8 (u8 (((u16 y / 10) <<< 4) + u16 y % 10)) &&& 0xF0) >>> 4) * 10) = 2000 + y
    ∧ u8 (((u16 y / 10) <<< 4) + u16 y % 10) = 16 * (y / 10) + y % 10 := by
  interval_cases y <;> decide

/-- C18, counterexample to the claim as stated: with the cached clock-halt flag set,
`setSeconds(20)` writes the byte `0xA0`, whose high nibble is 10. -/
theorem ds1307_setSeconds_high_nibble :
    (DS1307.setSeconds (byteT (fun _ => 0) 1000) ⟨0x68, 0, false, true⟩ 20 (allRegs 0)).2.log
      = [BusEvent.transmit 0x68 [DS1307_RA_SECONDS, 0xA0] 0]
    ∧ ¬ (0xA0 / 16 ≤ 9) := by
  decide

/-- C18 as amended: BCD register round-trip on the 8-bit register file when no read times
out.  For seconds 0..59, minutes 0..59, day 0..31, month 1..12 and year 2000..2099 the
setter makes one transmission `[register, byte]` and the getter called next returns the
value that was set, whatever the cached flags are.  The byte is the BCD encoding `v` of the
value, both nibbles of `v` being at most 9; for the SECONDS register it is `v` plus `0x80`
when the cached clock-halt flag is set.
Here no read times out when the timeout is disabled, or when every clock reading is less
than the timeout later than each of the two readings before it, as on any running clock
whose readings are under half a timeout apart. -/
theorem ds1307_bcd_round_trip (millis : Nat → Nat) (timeout : Nat)
    (hT : timeout = 0 ∨
      ∀ i j, i ≤ j → j ≤ i + 2 → subU32 (millis j) (millis i) < timeout)
    (D : DS1307) (s : World RegFile) (x : Nat) :
    (x ≤ 59 → ∃ v D2 s2, v / 16 ≤ 9 ∧ v % 16 ≤ 9
        ∧ (D.setSeconds (byteT millis timeout) x s).2.log = s.log ++
            [BusEvent.transmit D.devAddr
              [DS1307_RA_SECONDS, (if D.clockHalt then 0x80 else 0x00) + v] 0]
        ∧ (D.setSeconds (byteT millis timeout) x s).1.getSeconds (byteT millis timeout)
            (D.setSeconds (byteT millis timeout) x s).2 = some (x, D2, s2))
    ∧ (x ≤ 59 → ∃ v D2 s2, v / 16 ≤ 9 ∧ v % 16 ≤ 9
        ∧ (D.setMinutes (byteT millis timeout) x s).2.log = s.log ++
            [BusEvent.transmit D.devAddr [DS1307_RA_MINUTES, v] 0]
        ∧ (D.setMinutes (byteT millis timeout) x s).1.getMinutes (byteT millis timeout)
            (D.setMinutes (byteT millis timeout) x s).2 = some (x, D2, s2))
    ∧ (x ≤ 31 → ∃ v D2 s2, v / 16 ≤ 9 ∧ v % 16 ≤ 9
        ∧ (D.setDay (byteT millis timeout) x s).2.log = s.log ++
            [BusEvent.transmit D.devAddr [DS1307_RA_DATE, v] 0]
        ∧ (D.setDay (byteT millis timeout) x s).1.getDay (byteT millis timeout)
            (D.setDay (byteT millis timeout) x s).2 = some (x, D2, s2))
    ∧ (1 ≤ x → x ≤ 12 → ∃ v D2 s2, v / 16 ≤ 9 ∧ v % 16 ≤ 9
        ∧ (D.setMonth (byteT millis timeout) x s).2.log = s.log ++
            [BusEvent.transmit D.devAddr [DS1307_RA_MONTH, v] 0]
        ∧ (D.setMonth (byteT millis timeout) x s).1.getMonth (byteT millis timeout)
            (D.setMonth (byteT millis timeout) x s).2 = some (x, D2, s2))
    ∧ (2000 ≤ x → x ≤ 2099 → ∃ v D2 s2, v / 16 ≤ 9 ∧ v % 16 ≤ 9
        ∧ (D.setYear (byteT millis timeout) x s).2.log = s.log ++
            [BusEvent.transmit D.devAddr [DS1307_RA_YEAR, v] 0]
        ∧ (D.setYear (byteT millis timeout) x s).1.getYear (byteT millis timeout)
            (D.setYear (byteT millis timeout) x s).2 = some (x, D2, s2)) := by
  refine ⟨?_, ?_, ?_, ?_, ?_⟩
  · intro hx
    obtain ⟨a1, a2, a3⟩ := bcd_seconds x hx D.clockHalt
    obtain ⟨s2, e1, e2⟩ := ds1307_write_then_read millis timeout hT D DS1307_RA_SECONDS
      (u8 ((if D.clockHalt then 0x80 else 0x00) + ((x / 10) <<< 4) + x % 10)) s
    have hn : ¬ x > 59 := by omega
    have hget : ∃ D2, (D.setSeconds (byteT millis timeout) x s).1.getSeconds
        (byteT millis timeout) (D.setSeconds (byteT millis timeout) x s).2
          = some (x, D2, s2) := by
      simp only [DS1307.setSeconds, if_neg hn, DS1307.getSeconds, e1, a1]
      exact ⟨_, rfl⟩
    obtain ⟨D2, hget⟩ := hget
    refine ⟨16 * (x / 10) + x % 10, D2, s2, by omega, by omega, ?_, hget⟩
    simp only [DS1307.setSeconds, if_neg hn]
    rw [e2, u8_idem, a3]; rfl
  · intro hx
    obtain ⟨a1, a3⟩ := bcd_minutes x hx
    obtain ⟨s2, e1, e2⟩ := ds1307_write_then_read millis timeout hT D DS1307_RA_MINUTES
      (u8 (((x / 10) <<< 4) + x % 10)) s
    have hn : ¬ x > 59 := by omega
    have hget : ∃ D2, (D.setMinutes (byteT millis timeout) x s).1.getMinutes
        (byteT millis timeout) (D.setMinutes (byteT millis timeout) x s).2
          = some (x, D2, s2) := by
      simp only [DS1307.setMinutes, if_neg hn, DS1307.getMinutes, e1, a1]
      exact ⟨_, rfl⟩
    obtain ⟨D2, hget⟩ := hget
    refine ⟨16 * (x / 10) + x % 10, D2, s2, by omega, by omega, ?_, hget⟩
    simp only [DS1307.setMinutes, if_neg hn]
    rw [e2, u8_idem, a3]; rfl
  · intro hx
    obtain ⟨a1, a3⟩ := bcd_day x hx
    obtain ⟨s2, e1, e2⟩ := ds1307_write_then_read millis timeout hT D DS1307_RA_DATE
      (u8 (((x / 10) <<< 4) + x % 10)) s
    have hget : ∃ D2, (D.setDay (byteT millis timeout) x s).1.getDay
        (byteT millis timeout) (D.setDay (byteT millis timeout) x s).2
          = some (x, D2, s2) := by
      simp only [DS1307.setDay, DS1307.getDay, e1, a1]
      exact ⟨_, rfl⟩
    obtain ⟨D2, hget⟩ := hget
    refine ⟨16 * (x / 10) + x % 10, D2, s2, by omega, by omega, ?_, hget⟩
    simp only [DS1307.setDay]
    rw [e2, u8_idem, a3]; rfl
  · intro h1 hx
    obtain ⟨a1, a3⟩ := bcd_month x hx
    obtain ⟨s2, e1, e2⟩ := ds1307_write_then_read millis timeout hT D DS1307_RA_MONTH
      (u8 (((x / 10) <<< 4) + x % 10)) s
    have hn : ¬ (x < 1 ∨ x > 12) := by omega
    have hget : ∃ D2, (D.setMonth (byteT millis timeout) x s).1.getMonth
        (byteT millis timeout) (D.setMonth (byteT millis timeout) x s).2
          = some (x, D2, s2) := by
      simp only [DS1307.setMonth, if_neg hn, DS1307.getMonth, e1, a1]
      exact ⟨_, rfl⟩
    obtain ⟨D2, hget⟩ := hget
    refine ⟨16 * (x / 10) + x % 10, D2, s2, by omega, by omega, ?_, hget⟩
    simp only [DS1307.setMonth, if_neg hn]
    rw [e2, u8_idem, a3]; rfl
  · intro h1 hx
    obtain ⟨a1, a3⟩ := bcd_year (x - 2000) (by omega)
    obtain ⟨s2, e1, e2⟩ := ds1307_write_then_read millis timeout hT D DS1307_RA_YEAR
      (u8 (((u16 (x - 2000) / 10) <<< 4) + u16 (x - 2000) % 10)) s
    have hn : ¬ x < 2000 := by omega
    have hx2 : 2000 + (x - 2000) = x := by omega
    have hget : ∃ D2, (D.setYear (byteT millis timeout) x s).1.getYear
        (byteT millis timeout) (D.setYear (byteT millis timeout) x s).2
          = some (x, D2, s2) := by
      simp only [DS1307.setYear, if_neg hn, DS1307.getYear, e1, a1, hx2]
      exact ⟨_, rfl⟩
    obtain ⟨D2, hget⟩ := hget
    refine ⟨16 * ((x - 2000) / 10) + (x - 2000) % 10, D2, s2, by omega, by omega, ?_, hget⟩
    simp only [DS1307.setYear, if_neg hn]
    rw [e2, u8_idem, a3]; rfl

/-- Witness for the amended C18: 45 seconds with the clock-halt flag set, and the year
2024. -/
theorem ds1307_bcd_round_trip_witness :
    (∃ v D2 s2, v / 16 ≤ 9 ∧ v % 16 ≤ 9
        ∧ (DS1307.setSeconds (byteT (fun n => n) 1000) ⟨0x68, 0, false, true⟩ 45
            (allRegs 0)).2.log = (allRegs 0).log ++
            [BusEvent.transmit 0x68 [DS1307_RA_SECONDS, (if true then 0x80 else 0x00) + v] 0]
        ∧ (DS1307.setSeconds (byteT (fun n => n) 1000) ⟨0x68, 0, false, true⟩ 45
              (allRegs 0)).1.getSeconds (byteT (fun n => n) 1000)
            (DS1307.setSeconds (byteT (fun n => n) 1000) ⟨0x68, 0, false, true⟩ 45
              (allRegs 0)).2 = some (45, D2, s2))
    ∧ (∃ v D2 s2, v / 16 ≤ 9 ∧ v % 16 ≤ 9
        ∧ (DS1307.setYear (byteT (fun n => n) 1000) ⟨0x68, 0, false, true⟩ 2024
            (allRegs 0)).2.log = (allRegs 0).log ++
            [BusEvent.transmit 0x68 [DS1307_RA_YEAR, v] 0]
        ∧ (DS1307.setYear (byteT (fun n => n) 1000) ⟨0x68, 0, false, true⟩ 2024
              (allRegs 0)).1.getYear (byteT (fun n => n) 1000)
            (DS1307.setYear (byteT (fun n => n) 1000) ⟨0x68, 0, false, true⟩ 2024
              (allRegs 0)).2 = some (2024, D2, s2)) :=
  ⟨(ds1307_bcd_round_trip (fun n => n) 1000
      (Or.inr subU32_running) ⟨0x68, 0, false, true⟩
      (allRegs 0) 45).1 (by decide),
   (ds1307_bcd_round_trip (fun n => n) 1000
      (Or.inr subU32_running) ⟨0x68, 0, false, true⟩
      (allRegs 0) 2024).2.2.2.2 (by decide) (by decide)⟩

theorem hours24_round (h : Nat) (hh : h ≤ 23) (m : Bool) :
    DS1307.hours24Of (u8 (DS1307.hours24Byte m h)) = h
    ∧ decide (u8 (DS1307.hours24Byte m h) &&& 0x40 ≠ 0) = m := by
  interval_cases h <;> cases m <;> decide

/-- What `getHours24` makes of the byte `setHours12` writes, for `h` in 1..12: the 24-hour
value `(h mod 12) + (12 if ampm > 0)`, except for 12 AM written in 24-hour mode, which
comes back as 12. -/
theorem hours12_then_24 (h : Nat) (h1 : 1 ≤ h) (h12 : h ≤ 12) (ampm : Nat) (m : Bool) :
    DS1307.hours24Of (u8 (DS1307.hours12Byte m h ampm))
      = if m = false ∧ h = 12 ∧ ampm = 0 then 12
        else h % 12 + (if ampm > 0 then 12 else 0) := by
  by_cases ha : ampm > 0
  · have e : DS1307.hours12Byte m h ampm = DS1307.hours12Byte m h 1 := by
      simp [DS1307.hours12Byte, ha]
    have hne : ampm ≠ 0 := by omega
    rw [e]
    simp only [ha, hne, and_false, if_false, if_true]
    interval_cases h <;> cases m <;> decide
  · have ha0 : ampm = 0 := by omega
    subst ha0
    interval_cases h <;> cases m <;> decide

/-- C19. 24-hour round-trip in both chip modes: on the 8-bit register file, when no read
times out, for every `h` in 0..23 and either value of the cached `mode12` flag,
`setHours24(h)` followed by `getHours24()` returns `h`, and the cached flag is unchanged.
Here no read times out when the timeout is disabled, or when every clock reading is less
than the timeout later than each of the two readings before it, as on any running clock
whose readings are under half a timeout apart. -/
theorem ds1307_hours24_round_trip (millis : Nat → Nat) (timeout : Nat)
    (hT : timeout = 0 ∨
      ∀ i j, i ≤ j → j ≤ i + 2 → subU32 (millis j) (millis i) < timeout)
    (D : DS1307) (s : World RegFile) (h : Nat) (hh : h ≤ 23) :
    ∃ D2 s2, (D.setHours24 (byteT millis timeout) h s).1.getHours24 (byteT millis timeout)
          (D.setHours24 (byteT millis timeout) h s).2 = some (h, D2, s2)
      ∧ D2.mode12 = D.mode12 := by
  obtain ⟨a1, a2⟩ := hours24_round h hh D.mode12
  obtain ⟨s2, e1, _⟩ := ds1307_write_then_read millis timeout hT D DS1307_RA_HOURS
    (DS1307.hours24Byte D.mode12 h) s
  have hn : ¬ h > 23 := by omega
  simp only [DS1307.setHours24, if_neg hn, DS1307.getHours24, e1, a1]
  exact ⟨_, s2, rfl, a2⟩

/-- Witness for C19: 23 h written and read back in 12-hour mode. -/
theorem ds1307_hours24_round_trip_witness :
    ∃ D2 s2, (DS1307.setHours24 (byteT (fun n => n) 1000) ⟨0x68, 0, true, false⟩ 23
            (allRegs 0x40)).1.getHours24 (byteT (fun n => n) 1000)
          (DS1307.setHours24 (byteT (fun n => n) 1000) ⟨0x68, 0, true, false⟩ 23
            (allRegs 0x40)).2 = some (23, D2, s2)
      ∧ D2.mode12 = true :=
  ds1307_hours24_round_trip (fun n => n) 1000
    (Or.inr subU32_running) ⟨0x68, 0, true, false⟩ (allRegs 0x40)
    23 (by decide)

/-- What the driver does for every in-range `setHours12(h, ampm)` followed by
`getHours24()`, on the 8-bit register file when no read times out: the claimed value
`(h mod 12) + (12 if ampm > 0)`, except for 12 AM written in 24-hour mode. -/
theorem ds1307_hours12_then_hours24 (millis : Nat → Nat) (timeout : Nat)
    (hT : timeout = 0 ∨
      ∀ i j, i ≤ j → j ≤ i + 2 → subU32 (millis j) (millis i) < timeout)
    (D : DS1307) (s : World RegFile) (h ampm : Nat) (h1 : 1 ≤ h) (h12 : h ≤ 12) :
    ∃ D2 s2, (D.setHours12 (byteT millis timeout) h ampm s).1.getHours24 (byteT millis timeout)
          (D.setHours12 (byteT millis timeout) h ampm s).2
        = some (if D.mode12 = false ∧ h = 12 ∧ ampm = 0 then 12
                else h % 12 + (if ampm > 0 then 12 else 0), D2, s2) := by
  obtain ⟨s2, e1, _⟩ := ds1307_write_then_read millis timeout hT D DS1307_RA_HOURS
    (DS1307.hours12Byte D.mode12 h ampm) s
  have hn : ¬ (h > 12 ∨ h < 1) := by omega
  simp only [DS1307.setHours12, if_neg hn, DS1307.getHours24, e1,
    hours12_then_24 h h1 h12 ampm D.mode12]
  exact ⟨_, s2, rfl⟩

/-- C20, the code at the failing input: in 24-hour mode (cached `mode12` false, HOURS
register `0x00`), `setHours12(12, 0)`, i.e. 12 AM, writes the byte `0x12`, and
`getHours24()` then returns 12 instead of 0. -/
theorem ds1307_setHours12_midnight :
    (DS1307.setHours12 (byteT (fun _ => 0) 1000) ⟨0x68, 0, false, false⟩ 12 0
        (allRegs 0x00)).2.log = [BusEvent.transmit 0x68 [DS1307_RA_HOURS, 0x12] 0]
    ∧ ((DS1307.setHours12 (byteT (fun _ => 0) 1000) ⟨0x68, 0, false, false⟩ 12 0
          (allRegs 0x00)).1.getHours24 (byteT (fun _ => 0) 1000)
        (DS1307.setHours12 (byteT (fun _ => 0) 1000) ⟨0x68, 0, false, false⟩ 12 0
          (allRegs 0x00)).2).map (fun p => p.1) = some 12 := by
  decide

/-- A value masked with `1 << n` is non-zero exactly when bit `n` of the value is set. -/
theorem and_bit_ne_zero (x n : Nat) : decide (x &&& (1 <<< n) ≠ 0) = x.testBit n := by
  rw [Nat.one_shiftLeft]
  cases h : x.testBit n
  · have : x &&& 2 ^ n = 0 := by
      apply Nat.eq_of_testBit_eq
      intro i
      rw [Nat.testBit_and, Nat.testBit_two_pow, Nat.zero_testBit]
      by_cases hi : n = i
      · subst hi; simp [h]
      · simp [hi]
    simp [this]
  · have : (x &&& 2 ^ n).testBit n = true := by
      rw [Nat.testBit_and, Nat.testBit_two_pow, h]; simp
    have hne : x &&& 2 ^ n ≠ 0 := by
      intro h0
      rw [h0, Nat.zero_testBit] at this
      exact Bool.noConfusion this
    simp [hne]

theorem u8_and_le (x y : Nat) (hx : x < 256) : u8 (x &&& y) = x &&& y := by
  have : x &&& y ≤ x := Nat.and_le_left
  simp only [u8]; omega

theorem testBit_u8 (x i : Nat) (hi : i < 8) : (u8 x).testBit i = x.testBit i := by
  have : u8 x = x % 2 ^ 8 := rfl
  rw [this, Nat.testBit_mod_two_pow]
  simp [hi]

theorem readBit_byteRegs (T : I2CdevT RegFile) (hw : T.wire = byteRegs) (hT : NoTimeout T)
    (a r n b0 : Nat) (s : World RegFile) :
    ∃ s2 : World RegFile, readBit T a r n b0 s
        = some ((1 : Int), u8 (s.dev.regs (u8 r)) &&& (1 <<< n), s2)
      ∧ s2.dev.regs = s.dev.regs := by
  obtain ⟨s1, h1, h2, _⟩ := readByte_byteRegs T hw hT a r (cell (u8 b0)) s
  refine ⟨s1, ?_, h2⟩
  have hlt : u8 (s.dev.regs (u8 r)) < 256 := Nat.mod_lt _ (by decide)
  simp only [readBit, h1, setAt_same, u8_and_le _ _ hlt]
  rfl

theorem hours12_after_24 (h : Nat) (hh : h ≤ 23) (m : Bool) :
    DS1307.hours12Of (u8 (DS1307.hours24Byte m h)) = (h + 11) % 12 + 1 := by
  interval_cases h <;> cases m <;> decide

/-- C21. `getHours12` returns a 12-hour clock value: on the 8-bit register file, when no read
times out, for every `h` in 0..23 and either value of the cached `mode12`, `setHours24(h)`
followed by `getHours12()` returns `((h + 11) mod 12) + 1`, which lies in 1..12.
Here no read times out when the timeout is disabled, or when every clock reading is less
than the timeout later than each of the two readings before it, as on any running clock
whose readings are under half a timeout apart. -/
theorem ds1307_hours12_after_hours24 (millis : Nat → Nat) (timeout : Nat)
    (hT : timeout = 0 ∨
      ∀ i j, i ≤ j → j ≤ i + 2 → subU32 (millis j) (millis i) < timeout)
    (D : DS1307) (s : World RegFile) (h : Nat) (hh : h ≤ 23) :
    (∃ D2 s2, (D.setHours24 (byteT millis timeout) h s).1.getHours12 (byteT millis timeout)
          (D.setHours24 (byteT millis timeout) h s).2 = some ((h + 11) % 12 + 1, D2, s2))
    ∧ 1 ≤ (h + 11) % 12 + 1 ∧ (h + 11) % 12 + 1 ≤ 12 := by
  obtain ⟨s2, e1, _⟩ := ds1307_write_then_read millis timeout hT D DS1307_RA_HOURS
    (DS1307.hours24Byte D.mode12 h) s
  have hn : ¬ h > 23 := by omega
  refine ⟨?_, by omega, by omega⟩
  simp only [DS1307.setHours24, if_neg hn, DS1307.getHours12, e1, hours12_after_24 h hh]
  exact ⟨_, s2, rfl⟩

/-- Witness for C21: midnight written in 24-hour mode reads as 12. -/
theorem ds1307_hours12_after_hours24_witness :
    ∃ D2 s2, (DS1307.setHours24 (byteT (fun n => n) 1000) ⟨0x68, 0, false, false⟩ 0
            (allRegs 0)).1.getHours12 (byteT (fun n => n) 1000)
          (DS1307.setHours24 (byteT (fun n => n) 1000) ⟨0x68, 0, false, false⟩ 0
            (allRegs 0)).2 = some (12, D2, s2) :=
  (ds1307_hours12_after_hours24 (fun n => n) 1000
    (Or.inr subU32_running) ⟨0x68, 0, false, false⟩ (allRegs 0)
    0 (by decide)).1

set_option maxRecDepth 100000 in
/-- C22, the code at the failing input: with the HOURS register holding `0x72` (12-hour
mode, PM, 12 o'clock), `getMode()` returns 64 and `getAMPM()` returns 32: `readBit` masks the
bit without shifting it down. -/
theorem ds1307_flag_getters_unshifted :
    (DS1307.getMode (byteT (fun _ => 0) 1000) ⟨0x68, 0, false, false⟩ 0 (allRegs 0x72)).map
        (fun p => p.1) = some 64
    ∧ (DS1307.getAMPM (byteT (fun _ => 0) 1000) ⟨0x68, 0, false, false⟩ 0 (allRegs 0x72)).map
        (fun p => p.1) = some 32 := by
  decide

theorem hours24Byte_mode_bit (m : Bool) (h : Nat) (hh : h ≤ 23) :
    (u8 (DS1307.hours24Byte m h)).testBit 6 = m := by
  interval_cases h <;> cases m <;> decide

theorem hours12Byte_mode_bit (m : Bool) (h ampm : Nat) (h1 : 1 ≤ h) (h2 : h ≤ 12) :
    (u8 (DS1307.hours12Byte m h ampm)).testBit 6 = m := by
  rcases Nat.eq_zero_or_pos ampm with ha | ha
  · subst ha
    interval_cases h <;> cases m <;> decide
  · have hp : ampm > 0 := ha
    simp only [DS1307.hours12Byte, if_pos hp]
    interval_cases h <;> cases m <;> decide

theorem secondsByte_halt_bit (ch : Bool) (sec : Nat) (hs : sec ≤ 59) :
    (u8 (u8 ((if ch then 0x80 else 0x00) + ((sec / 10) <<< 4) + sec % 10))).testBit 7 = ch := by
  interval_cases sec <;> cases ch <;> decide

theorem ds1307_initialize_byteRegs (T : I2CdevT RegFile) (hw : T.wire = byteRegs)
    (hT : NoTimeout T) (D : DS1307) (b0 b1 : Nat) (s : World RegFile) :
    ∃ D1 s1, D.initialize T b0 b1 s = some (D1, s1) ∧ s1.dev.regs = s.dev.regs
      ∧ D1.devAddr = D.devAddr
      ∧ D1.mode12 = (s.dev.regs DS1307_RA_HOURS).testBit DS1307_HOURS_MODE_BIT
      ∧ D1.clockHalt = (s.dev.regs DS1307_RA_SECONDS).testBit DS1307_SECONDS_CH_BIT := by
  obtain ⟨s1, e1, r1⟩ := readBit_byteRegs T hw hT D.devAddr DS1307_RA_HOURS
    DS1307_HOURS_MODE_BIT b0 s
  obtain ⟨s2, e2, r2⟩ := readBit_byteRegs T hw hT D.devAddr DS1307_RA_SECONDS
    DS1307_SECONDS_CH_BIT b1 s1
  refine ⟨⟨D.devAddr, u8 (s1.dev.regs (u8 DS1307_RA_SECONDS)) &&& 1 <<< DS1307_SECONDS_CH_BIT,
      decide (u8 (s.dev.regs (u8 DS1307_RA_HOURS)) &&& 1 <<< DS1307_HOURS_MODE_BIT ≠ 0),
      decide (u8 (s1.dev.regs (u8 DS1307_RA_SECONDS)) &&& 1 <<< DS1307_SECONDS_CH_BIT ≠ 0)⟩,
    s2, ?_, r2.trans r1, ?_⟩
  · simp only [ DS1307.initialize, DS1307.getMode, DS1307.readRegBit, e1,
      DS1307.getClockRunning, e2]
  · rw [r1]
    refine ⟨rfl, ?_, ?_⟩
    · show decide (_ ≠ 0) = _
      rw [and_bit_ne_zero]
      exact testBit_u8 _ _ (by decide)
    · show decide (_ ≠ 0) = _
      rw [and_bit_ne_zero]
      exact testBit_u8 _ _ (by decide)

/-- C23. After `initialize()` the clock setters keep the flag bits they do not own: on the
8-bit register file, when no read times out, `initialize()` returns with the registers
unchanged, and from the state it leaves `setHours24(h)` for `h ≤ 23` and `setHours12(h, ampm)`
for `1 ≤ h ≤ 12` keep bit 6 of HOURS, and `setSeconds(sec)` for `sec ≤ 59` keeps bit 7 of
SECONDS.
Here no read times out when the timeout is disabled, or when every clock reading is less
than the timeout later than each of the two readings before it, as on any running clock
whose readings are under half a timeout apart. -/
theorem ds1307_initialize_protects_flags (T : I2CdevT RegFile) (hw : T.wire = byteRegs)
    (hT : NoTimeout T) (D : DS1307) (b0 b1 : Nat) (s : World RegFile) :
    ∃ D1 s1, D.initialize T b0 b1 s = some (D1, s1) ∧ s1.dev.regs = s.dev.regs
      ∧ (∀ h, h ≤ 23 → ((D1.setHours24 T h s1).2.dev.regs DS1307_RA_HOURS).testBit 6
            = (s.dev.regs DS1307_RA_HOURS).testBit 6)
      ∧ (∀ h ampm, 1 ≤ h → h ≤ 12 →
            ((D1.setHours12 T h ampm s1).2.dev.regs DS1307_RA_HOURS).testBit 6
              = (s.dev.regs DS1307_RA_HOURS).testBit 6)
      ∧ (∀ sec, sec ≤ 59 → ((D1.setSeconds T sec s1).2.dev.regs DS1307_RA_SECONDS).testBit 7
            = (s.dev.regs DS1307_RA_SECONDS).testBit 7) := by
  obtain ⟨D1, s1, e, r, _, hm, hc⟩ := ds1307_initialize_byteRegs T hw hT D b0 b1 s
  refine ⟨D1, s1, e, r, ?_, ?_, ?_⟩
  · intro h hh
    obtain ⟨s2, e2, r2, _⟩ := writeByte_byteRegs T hw D1.devAddr DS1307_RA_HOURS
      (DS1307.hours24Byte D1.mode12 h) s1
    have hn : ¬ h > 23 := by omega
    simp only [DS1307.setHours24, if_neg hn, e2, r2]
    rw [show u8 DS1307_RA_HOURS = DS1307_RA_HOURS from rfl, setAt_same,
      hours24Byte_mode_bit _ _ hh, hm]
    rfl
  · intro h ampm h1 h2
    obtain ⟨s2, e2, r2, _⟩ := writeByte_byteRegs T hw D1.devAddr DS1307_RA_HOURS
      (DS1307.hours12Byte D1.mode12 h ampm) s1
    have hn : ¬ (h > 12 ∨ h < 1) := by omega
    simp only [DS1307.setHours12, if_neg hn, e2, r2]
    rw [show u8 DS1307_RA_HOURS = DS1307_RA_HOURS from rfl, setAt_same,
      hours12Byte_mode_bit _ _ _ h1 h2, hm]
    rfl
  · intro sec hs
    obtain ⟨s2, e2, r2, _⟩ := writeByte_byteRegs T hw D1.devAddr DS1307_RA_SECONDS
      (u8 ((if D1.clockHalt then 0x80 else 0x00) + ((sec / 10) <<< 4) + sec % 10)) s1
    have hn : ¬ sec > 59 := by omega
    simp only [DS1307.setSeconds, if_neg hn, e2, r2]
    rw [show u8 DS1307_RA_SECONDS = DS1307_RA_SECONDS from rfl, setAt_same,
      secondsByte_halt_bit _ _ hs, hc]
    rfl

/-- Witness for C23: a chip in 12-hour mode with the clock halted. -/
theorem ds1307_initialize_protects_flags_witness :
    ∃ D1 s1, DS1307.initialize (byteT (fun n => n) 1000) ⟨0x68, 0, false, false⟩ 0 0
          (allRegs 0xC0) = some (D1, s1) ∧ s1.dev.regs = (allRegs 0xC0).dev.regs
      ∧ (∀ h, h ≤ 23 → ((D1.setHours24 (byteT (fun n => n) 1000) h s1).2.dev.regs
            DS1307_RA_HOURS).testBit 6 = ((allRegs 0xC0).dev.regs DS1307_RA_HOURS).testBit 6)
      ∧ (∀ h ampm, 1 ≤ h → h ≤ 12 →
            ((D1.setHours12 (byteT (fun n => n) 1000) h ampm s1).2.dev.regs
              DS1307_RA_HOURS).testBit 6 = ((allRegs 0xC0).dev.regs DS1307_RA_HOURS).testBit 6)
      ∧ (∀ sec, sec ≤ 59 → ((D1.setSeconds (byteT (fun n => n) 1000) sec s1).2.dev.regs
            DS1307_RA_SECONDS).testBit 7
              = ((allRegs 0xC0).dev.regs DS1307_RA_SECONDS).testBit 7) :=
  ds1307_initialize_protects_flags (byteT (fun n => n) 1000) rfl
    (Or.inr subU32_running) ⟨0x68, 0, false, false⟩ 0 0
    (allRegs 0xC0)

theorem conv2d_digits (a b : Nat) (rest : List Nat) (ha : a ≤ 9) (hb : b ≤ 9) :
    conv2d (digit a :: digit b :: rest) = 10 * a + b := by
  simp only [conv2d, digit, List.getD_cons_zero, List.getD_cons_succ, Char.reduceToNat, u8,
    u8OfInt]
  rw [if_pos (by omega)]
  omega

theorem conv2d_space (b : Nat) (rest : List Nat) (hb : b ≤ 9) :
    conv2d (' '.toNat :: digit b :: rest) = b := by
  simp only [conv2d, digit, List.getD_cons_zero, List.getD_cons_succ, Char.reduceToNat, u8,
    u8OfInt]
  rw [if_neg (by omega)]
  omega

/-- C27. The compiler-timestamp constructor: for the `k`-th month abbreviation, a day
written as a space or digit followed by a digit, a year `20yy` and a time `hh:mm:ss` of
two-digit fields, `DateTime(date, time)` has `month() = k`, `day()` the day, `year() = 20yy`
and `hour()`, `minute()`, `second()` the time fields; and the sample input
`"Dec 26 2009"`, `"12:34:56"` yields 2009-12-26 12:34:56. -/
theorem datetime_of_compiler_strings :
    (∀ k c1 d1 d2 y1 y2 h1 h2 n1 n2 s1 s2 m0 : Nat, 1 ≤ k → k ≤ 12 →
      (c1 = ' '.toNat ∧ d1 = 0 ∨ c1 = digit d1 ∧ d1 ≤ 9) → d2 ≤ 9 → y1 ≤ 9 → y2 ≤ 9 →
      h1 ≤ 9 → h2 ≤ 9 → n1 ≤ 9 → n2 ≤ 9 → s1 ≤ 9 → s2 ≤ 9 →
      ∀ t, t = DateTime.ofStrings
          (cstr (monthAbbrev.getD (k - 1) []) ++ [' '.toNat, c1, digit d2, ' '.toNat,
            digit 2, digit 0, digit y1, digit y2])
          [digit h1, digit h2, ':'.toNat, digit n1, digit n2, ':'.toNat, digit s1, digit s2]
          m0 →
        t.month = k ∧ t.day = 10 * d1 + d2 ∧ t.year = 2000 + (10 * y1 + y2)
          ∧ t.hour = 10 * h1 + h2 ∧ t.minute = 10 * n1 + n2 ∧ t.second = 10 * s1 + s2)
    ∧ (DateTime.ofStrings (cstr ['D', 'e', 'c', ' ', '2', '6', ' ', '2', '0', '0', '9'])
          (cstr ['1', '2', ':', '3', '4', ':', '5', '6']) 0).year = 2009
    ∧ DateTime.ofStrings (cstr ['D', 'e', 'c', ' ', '2', '6', ' ', '2', '0', '0', '9'])
          (cstr ['1', '2', ':', '3', '4', ':', '5', '6']) 0 = ⟨9, 12, 26, 12, 34, 56⟩ := by
  refine ⟨?_, by decide, by decide⟩
  intro k c1 d1 d2 y1 y2 h1 h2 n1 n2 s1 s2 m0 hk1 hk2 hc hd2 hy1 hy2 hh1 hh2 hn1 hn2 hs1 hs2 t ht
  have hday : conv2d (c1 :: digit d2 :: ' '.toNat :: digit 2 :: digit 0 :: digit y1
      :: digit y2 :: []) = 10 * d1 + d2 := by
    rcases hc with ⟨h, h0⟩ | ⟨h, h0⟩
    · rw [h, h0, conv2d_space _ _ hd2]; omega
    · rw [h, conv2d_digits _ _ _ h0 hd2]
  have hyear : conv2d [digit y1, digit y2] = 10 * y1 + y2 := conv2d_digits _ _ _ hy1 hy2
  have hhh := conv2d_digits h1 h2 [':'.toNat, digit n1, digit n2, ':'.toNat, digit s1, digit s2]
    hh1 hh2
  have hmm := conv2d_digits n1 n2 [':'.toNat, digit s1, digit s2] hn1 hn2
  have hss := conv2d_digits s1 s2 [] hs1 hs2
  subst ht
  have hy16 : u16 (2000 + (10 * y1 + y2)) = 2000 + (10 * y1 + y2) := by
    simp only [u16]; omega
  simp only [Char.reduceToNat] at hday hhh hmm
  interval_cases k <;>
    simp [DateTime.ofStrings, DateTime.month, DateTime.day, DateTime.year, DateTime.hour,
      DateTime.minute, DateTime.second, cstr, monthAbbrev, hday, hyear, hhh, hmm, hss, hy16]

/-- Witness for C27: "Jul  4 2076", "09:05:00". -/
theorem datetime_of_compiler_strings_witness :
    (DateTime.ofStrings
        (cstr (monthAbbrev.getD (7 - 1) []) ++ [' '.toNat, ' '.toNat, digit 4, ' '.toNat,
          digit 2, digit 0, digit 7, digit 6])
        [digit 0, digit 9, ':'.toNat, digit 0, digit 5, ':'.toNat, digit 0, digit 0] 0).month
      = 7 :=
  (datetime_of_compiler_strings.1 7 ' '.toNat 0 4 7 6 0 9 0 5 0 0 0 (by decide) (by decide)
    (Or.inl ⟨rfl, rfl⟩) (by decide) (by decide) (by decide) (by decide) (by decide) (by decide)
    (by decide) (by decide) (by decide) _ rfl).1

theorem yearLoop_spec : ∀ (fuel y days : Nat), days / 365 < fuel → y + days / 365 < 256 →
    days < 65536 →
    ∃ y2 r, yearLoop fuel y days = some (y2, (if y2 % 4 = 0 then 1 else 0), r)
      ∧ r < 365 + (if y2 % 4 = 0 then 1 else 0)
      ∧ 365 * y2 + (y2 + 3) / 4 + r = 365 * y + (y + 3) / 4 + days
      ∧ y2 ≤ y + days / 365 := by
  intro fuel
  induction fuel with
  | zero => intro y days h; omega
  | succ n ih =>
    intro y days hf hy hd
    by_cases hlt : days < 365 + (if y % 4 = 0 then 1 else 0)
    · refine ⟨y, days, ?_, hlt, rfl, by omega⟩
      simp only [yearLoop, if_pos hlt]
    · have e1 : u8 (y + 1) = y + 1 := by simp only [u8]; omega
      have e2 : u16 (days - (365 + (if y % 4 = 0 then 1 else 0)))
          = days - (365 + (if y % 4 = 0 then 1 else 0)) := by simp only [u16]; omega
      obtain ⟨y2, r, h1, h2, h3, h4⟩ := ih (y + 1)
        (days - (365 + (if y % 4 = 0 then 1 else 0))) (by split_ifs <;> omega)
        (by split_ifs <;> omega) (by omega)
      refine ⟨y2, r, ?_, h2, ?_, ?_⟩
      · simp only [yearLoop, if_neg hlt, e1, e2, h1]
      · rw [h3]; split_ifs at hlt ⊢ <;> omega
      · split_ifs at h4 <;> omega

set_option maxRecDepth 1000000 in
theorem month_round_all : ∀ leap < 2, ∀ r < 366, r < 365 + leap →
    ((monthLoop 256 leap 1 r).bind fun p =>
      (date2daysLoop 256 1 p.1 (u16 (u8 (p.2 + 1)))).map fun days =>
        decide (1 ≤ p.1 ∧ p.1 ≤ 12 ∧ p.2 < 31
          ∧ days + (if p.1 > 2 ∧ leap = 1 then 1 else 0) = r + 1)) = some true := by
  decide

theorem month_round (leap r : Nat) (hl : leap < 2) (hr : r < 365 + leap) :
    ∃ m d days, monthLoop 256 leap 1 r = some (m, d)
      ∧ date2daysLoop 256 1 m (u16 (u8 (d + 1))) = some days
      ∧ 1 ≤ m ∧ m ≤ 12 ∧ d < 31
      ∧ days + (if m > 2 ∧ leap = 1 then 1 else 0) = r + 1 := by
  have h := month_round_all leap hl r (by omega) hr
  cases e1 : monthLoop 256 leap 1 r with
  | none => rw [e1] at h; exact Option.noConfusion h
  | some p =>
    obtain ⟨m, d⟩ := p
    rw [e1] at h
    simp only [Option.some_bind] at h
    cases e2 : date2daysLoop 256 1 m (u16 (u8 (d + 1))) with
    | none => rw [e2] at h; exact Option.noConfusion h
    | some days =>
      rw [e2] at h
      simp only [Option.map_some', Option.some.injEq, decide_eq_true_eq] at h
      exact ⟨m, d, days, rfl, e2, h⟩

theorem i32_modEq (x : Int) : Int.ModEq 4294967296 (i32 x) x := by
  unfold Int.ModEq i32; omega

theorem time2long_modEq (days h m s : Nat) :
    Int.ModEq 4294967296 (time2long days h m s)
      ((((days : Int) * 24 + h) * 60 + m) * 60 + s) := by
  have h1 : Int.ModEq 4294967296 (i32 ((days : Int) * 24)) ((days : Int) * 24) := i32_modEq _
  have h2 := (i32_modEq (i32 ((days : Int) * 24) + h)).trans (h1.add_right h)
  have h3 := (i32_modEq (i32 (i32 ((days : Int) * 24) + h) * 60)).trans (h2.mul_right 60)
  have h4 := (i32_modEq (i32 (i32 (i32 ((days : Int) * 24) + h) * 60) + m)).trans
    (h3.add_right m)
  have h5 := (i32_modEq (i32 (i32 (i32 (i32 ((days : Int) * 24) + h) * 60) + m) * 60)).trans
    (h4.mul_right 60)
  exact (i32_modEq _).trans (h5.add_right s)

theorem time2long_exact (T : Nat) (hT : T < 4294967296) :
    u32OfInt (time2long (T / 60 / 60 / 24) (u8 (T / 60 / 60 % 24)) (u8 (T / 60 % 60))
      (u8 (T % 60))) = T := by
  have h := time2long_modEq (T / 60 / 60 / 24) (u8 (T / 60 / 60 % 24)) (u8 (T / 60 % 60))
    (u8 (T % 60))
  unfold Int.ModEq at h
  rw [u32OfInt, h]
  simp only [u8]
  omega

theorem unixtime_arith (T : Nat) :
    u32OfInt (i32 (i32 (T : Int) + (SECONDS_FROM_1970_TO_2000 : Nat)))
      = (T + 946684800) % 4294967296 := by
  simp only [i32, u32OfInt, SECONDS_FROM_1970_TO_2000]
  omega

theorem date2days_of_loops (y2 r m d days N : Nat) (hy : y2 < 2000) (hN : N < 65536)
    (ed : date2daysLoop 256 1 m (u16 (u8 (d + 1))) = some days)
    (hdays : days + (if m > 2 ∧ (if y2 % 4 = 0 then 1 else 0) = 1 then 1 else 0) = r + 1)
    (hsum : 365 * y2 + (y2 + 3) / 4 + r = N) :
    date2days y2 m (u8 (d + 1)) = some N := by
  have hny : ¬ y2 ≥ 2000 := by omega
  simp only [date2days, if_neg hny, ed]
  simp only [Option.some.injEq, u16OfInt, u16]
  by_cases h4 : y2 % 4 = 0
  · by_cases hm : m > 2
    · simp only [h4, hm, and_self, if_true] at hdays ⊢
      omega
    · simp only [h4, hm, false_and, if_false, if_true] at hdays ⊢
      omega
  · simp only [h4, and_false, if_false] at hdays ⊢
    simp at hdays
    omega

theorem ofUnixtimeFuel_eq (fuel t T : Nat) (eT : subU32 t SECONDS_FROM_1970_TO_2000 = T) :
    DateTime.ofUnixtimeFuel fuel t
      = match yearLoop fuel 0 (u16 (T / 60 / 60 / 24)) with
        | none => none
        | some (yOff, leap, days) =>
          match monthLoop fuel leap 1 days with
          | none => none
          | some (m, days) =>
            some ⟨yOff, m, u8 (days + 1), u8 (T / 60 / 60 % 24), u8 (T / 60 % 60), u8 (T % 60)⟩ := by
  subst eT
  rfl

theorem ofUnixtime_spec (t : Nat) (h1 : 946684800 ≤ t) (h2 : t < 4294967296) :
    ∃ dt, DateTime.ofUnixtime t = some dt
      ∧ dt.secondstime = some (i32 ((t - 946684800 : Nat) : Int))
      ∧ dt.yOff ≤ (t - 946684800) / 86400 / 365 := by
  have eT : subU32 t SECONDS_FROM_1970_TO_2000 = t - 946684800 := by
    simp only [subU32, u32, SECONDS_FROM_1970_TO_2000]; omega
  generalize hTdef : t - 946684800 = T at eT ⊢
  have hT : T < 4294967296 := by omega
  have hN : u16 (T / 60 / 60 / 24) = T / 60 / 60 / 24 := by simp only [u16]; omega
  obtain ⟨y2, r, ey, hr, hsum, hy2⟩ := yearLoop_spec 256 0 (T / 60 / 60 / 24) (by omega)
    (by omega) (by omega)
  obtain ⟨m, d, days, em, ed, _, _, _, hdays⟩ :=
    month_round (if y2 % 4 = 0 then 1 else 0) r (by split_ifs <;> omega) hr
  have hdd := date2days_of_loops y2 r m d days (T / 60 / 60 / 24) (by omega) (by omega) ed
    hdays (by omega)
  refine ⟨⟨y2, m, u8 (d + 1), u8 (T / 60 / 60 % 24), u8 (T / 60 % 60), u8 (T % 60)⟩, ?_, ?_, ?_⟩
  · rw [DateTime.ofUnixtime, ofUnixtimeFuel_eq 256 t T eT, hN, ey]
    simp only [em]
  · simp only [DateTime.secondstime, hdd, time2long_exact T hT]
  · show y2 ≤ _
    omega

/-- C24. Unix-time round trip of `DateTime`, with `long` arithmetic wrapping at 32 bits: for
every `t` with `946684800 ≤ t ≤ 4102444799` the constructor `DateTime(t)` returns, and
`unixtime()` of the value it builds is `t`. -/
theorem datetime_unixtime_round_trip (t : Nat) (h1 : 946684800 ≤ t) (h2 : t ≤ 4102444799) :
    ∃ dt, DateTime.ofUnixtime t = some dt ∧ dt.unixtime = some t := by
  obtain ⟨dt, e1, e2, _⟩ := ofUnixtime_spec t h1 (by omega)
  refine ⟨dt, e1, ?_⟩
  simp only [DateTime.unixtime, e2, unixtime_arith, Option.some.injEq]
  omega

/-- Witness for C24: the last second of 2099. -/
theorem datetime_unixtime_round_trip_witness :
    ∃ dt, DateTime.ofUnixtime 4102444799 = some dt ∧ dt.unixtime = some 4102444799 :=
  datetime_unixtime_round_trip 4102444799 (by simp) (by simp)

/-- C25, the code at the failing input: `secondstime()` is 0 at 2000-01-01 00:00:00 and
2147483647 at 2068-01-19 03:14:07, and one calendar second later the 32-bit `long` has
wrapped to -2147483648. -/
theorem datetime_secondstime_wraps :
    (DateTime.ofFields 2000 1 1 0 0 0).secondstime = some 0
    ∧ (DateTime.ofFields 2068 1 19 3 14 7).secondstime = some 2147483647
    ∧ (DateTime.ofFields 2068 1 19 3 14 8).secondstime = some (-2147483648) := by
  decide

theorem dayOfWeek_arith (t : Nat) (h1 : 946684800 ≤ t) (h2 : t < 3094168448) :
    u8 ((u16OfInt (Int.tdiv (i32 ((t - 946684800 : Nat) : Int)) (SECONDS_PER_DAY : Nat)) + 6) % 7)
      = (t / 86400 + 4) % 7 := by
  have e1 : i32 ((t - 946684800 : Nat) : Int) = ((t - 946684800 : Nat) : Int) := by
    simp only [i32]; omega
  rw [e1, ← Int.ofNat_tdiv]
  simp only [u16OfInt, u8, SECONDS_PER_DAY]
  omega

/-- The weekday formula below the wrap-around of `secondstime()`: for
`946684800 ≤ t < 3094168448`, `DateTime(t).dayOfWeek()` is `((t div 86400) + 4) mod 7`. -/
theorem dayOfWeek_before_wrap (t : Nat) (h1 : 946684800 ≤ t) (h2 : t < 3094168448) :
    (DateTime.ofUnixtime t).bind DateTime.dayOfWeek = some ((t / 86400 + 4) % 7) := by
  obtain ⟨dt, e1, e2, _⟩ := ofUnixtime_spec t h1 (by omega)
  simp only [e1, Option.some_bind, DateTime.dayOfWeek, e2, dayOfWeek_arith t h1 h2]

/-- C26, the code at the failing input: `DateTime(2000,1,1).dayOfWeek()` is 6, but for
`t = 3094168448` (2068-01-19 03:14:08, a Thursday) `DateTime(t).dayOfWeek()` is 3 while
`((t div 86400) + 4) mod 7` is 4. -/
theorem datetime_dayOfWeek_after_wrap :
    (DateTime.ofFields 2000 1 1 0 0 0).dayOfWeek = some 6
    ∧ (DateTime.ofUnixtime 3094168448).bind DateTime.dayOfWeek = some 3
    ∧ (3094168448 / 86400 + 4) % 7 = 4 := by
  decide

theorem u16_writeBitWValue (w n d : Nat) : u16 (writeBitWValue w n d) = writeBitWValue w n d := by
  unfold writeBitWValue
  split <;> exact u16_idem _

theorem writeBitW_wordRegs (T : I2CdevT RegFile) (hw : T.wire = wordRegs) (hT : NoTimeout T)
    (a r n data w0 : Nat) (s : World RegFile) :
    ∃ s2, writeBitW T a r n data w0 s = some (true, s2)
      ∧ s2.dev.regs = setAt s.dev.regs (u8 r)
          (writeBitWValue (u16 (s.dev.regs (u8 r))) n data) := by
  obtain ⟨s1, h1, h2, _⟩ := readWord_wordRegs T hw hT a r (cell (u16 w0)) s
  obtain ⟨s2, h4, h5, _⟩ := writeWord_wordRegs T hw a r
    (writeBitWValue (u16 (s.dev.regs (u8 r))) n data) s1
  refine ⟨s2, ?_, ?_⟩
  · simp only [writeBitW, h1, setAt_same]
    exact h4
  · rw [h5, h2, u16_writeBitWValue]

theorem readBitW_wordRegs (T : I2CdevT RegFile) (hw : T.wire = wordRegs) (hT : NoTimeout T)
    (a r n w0 : Nat) (s : World RegFile) :
    ∃ s2 : World RegFile, readBitW T a r n w0 s
        = some ((1 : Int), u16 (u16 (s.dev.regs (u8 r)) &&& (1 <<< n)), s2)
      ∧ s2.dev.regs = s.dev.regs := by
  obtain ⟨s1, h1, h2, _⟩ := readWord_wordRegs T hw hT a r (cell (u16 w0)) s
  refine ⟨s1, ?_, h2⟩
  simp only [readBitW, h1, setAt_same]
  rfl

theorem testBit_u16 (x i : Nat) : (u16 x).testBit i = (decide (i < 16) && x.testBit i) := by
  have : u16 x = x % 2 ^ 16 := rfl
  rw [this, Nat.testBit_mod_two_pow]

theorem testBit_writeBitWValue (x n d i : Nat) (hn : n < 16) :
    (writeBitWValue (u16 x) n d).testBit i
      = (decide (i < 16) && (if i = n then decide (d ≠ 0) else x.testBit i)) := by
  have h2 : (1 : Nat) <<< n = 2 ^ n := Nat.one_shiftLeft n
  have hlt : 2 ^ n < 4294967296 :=
    lt_of_lt_of_le (Nat.pow_lt_pow_right (by decide) hn) (by decide)
  unfold writeBitWValue
  by_cases hd : d ≠ 0
  · rw [if_pos hd, testBit_u16, Nat.testBit_or, testBit_u16, h2, Nat.testBit_two_pow]
    by_cases hi : i = n
    · subst hi; simp [hd]
    · have : ¬ n = i := fun h => hi h.symm
      simp [hi, this]
  · rw [if_neg hd, testBit_u16, Nat.testBit_and, testBit_u16, h2, testBit_intNot _ _ hlt,
      Nat.testBit_two_pow]
    by_cases hi : i = n
    · subst hi; simp [hd]
    · have : ¬ n = i := fun h => hi h.symm
      by_cases h16 : i < 16
      · have : i < 32 := by omega
        simp [hi, *]
      · simp [hi, *]

theorem testBit_writeBitsWValue (x bitStart length v i : Nat) (h2 : length ≤ bitStart + 1) :
    (writeBitsWValue (u16 x) bitStart length v).testBit i
      = (decide (i < 16) && (if bitStart + 1 - length ≤ i ∧ i ≤ bitStart
          then v.testBit (i - (bitStart + 1 - length)) else x.testBit i)) := by
  rw [writeBitsWValue_eq, testBit_fieldWrite 16 _ _ _ _ _ (by decide) h2, testBit_u16]
  by_cases h16 : i < 16 <;> simp [h16]

theorem ads1115_setMode_wordRegs (T : I2CdevT RegFile) (hw : T.wire = wordRegs)
    (hT : NoTimeout T) (D : ADS1115) (m : Bool) (w0 : Nat) (s : World RegFile) :
    ∃ s2, D.setMode T m w0 s = some ({ D with devMode := m }, s2)
      ∧ s2.dev.regs = setAt s.dev.regs 1
          (writeBitWValue (u16 (s.dev.regs 1)) 8 (boolToNat m)) := by
  obtain ⟨s2, e, r⟩ := writeBitW_wordRegs T hw hT D.devAddr ADS1115_RA_CONFIG
    ADS1115_CFG_MODE_BIT (boolToNat m) w0 s
  exact ⟨s2, by simp only [ADS1115.setMode, e, if_true], r⟩

theorem ads1115_triggerConversion_wordRegs (T : I2CdevT RegFile) (hw : T.wire = wordRegs)
    (hT : NoTimeout T) (D : ADS1115) (w0 : Nat) (s : World RegFile) :
    ∃ s2, D.triggerConversion T w0 s = some (D, s2)
      ∧ s2.dev.regs = setAt s.dev.regs 1 (writeBitWValue (u16 (s.dev.regs 1)) 15 1) := by
  obtain ⟨s2, e, r⟩ := writeBitW_wordRegs T hw hT D.devAddr ADS1115_RA_CONFIG
    ADS1115_CFG_OS_BIT 1 w0 s
  exact ⟨s2, by simp only [ADS1115.triggerConversion, e], r⟩

theorem ads1115_isConversionReady_wordRegs (T : I2CdevT RegFile) (hw : T.wire = wordRegs)
    (hT : NoTimeout T) (D : ADS1115) (w0 : Nat) (s : World RegFile) :
    ∃ b s2, D.isConversionReady T w0 s
        = some ((s.dev.regs 1).testBit 15, { D with buffer := b }, s2)
      ∧ s2.dev.regs = s.dev.regs := by
  obtain ⟨s2, e, r⟩ := readBitW_wordRegs T hw hT D.devAddr ADS1115_RA_CONFIG
    ADS1115_CFG_OS_BIT w0 s
  refine ⟨u16 (u16 (s.dev.regs 1) &&& (1 <<< 15)), s2, ?_, r⟩
  have hlt : u16 (s.dev.regs 1) < 65536 := Nat.mod_lt _ (by decide)
  have e3 : u16 (u16 (s.dev.regs 1) &&& (1 <<< 15)) = u16 (s.dev.regs 1) &&& (1 <<< 15) := by
    have : u16 (s.dev.regs 1) &&& (1 <<< 15) ≤ u16 (s.dev.regs 1) := Nat.and_le_left
    simp only [u16] at this hlt ⊢; omega
  have e4 : decide (u16 (u16 (s.dev.regs 1) &&& (1 <<< 15)) ≠ 0) = (s.dev.regs 1).testBit 15 := by
    rw [e3, and_bit_ne_zero, testBit_u16]; simp
  simp only [ADS1115.isConversionReady, e]
  rw [show u8 ADS1115_RA_CONFIG = 1 from rfl, show ADS1115_CFG_OS_BIT = 15 from rfl, e4]

theorem ads1115_pollConversion_ready (T : I2CdevT RegFile) (hw : T.wire = wordRegs)
    (hT : NoTimeout T) (D : ADS1115) (w0 n : Nat) (s : World RegFile)
    (h : (s.dev.regs 1).testBit 15 = true) :
    ∃ b s2, ADS1115.pollConversion T w0 (n + 1) D s = some (true, { D with buffer := b }, s2)
      ∧ s2.dev.regs = s.dev.regs := by
  obtain ⟨b, s2, e, r⟩ := ads1115_isConversionReady_wordRegs T hw hT D w0 s
  rw [h] at e
  exact ⟨b, s2, by simp only [ADS1115.pollConversion, e], r⟩

theorem ads1115_getConversion_wordRegs (T : I2CdevT RegFile) (hw : T.wire = wordRegs)
    (hT : NoTimeout T) (D : ADS1115) (w0 : Nat) (s : World RegFile) :
    ∃ v b s2, D.getConversion T true w0 s = some (v, { D with buffer := b }, s2)
      ∧ s2.dev.regs = if D.devMode then
          setAt s.dev.regs 1 (writeBitWValue (u16 (s.dev.regs 1)) 15 1) else s.dev.regs := by
  rcases Bool.eq_false_or_eq_true D.devMode with hD | hD
  · obtain ⟨s1, e1, r1⟩ := ads1115_triggerConversion_wordRegs T hw hT D w0 s
    have hbit : (s1.dev.regs 1).testBit 15 = true := by
      rw [r1, setAt_same, testBit_writeBitWValue _ _ _ _ (by decide)]
      simp
    obtain ⟨b, s2, e2, r2⟩ := ads1115_pollConversion_ready T hw hT D w0 999 s1 hbit
    obtain ⟨s3, e3, r3, _⟩ := readWord_wordRegs T hw hT D.devAddr ADS1115_RA_CONVERSION
      (cell b) s2
    refine ⟨u16ToI16 (u16 (s2.dev.regs (u8 ADS1115_RA_CONVERSION))),
      u16 (s2.dev.regs (u8 ADS1115_RA_CONVERSION)), s3, ?_, ?_⟩
    · have e2b : ADS1115.pollConversion T w0 I2CDEV_DEFAULT_READ_TIMEOUT D s1
          = some (true, { D with buffer := b }, s2) := e2
      have hc : (True ∧ D.devMode = ADS1115_MODE_SINGLESHOT) := ⟨trivial, hD⟩
      simp only [ADS1115.getConversion, if_pos hc, e1, e2b, e3, setAt_same]
    · rw [hD, if_pos rfl, r3, r2, r1]
  · obtain ⟨s1, e1, r1, _⟩ := readWord_wordRegs T hw hT D.devAddr ADS1115_RA_CONVERSION
      (cell D.buffer) s
    refine ⟨u16ToI16 (u16 (s.dev.regs (u8 ADS1115_RA_CONVERSION))),
      u16 (s.dev.regs (u8 ADS1115_RA_CONVERSION)), s1, ?_, ?_⟩
    · have hc : ¬ (True ∧ D.devMode = ADS1115_MODE_SINGLESHOT) := by
        rw [hD]; intro h; exact Bool.noConfusion h.2
      simp only [ADS1115.getConversion, if_neg hc, e1, setAt_same]
    · rw [hD, if_neg (by decide), r1]

theorem ads1115_restartContinuous_wordRegs (T : I2CdevT RegFile) (hw : T.wire = wordRegs)
    (hT : NoTimeout T) (D : ADS1115) (w0 : Nat) (s : World RegFile) :
    ∃ b s2, D.restartContinuous T w0 s = some ({ D with buffer := b }, s2)
      ∧ s2.dev.regs = if D.devMode then s.dev.regs else
          setAt s.dev.regs 1 (writeBitWValue (u16 (writeBitWValue (u16
            (writeBitWValue (u16 (s.dev.regs 1)) 8 (boolToNat true))) 15 1)) 8
              (boolToNat false)) := by
  rcases Bool.eq_false_or_eq_true D.devMode with hD | hD
  · refine ⟨D.buffer, s, ?_, by rw [hD, if_pos rfl]⟩
    have hc : ¬ D.devMode = ADS1115_MODE_CONTINUOUS := by
      rw [hD]; exact fun h => Bool.noConfusion h
    simp only [ADS1115.restartContinuous, if_neg hc]
  · obtain ⟨s1, e1, r1⟩ := ads1115_setMode_wordRegs T hw hT D true w0 s
    obtain ⟨v, b, s2, e2, r2⟩ := ads1115_getConversion_wordRegs T hw hT
      { D with devMode := true } w0 s1
    obtain ⟨s3, e3, r3⟩ := ads1115_setMode_wordRegs T hw hT
      { D with devMode := true, buffer := b } false w0 s2
    refine ⟨b, s3, ?_, ?_⟩
    · have hc : D.devMode = ADS1115_MODE_CONTINUOUS := hD
      have e1b : D.setMode T ADS1115_MODE_SINGLESHOT w0 s = some ({ D with devMode := true }, s1) :=
        e1
      simp only [ADS1115.restartContinuous, if_pos hc, e1b, e2]
      rw [show ADS1115_MODE_CONTINUOUS = false from rfl, e3, ← hD]
    · rw [hD, if_neg (by decide), r3, r2, r1]
      simp only [if_true, setAt_setAt, setAt_same]

theorem ads1115_setMultiplexer_wordRegs (T : I2CdevT RegFile) (hw : T.wire = wordRegs)
    (hT : NoTimeout T) (D : ADS1115) (mux w0 : Nat) (s : World RegFile) :
    ∃ b s2, D.setMultiplexer T mux w0 s = some ({ D with muxMode := u8 mux, buffer := b }, s2)
      ∧ s2.dev.regs = if D.devMode then
          setAt s.dev.regs 1 (writeBitsWValue (u16 (s.dev.regs 1)) 14 3 (u8 mux))
        else
          setAt s.dev.regs 1 (writeBitWValue (u16 (writeBitWValue (u16
            (writeBitWValue (u16 (writeBitsWValue (u16 (s.dev.regs 1)) 14 3 (u8 mux))) 8
              (boolToNat true))) 15 1)) 8 (boolToNat false)) := by
  obtain ⟨s1, e1, r1, _⟩ := writeBitsW_wordRegs T hw hT D.devAddr ADS1115_RA_CONFIG
    ADS1115_CFG_MUX_BIT ADS1115_CFG_MUX_LENGTH (u8 mux) w0 s
  obtain ⟨b, s2, e2, r2⟩ := ads1115_restartContinuous_wordRegs T hw hT
    { D with muxMode := u8 mux } w0 s1
  refine ⟨b, s2, ?_, ?_⟩
  · simp only [ADS1115.setMultiplexer, e1, if_true, e2]
  · have r1b : s1.dev.regs = setAt s.dev.regs 1
        (writeBitsWValue (u16 (s.dev.regs 1)) 14 3 (u8 mux)) := r1
    rw [r2, r1b]
    simp only [setAt_setAt, setAt_same]

theorem ads1115_setGain_wordRegs (T : I2CdevT RegFile) (hw : T.wire = wordRegs)
    (hT : NoTimeout T) (D : ADS1115) (gain w0 : Nat) (s : World RegFile) :
    ∃ b s2, D.setGain T gain w0 s = some ({ D with pgaMode := u8 gain, buffer := b }, s2)
      ∧ s2.dev.regs = if D.devMode then
          setAt s.dev.regs 1 (writeBitsWValue (u16 (s.dev.regs 1)) 11 3 (u8 gain))
        else
          setAt s.dev.regs 1 (writeBitWValue (u16 (writeBitWValue (u16
            (writeBitWValue (u16 (writeBitsWValue (u16 (s.dev.regs 1)) 11 3 (u8 gain))) 8
              (boolToNat true))) 15 1)) 8 (boolToNat false)) := by
  obtain ⟨s1, e1, r1, _⟩ := writeBitsW_wordRegs T hw hT D.devAddr ADS1115_RA_CONFIG
    ADS1115_CFG_PGA_BIT ADS1115_CFG_PGA_LENGTH (u8 gain) w0 s
  obtain ⟨b, s2, e2, r2⟩ := ads1115_restartContinuous_wordRegs T hw hT
    { D with pgaMode := u8 gain } w0 s1
  refine ⟨b, s2, ?_, ?_⟩
  · simp only [ADS1115.setGain, e1, if_true, e2]
  · have r1b : s1.dev.regs = setAt s.dev.regs 1
        (writeBitsWValue (u16 (s.dev.regs 1)) 11 3 (u8 gain)) := r1
    rw [r2, r1b]
    simp only [setAt_setAt, setAt_same]

theorem ads1115_setRate_wordRegs (T : I2CdevT RegFile) (hw : T.wire = wordRegs)
    (hT : NoTimeout T) (D : ADS1115) (rate w0 : Nat) (s : World RegFile) :
    ∃ s2, D.setRate T rate w0 s = some (D, s2)
      ∧ s2.dev.regs = setAt s.dev.regs 1
          (writeBitsWValue (u16 (s.dev.regs 1)) 7 3 (u8 rate)) := by
  obtain ⟨s1, e1, r1, _⟩ := writeBitsW_wordRegs T hw hT D.devAddr ADS1115_RA_CONFIG
    ADS1115_CFG_DR_BIT ADS1115_CFG_DR_LENGTH (u8 rate) w0 s
  exact ⟨s1, by simp only [ADS1115.setRate, e1], r1⟩

theorem ads1115_setComparatorMode_wordRegs (T : I2CdevT RegFile) (hw : T.wire = wordRegs)
    (hT : NoTimeout T) (D : ADS1115) (m : Bool) (w0 : Nat) (s : World RegFile) :
    ∃ s2, D.setComparatorMode T m w0 s = some (D, s2)
      ∧ s2.dev.regs = setAt s.dev.regs 1
          (writeBitWValue (u16 (s.dev.regs 1)) 4 (boolToNat m)) := by
  obtain ⟨s1, e1, r1⟩ := writeBitW_wordRegs T hw hT D.devAddr ADS1115_RA_CONFIG
    ADS1115_CFG_COMP_MODE_BIT (boolToNat m) w0 s
  exact ⟨s1, by simp only [ADS1115.setComparatorMode, e1], r1⟩

theorem ads1115_setComparatorPolarity_wordRegs (T : I2CdevT RegFile) (hw : T.wire = wordRegs)
    (hT : NoTimeout T) (D : ADS1115) (m : Bool) (w0 : Nat) (s : World RegFile) :
    ∃ s2, D.setComparatorPolarity T m w0 s = some (D, s2)
      ∧ s2.dev.regs = setAt s.dev.regs 1
          (writeBitWValue (u16 (s.dev.regs 1)) 3 (boolToNat m)) := by
  obtain ⟨s1, e1, r1⟩ := writeBitW_wordRegs T hw hT D.devAddr ADS1115_RA_CONFIG
    ADS1115_CFG_COMP_POL_BIT (boolToNat m) w0 s
  exact ⟨s1, by simp only [ADS1115.setComparatorPolarity, e1], r1⟩

theorem ads1115_setComparatorLatchEnabled_wordRegs (T : I2CdevT RegFile)
    (hw : T.wire = wordRegs) (hT : NoTimeout T) (D : ADS1115) (m : Bool) (w0 : Nat)
    (s : World RegFile) :
    ∃ s2, D.setComparatorLatchEnabled T m w0 s = some (D, s2)
      ∧ s2.dev.regs = setAt s.dev.regs 1
          (writeBitWValue (u16 (s.dev.regs 1)) 2 (boolToNat m)) := by
  obtain ⟨s1, e1, r1⟩ := writeBitW_wordRegs T hw hT D.devAddr ADS1115_RA_CONFIG
    ADS1115_CFG_COMP_LAT_BIT (boolToNat m) w0 s
  exact ⟨s1, by simp only [ADS1115.setComparatorLatchEnabled, e1], r1⟩

theorem ads1115_setComparatorQueueMode_wordRegs (T : I2CdevT RegFile)
    (hw : T.wire = wordRegs) (hT : NoTimeout T) (D : ADS1115) (mode w0 : Nat)
    (s : World RegFile) :
    ∃ s2, D.setComparatorQueueMode T mode w0 s = some (D, s2)
      ∧ s2.dev.regs = setAt s.dev.regs 1
          (writeBitsWValue (u16 (s.dev.regs 1)) 1 2 (u8 mode)) := by
  obtain ⟨s1, e1, r1, _⟩ := writeBitsW_wordRegs T hw hT D.devAddr ADS1115_RA_CONFIG
    ADS1115_CFG_COMP_QUE_BIT ADS1115_CFG_COMP_QUE_LENGTH (u8 mode) w0 s
  exact ⟨s1, by simp only [ADS1115.setComparatorQueueMode, e1], r1⟩

theorem bind_eq_of_some {α β : Type} (x : Option α) (a : α) (f : α → Option β) (y : Option β)
    (h1 : x = some a) (h2 : f a = y) : x.bind f = y := by
  subst h1
  exact h2

theorem testBit_of_lt_65536 (v i : Nat) (hv : v < 65536) (hi : ¬ i < 16) :
    v.testBit i = false := by
  apply Nat.testBit_lt_two_pow
  exact lt_of_lt_of_le hv (Nat.pow_le_pow_right (by decide) (by omega) : 2 ^ 16 ≤ 2 ^ i)

theorem config_after_initialize (x : Nat) :
    writeBitsWValue (u16 (writeBitWValue (u16 (writeBitWValue (u16 (writeBitWValue (u16
      (writeBitsWValue (u16 (writeBitWValue (u16
        (writeBitWValue (u16 (writeBitWValue (u16 (writeBitWValue (u16 (writeBitsWValue (u16
          (writeBitWValue (u16 (writeBitWValue (u16 (writeBitWValue (u16 (writeBitsWValue
            (u16 x) 14 3 (u8 ADS1115_MUX_P0_N1))) 8 (boolToNat true))) 15 1)) 8
              (boolToNat false))) 11 3 (u8 ADS1115_PGA_2P048))) 8 (boolToNat true))) 15 1)) 8
                (boolToNat false))) 8 (boolToNat ADS1115_MODE_SINGLESHOT))) 7 3
                  (u8 ADS1115_RATE_128))) 4 (boolToNat false))) 3 (boolToNat false))) 2
                    (boolToNat false))) 1 2 (u8 ADS1115_COMP_QUE_DISABLE)
      = 0x8583 := by
  apply Nat.eq_of_testBit_eq
  intro i
  simp only [testBit_writeBitsWValue _ 14 3 _ _ (by decide),
    testBit_writeBitsWValue _ 11 3 _ _ (by decide), testBit_writeBitsWValue _ 7 3 _ _ (by decide),
    testBit_writeBitsWValue _ 1 2 _ _ (by decide), testBit_writeBitWValue _ 8 _ _ (by decide),
    testBit_writeBitWValue _ 15 _ _ (by decide), testBit_writeBitWValue _ 4 _ _ (by decide),
    testBit_writeBitWValue _ 3 _ _ (by decide), testBit_writeBitWValue _ 2 _ _ (by decide)]
  by_cases h : i < 16
  · interval_cases i <;>
      simp [boolToNat, u8, ADS1115_MUX_P0_N1, ADS1115_PGA_2P048, ADS1115_MODE_SINGLESHOT,
        ADS1115_RATE_128, ADS1115_COMP_QUE_DISABLE] <;> decide
  · have h0 := testBit_of_lt_65536 34179 i (by decide) h
    simp [h, h0]

/-- C28. `initialize()` establishes the documented defaults: on the 16-bit register file, when
no read times out, for a freshly constructed driver and any initial register content,
`initialize()` returns with CONFIG equal to `0x8583`, whose low 15 bits are `0x0583`, that
is MUX = 0, PGA = 2, MODE = 1, DR = 4, COMP_MODE = COMP_POL = COMP_LAT = 0 and COMP_QUE = 3,
and with the cached `devMode` single-shot.
Here no read times out when the timeout is disabled, or when every clock reading is less
than the timeout later than each of the two readings before it, as on any running clock
whose readings are under half a timeout apart. -/
theorem ads1115_initialize_defaults (T : I2CdevT RegFile) (hw : T.wire = wordRegs)
    (hT : NoTimeout T) (address b0 w0 : Nat) (s : World RegFile) :
    ∃ D2 s2, ADS1115.initialize T (ADS1115.new address b0) w0 s = some (D2, s2)
      ∧ s2.dev.regs ADS1115_RA_CONFIG = 0x8583
      ∧ D2.devMode = ADS1115_MODE_SINGLESHOT
      ∧ 0x8583 % 0x8000 = 0x0583
      ∧ fieldRead 16 0x8583 ADS1115_CFG_MUX_BIT ADS1115_CFG_MUX_LENGTH = ADS1115_MUX_P0_N1
      ∧ fieldRead 16 0x8583 ADS1115_CFG_PGA_BIT ADS1115_CFG_PGA_LENGTH = ADS1115_PGA_2P048
      ∧ fieldRead 16 0x8583 ADS1115_CFG_MODE_BIT 1 = 1
      ∧ fieldRead 16 0x8583 ADS1115_CFG_DR_BIT ADS1115_CFG_DR_LENGTH = ADS1115_RATE_128
      ∧ fieldRead 16 0x8583 ADS1115_CFG_COMP_MODE_BIT 1 = 0
      ∧ fieldRead 16 0x8583 ADS1115_CFG_COMP_POL_BIT 1 = 0
      ∧ fieldRead 16 0x8583 ADS1115_CFG_COMP_LAT_BIT 1 = 0
      ∧ fieldRead 16 0x8583 ADS1115_CFG_COMP_QUE_BIT ADS1115_CFG_COMP_QUE_LENGTH
          = ADS1115_COMP_QUE_DISABLE := by
  obtain ⟨b1, s1, e1, r1⟩ := ads1115_setMultiplexer_wordRegs T hw hT (ADS1115.new address b0)
    ADS1115_MUX_P0_N1 w0 s
  have h0 : (ADS1115.new address b0).devMode = false := rfl
  rw [h0, if_neg (by decide)] at r1
  generalize hD1 : ({ (ADS1115.new address b0) with
    muxMode := u8 ADS1115_MUX_P0_N1, buffer := b1 } : ADS1115) = D1 at e1
  have m1 : D1.devMode = false := by rw [← hD1]; rfl
  obtain ⟨b2, s2, e2, r2⟩ := ads1115_setGain_wordRegs T hw hT D1 ADS1115_PGA_2P048 w0 s1
  rw [m1, if_neg (by decide)] at r2
  generalize hD2 : ({ D1 with pgaMode := u8 ADS1115_PGA_2P048, buffer := b2 } : ADS1115) = D2
    at e2
  obtain ⟨s3, e3, r3⟩ := ads1115_setMode_wordRegs T hw hT D2 ADS1115_MODE_SINGLESHOT w0 s2
  generalize hD3 : ({ D2 with devMode := ADS1115_MODE_SINGLESHOT } : ADS1115) = D3 at e3
  have m3 : D3.devMode = ADS1115_MODE_SINGLESHOT := by rw [← hD3]
  obtain ⟨s4, e4, r4⟩ := ads1115_setRate_wordRegs T hw hT D3 ADS1115_RATE_128 w0 s3
  obtain ⟨s5, e5, r5⟩ := ads1115_setComparatorMode_wordRegs T hw hT D3 false w0 s4
  obtain ⟨s6, e6, r6⟩ := ads1115_setComparatorPolarity_wordRegs T hw hT D3 false w0 s5
  obtain ⟨s7, e7, r7⟩ := ads1115_setComparatorLatchEnabled_wordRegs T hw hT D3 false w0 s6
  obtain ⟨s8, e8, r8⟩ := ads1115_setComparatorQueueMode_wordRegs T hw hT D3
    ADS1115_COMP_QUE_DISABLE w0 s7
  refine ⟨D3, s8, ?_, ?_, m3, by decide, by decide, by decide, by decide, by decide,
    by decide, by decide, by decide, by decide⟩
  · unfold ADS1115.initialize
    exact bind_eq_of_some _ _ _ _ e1 (bind_eq_of_some _ _ _ _ e2 (bind_eq_of_some _ _ _ _ e3
      (bind_eq_of_some _ _ _ _ e4 (bind_eq_of_some _ _ _ _ e5 (bind_eq_of_some _ _ _ _ e6
        (bind_eq_of_some _ _ _ _ e7 e8))))))
  · rw [show ADS1115_RA_CONFIG = 1 from rfl, r8, r7, r6, r5, r4, r3, r2, r1]
    simp only [setAt_setAt, setAt_same]
    exact config_after_initialize (s.dev.regs 1)

/-- Witness for C28: a chip whose registers all hold `0xFFFF`. -/
theorem ads1115_initialize_defaults_witness :
    ∃ D2 s2, ADS1115.initialize (wordT (fun n => n) 1000) (ADS1115.new 0x48 0) 0
        (allRegs 0xFFFF)
        = some (D2, s2)
      ∧ s2.dev.regs ADS1115_RA_CONFIG = 0x8583
      ∧ D2.devMode = ADS1115_MODE_SINGLESHOT :=
  let ⟨D2, s2, h1, h2, h3, _⟩ := ads1115_initialize_defaults (wordT (fun n => n) 1000) rfl
    (Or.inr subU32_running) 0x48 0 0 (allRegs 0xFFFF)
  ⟨D2, s2, h1, h2, h3⟩

theorem mux_field_congr (V W : Nat)
    (h : ∀ j, j < 3 → V.testBit (12 + j) = W.testBit (12 + j)) :
    fieldRead 16 V 14 3 = fieldRead 16 W 14 3 := by
  rw [fieldRead_eq 16 V 14 3 (by decide) (by decide),
    fieldRead_eq 16 W 14 3 (by decide) (by decide)]
  apply Nat.eq_of_testBit_eq
  intro j
  rw [Nat.testBit_mod_two_pow, Nat.testBit_mod_two_pow, Nat.testBit_shiftRight,
    Nat.testBit_shiftRight]
  by_cases hj : j < 3
  · rw [h j hj]
  · simp [hj]

theorem mux_field_trigger (x d : Nat) :
    fieldRead 16 (writeBitWValue (u16 x) 15 d) 14 3 = fieldRead 16 x 14 3 := by
  apply mux_field_congr
  intro j hj
  rw [testBit_writeBitWValue _ _ _ _ (by decide)]
  have h1 : 12 + j < 16 := by omega
  have h2 : ¬ 12 + j = 15 := by omega
  simp [h1, h2]

theorem mux_field_restart (x d1 d2 d3 : Nat) :
    fieldRead 16 (writeBitWValue (u16 (writeBitWValue (u16 (writeBitWValue (u16 x) 8 d1)) 15
      d2)) 8 d3) 14 3 = fieldRead 16 x 14 3 := by
  apply mux_field_congr
  intro j hj
  rw [testBit_writeBitWValue _ _ _ _ (by decide), testBit_writeBitWValue _ _ _ _ (by decide),
    testBit_writeBitWValue _ _ _ _ (by decide)]
  have h1 : 12 + j < 16 := by omega
  have h2 : ¬ 12 + j = 15 := by omega
  have h3 : ¬ 12 + j = 8 := by omega
  simp [h1, h2, h3]

theorem mux_field_write (x code : Nat) (hc : code < 8) :
    fieldRead 16 (writeBitsWValue (u16 x) 14 3 (u8 code)) 14 3 = code := by
  have e : u8 code = code := by simp only [u8]; omega
  rw [e, writeBitsWValue_eq, fieldRead_fieldWrite 16 _ 14 3 code (by decide) (by decide)
    (by decide)]
  exact Nat.mod_eq_of_lt hc

theorem ads1115_getConversionMux_selects (T : I2CdevT RegFile) (hw : T.wire = wordRegs)
    (hT : NoTimeout T) (D : ADS1115) (code w0 : Nat) (s : World RegFile) (hc : code < 8)
    (h : D.muxMode ≠ code ∨ fieldRead 16 (s.dev.regs 1) 14 3 = code) :
    ∃ v D2 s2, D.getConversionMux T code w0 s = some (v, D2, s2)
      ∧ fieldRead 16 (s2.dev.regs 1) 14 3 = code := by
  by_cases hm : D.muxMode ≠ code
  · obtain ⟨b1, s1, e1, r1⟩ := ads1115_setMultiplexer_wordRegs T hw hT D code w0 s
    obtain ⟨v, b, s2, e2, r2⟩ := ads1115_getConversion_wordRegs T hw hT
      { D with muxMode := u8 code, buffer := b1 } w0 s1
    refine ⟨v, { ({ D with muxMode := u8 code, buffer := b1 } : ADS1115) with buffer := b },
      s2, ?_, ?_⟩
    · rw [ADS1115.getConversionMux, if_pos hm, e1]
      exact e2
    · have hd : ({ D with muxMode := u8 code, buffer := b1 } : ADS1115).devMode = D.devMode :=
        rfl
      rw [hd] at r2
      rcases Bool.eq_false_or_eq_true D.devMode with hD | hD
      · rw [hD, if_pos rfl] at r1 r2
        rw [r2, setAt_same, r1, setAt_same, mux_field_trigger, mux_field_write _ _ hc]
      · rw [hD, if_neg (by decide)] at r1 r2
        rw [r2, r1, setAt_same, mux_field_restart, mux_field_write _ _ hc]
  · have hf : fieldRead 16 (s.dev.regs 1) 14 3 = code := by
      rcases h with h | h
      · exact absurd h hm
      · exact h
    obtain ⟨v, b, s2, e2, r2⟩ := ads1115_getConversion_wordRegs T hw hT D w0 s
    refine ⟨v, { D with buffer := b }, s2, ?_, ?_⟩
    · rw [ADS1115.getConversionMux, if_neg hm]
      exact e2
    · rcases Bool.eq_false_or_eq_true D.devMode with hD | hD
      · rw [hD, if_pos rfl] at r2
        rw [r2, setAt_same, mux_field_trigger, hf]
      · rw [hD, if_neg (by decide)] at r2
        rw [r2, hf]

set_option maxRecDepth 100000 in
/-- C29, counterexample: on a freshly constructed driver (cached `muxMode` 0) facing a chip
whose CONFIG register holds `0x5000` (MUX = 5), `getConversionP0N1()` returns with the MUX
field still 5: the cached value equals the method's code, so `setMultiplexer` is skipped. -/
theorem ads1115_getConversionP0N1_keeps_mux :
    ((ADS1115.new 0x48 0).getConversionP0N1 (wordT (fun n => n) 1000) 0 (allRegs 0x5000)).map
        (fun p => fieldRead 16 (p.2.2.dev.regs ADS1115_RA_CONFIG) ADS1115_CFG_MUX_BIT
          ADS1115_CFG_MUX_LENGTH) = some 5 := by
  decide

/-- C29, amended. Each `getConversionPxNy` shortcut selects its channel when the cached
`muxMode` differs from the method's code or the MUX field of CONFIG already equals it: on
the 16-bit register file, when no read times out, for every initial register content and
every such driver state, the call returns and the MUX field (bits 14:12) of CONFIG then
equals the method's code, 0 to 7 for P0N1, P0N3, P1N3, P2N3, P0GND, P1GND, P2GND, P3GND.
Here no read times out when the timeout is disabled, or when every clock reading is less
than the timeout later than each of the two readings before it, as on any running clock
whose readings are under half a timeout apart. -/
theorem ads1115_getConversion_shortcuts (T : I2CdevT RegFile) (hw : T.wire = wordRegs)
    (hT : NoTimeout T) (D : ADS1115) (w0 : Nat) (s : World RegFile) :
    ((D.muxMode ≠ 0 ∨ fieldRead 16 (s.dev.regs ADS1115_RA_CONFIG) 14 3 = 0) →
      ∃ v D2 s2, D.getConversionP0N1 T w0 s = some (v, D2, s2)
        ∧ fieldRead 16 (s2.dev.regs ADS1115_RA_CONFIG) 14 3 = 0)
    ∧ ((D.muxMode ≠ 1 ∨ fieldRead 16 (s.dev.regs ADS1115_RA_CONFIG) 14 3 = 1) →
      ∃ v D2 s2, D.getConversionP0N3 T w0 s = some (v, D2, s2)
        ∧ fieldRead 16 (s2.dev.regs ADS1115_RA_CONFIG) 14 3 = 1)
    ∧ ((D.muxMode ≠ 2 ∨ fieldRead 16 (s.dev.regs ADS1115_RA_CONFIG) 14 3 = 2) →
      ∃ v D2 s2, D.getConversionP1N3 T w0 s = some (v, D2, s2)
        ∧ fieldRead 16 (s2.dev.regs ADS1115_RA_CONFIG) 14 3 = 2)
    ∧ ((D.muxMode ≠ 3 ∨ fieldRead 16 (s.dev.regs ADS1115_RA_CONFIG) 14 3 = 3) →
      ∃ v D2 s2, D.getConversionP2N3 T w0 s = some (v, D2, s2)
        ∧ fieldRead 16 (s2.dev.regs ADS1115_RA_CONFIG) 14 3 = 3)
    ∧ ((D.muxMode ≠ 4 ∨ fieldRead 16 (s.dev.regs ADS1115_RA_CONFIG) 14 3 = 4) →
      ∃ v D2 s2, D.getConversionP0GND T w0 s = some (v, D2, s2)
        ∧ fieldRead 16 (s2.dev.regs ADS1115_RA_CONFIG) 14 3 = 4)
    ∧ ((D.muxMode ≠ 5 ∨ fieldRead 16 (s.dev.regs ADS1115_RA_CONFIG) 14 3 = 5) →
      ∃ v D2 s2, D.getConversionP1GND T w0 s = some (v, D2, s2)
        ∧ fieldRead 16 (s2.dev.regs ADS1115_RA_CONFIG) 14 3 = 5)
    ∧ ((D.muxMode ≠ 6 ∨ fieldRead 16 (s.dev.regs ADS1115_RA_CONFIG) 14 3 = 6) →
      ∃ v D2 s2, D.getConversionP2GND T w0 s = some (v, D2, s2)
        ∧ fieldRead 16 (s2.dev.regs ADS1115_RA_CONFIG) 14 3 = 6)
    ∧ ((D.muxMode ≠ 7 ∨ fieldRead 16 (s.dev.regs ADS1115_RA_CONFIG) 14 3 = 7) →
      ∃ v D2 s2, D.getConversionP3GND T w0 s = some (v, D2, s2)
        ∧ fieldRead 16 (s2.dev.regs ADS1115_RA_CONFIG) 14 3 = 7) :=
  ⟨ads1115_getConversionMux_selects T hw hT D 0 w0 s (by decide),
   ads1115_getConversionMux_selects T hw hT D 1 w0 s (by decide),
   ads1115_getConversionMux_selects T hw hT D 2 w0 s (by decide),
   ads1115_getConversionMux_selects T hw hT D 3 w0 s (by decide),
   ads1115_getConversionMux_selects T hw hT D 4 w0 s (by decide),
   ads1115_getConversionMux_selects T hw hT D 5 w0 s (by decide),
   ads1115_getConversionMux_selects T hw hT D 6 w0 s (by decide),
   ads1115_getConversionMux_selects T hw hT D 7 w0 s (by decide)⟩

/-- Witness for the amended C29: a fresh driver asked for channel P1GND on a chip whose
CONFIG holds `0x5000`. -/
theorem ads1115_getConversion_shortcuts_witness :
    ∃ v D2 s2, (ADS1115.new 0x48 0).getConversionP0GND (wordT (fun n => n) 1000) 0
        (allRegs 0x5000) = some (v, D2, s2)
      ∧ fieldRead 16 (s2.dev.regs ADS1115_RA_CONFIG) 14 3 = 4 :=
  (ads1115_getConversion_shortcuts (wordT (fun n => n) 1000) rfl
    (Or.inr subU32_running) (ADS1115.new 0x48 0) 0
    (allRegs 0x5000)).2.2.2.2.1 (Or.inl (by decide))

/-- C30. `setConversionReadyPinMode` does what its documentation says: on the 16-bit
register file, when no read times out, the call returns, and of the 16 bits of each register
afterwards bit 15 of HI_THRESH is 1, bit 15 of LO_THRESH is 0, bits 3, 1 and 0 of CONFIG are
0, and every other bit of HI_THRESH, LO_THRESH and CONFIG has its previous value.
Here no read times out when the timeout is disabled, or when every clock reading is less
than the timeout later than each of the two readings before it, as on any running clock
whose readings are under half a timeout apart. -/
theorem ads1115_setConversionReadyPinMode_bits (T : I2CdevT RegFile) (hw : T.wire = wordRegs)
    (hT : NoTimeout T) (D : ADS1115) (w0 : Nat) (s : World RegFile) :
    ∃ D2 s2, D.setConversionReadyPinMode T w0 s = some (D2, s2)
      ∧ ∀ i, i < 16 →
        (s2.dev.regs ADS1115_RA_HI_THRESH).testBit i
            = (if i = 15 then true else (s.dev.regs ADS1115_RA_HI_THRESH).testBit i)
        ∧ (s2.dev.regs ADS1115_RA_LO_THRESH).testBit i
            = (if i = 15 then false else (s.dev.regs ADS1115_RA_LO_THRESH).testBit i)
        ∧ (s2.dev.regs ADS1115_RA_CONFIG).testBit i
            = (if i = ADS1115_CFG_COMP_POL_BIT ∨ i = 1 ∨ i = 0 then false
                else (s.dev.regs ADS1115_RA_CONFIG).testBit i) := by
  obtain ⟨s1, e1, r1⟩ := writeBitW_wordRegs T hw hT D.devAddr ADS1115_RA_HI_THRESH 15 1 w0 s
  obtain ⟨s2, e2, r2⟩ := writeBitW_wordRegs T hw hT D.devAddr ADS1115_RA_LO_THRESH 15 0 w0 s1
  obtain ⟨s3, e3, r3⟩ := ads1115_setComparatorPolarity_wordRegs T hw hT D false w0 s2
  obtain ⟨s4, e4, r4⟩ := ads1115_setComparatorQueueMode_wordRegs T hw hT D 0 w0 s3
  refine ⟨D, s4, ?_, ?_⟩
  · unfold ADS1115.setConversionReadyPinMode
    exact bind_eq_of_some _ _ _ _ e1 (bind_eq_of_some _ _ _ _ e2
      (bind_eq_of_some _ _ _ _ e3 e4))
  · intro i hi
    have h3 : s4.dev.regs 3 = writeBitWValue (u16 (s.dev.regs 3)) 15 1 := by
      rw [r4, r3, r2, r1]
      simp [setAt, ADS1115_RA_LO_THRESH, ADS1115_RA_HI_THRESH, u8]
    have h2 : s4.dev.regs 2 = writeBitWValue (u16 (s.dev.regs 2)) 15 0 := by
      rw [r4, r3, r2, r1]
      simp [setAt, ADS1115_RA_LO_THRESH, ADS1115_RA_HI_THRESH, u8]
    have h1 : s4.dev.regs 1 = writeBitsWValue (u16 (writeBitWValue (u16 (s.dev.regs 1)) 3
        (boolToNat false))) 1 2 (u8 0) := by
      rw [r4, r3, r2, r1]
      simp [setAt, ADS1115_RA_LO_THRESH, ADS1115_RA_HI_THRESH, u8]
    refine ⟨?_, ?_, ?_⟩
    · rw [show ADS1115_RA_HI_THRESH = 3 from rfl, h3,
        testBit_writeBitWValue _ _ _ _ (by decide)]
      simp [hi]
    · rw [show ADS1115_RA_LO_THRESH = 2 from rfl, h2,
        testBit_writeBitWValue _ _ _ _ (by decide)]
      simp [hi]
    · rw [show ADS1115_RA_CONFIG = 1 from rfl, h1, testBit_writeBitsWValue _ _ _ _ _ (by decide),
        testBit_writeBitWValue _ _ _ _ (by decide)]
      interval_cases i <;> simp [boolToNat, u8, ADS1115_CFG_COMP_POL_BIT]

/-- Witness for C30: a chip whose registers all hold `0x7FFF`. -/
theorem ads1115_setConversionReadyPinMode_bits_witness :
    ∃ D2 s2, (ADS1115.new 0x48 0).setConversionReadyPinMode (wordT (fun n => n) 1000) 0
        (allRegs 0x7FFF) = some (D2, s2)
      ∧ (s2.dev.regs ADS1115_RA_HI_THRESH).testBit 15
          = (if 15 = 15 then true else ((allRegs 0x7FFF).dev.regs ADS1115_RA_HI_THRESH).testBit 15) :=
  let ⟨D2, s2, h1, h2⟩ := ads1115_setConversionReadyPinMode_bits (wordT (fun n => n) 1000) rfl
    (Or.inr subU32_running) (ADS1115.new 0x48 0) 0
    (allRegs 0x7FFF)
  ⟨D2, s2, h1, (h2 15 (by decide)).1⟩

theorem requestCount_append (l1 l2 : List BusEvent) :
    requestCount (l1 ++ l2) = requestCount l1 + requestCount l2 := by
  induction l1 with
  | nil => simp [requestCount]
  | cons e l ih =>
    cases e
    · simp [requestCount, ih]
    · simp [requestCount, ih]; omega

/-- A one-word read always returns, after one pointer write, one request for two bytes and
one empty transmission, whatever the device does. -/
theorem readWord_total (T : I2CdevT σ) (a r : Nat) (data : Int → Nat) (s : World σ) :
    ∃ c buf s2 st bytes st2, readWord T a r data s = some (c, buf, s2)
      ∧ s2.log = s.log ++ [BusEvent.transmit a [u8 r] st, BusEvent.request a 2 bytes,
          BusEvent.transmit a [] st2] := by
  have hk : ¬ u8 (0 + min (1 * 2) BUFFER_LENGTH) < 1 * 2 := by decide
  have e : readWord T a r data s = some
      ((timeoutCheck T (millisNow T s) 1 (readWordsChunk T a r 1 (millisNow T s) 0 data (tick s)).1
          (readWordsChunk T a r 1 (millisNow T s) 0 data (tick s)).2.2).1,
        (readWordsChunk T a r 1 (millisNow T s) 0 data (tick s)).2.1,
        (timeoutCheck T (millisNow T s) 1 (readWordsChunk T a r 1 (millisNow T s) 0 data (tick s)).1
          (readWordsChunk T a r 1 (millisNow T s) 0 data (tick s)).2.2).2) := by
    rw [readWord, readWords, readWordsFuel]
    simp only []
    rw [show (256 : Nat) = 255 + 1 from rfl, readWordsLoop_step T a r 1 _ 255 0 0 data _
      (by decide), readWordsLoop_exit T a r 1 _ 255 _ _ _ _ hk]
  refine ⟨_, _, _, u8 (T.wire.onWrite s.dev a [u8 r]).2,
    (T.wire.onRead (T.wire.onWrite s.dev a [u8 r]).1 a 2).2.map u8,
    u8 (T.wire.onWrite (T.wire.onRead (T.wire.onWrite s.dev a [u8 r]).1 a 2).1 a []).2, e, ?_⟩
  have hlog : ∀ (c : Int) (w : World σ), (timeoutCheck T (millisNow T s) 1 c w).2.log = w.log := by
    intro c w
    unfold timeoutCheck
    split_ifs <;> rfl
  rw [hlog]
  simp [readWordsChunk, beginTransmission, wireWrite, endTransmission, requestFrom, tick, u8_two]

theorem ads1115_isConversionReady_total (T : I2CdevT σ) (D : ADS1115) (w0 : Nat)
    (s : World σ) :
    ∃ r b s2 st bytes st2, D.isConversionReady T w0 s = some (r, { D with buffer := b }, s2)
      ∧ s2.log = s.log ++ [BusEvent.transmit D.devAddr [u8 ADS1115_RA_CONFIG] st,
          BusEvent.request D.devAddr 2 bytes, BusEvent.transmit D.devAddr [] st2] := by
  obtain ⟨c, buf, s2, st, bytes, st2, e, hlog⟩ := readWord_total T D.devAddr ADS1115_RA_CONFIG
    (cell (u16 w0)) s
  refine ⟨decide (u16 (buf 0 &&& (1 <<< ADS1115_CFG_OS_BIT)) ≠ 0),
    u16 (buf 0 &&& (1 <<< ADS1115_CFG_OS_BIT)), s2, st, bytes, st2, ?_, hlog⟩
  simp only [ADS1115.isConversionReady, readBitW, e]

/-- The polling loop on any device, in any state, for every `max_retries = n`:
`pollConversion(n)` returns after `k ≤ n` calls of `isConversionReady`, each of them one
read of the CONFIG register (`3k` bus events, `k` of them read requests); it returns true
exactly when one of the `k` calls returned true, that call is the last one, and when it
returns false all `n` calls were made; `pollConversion(0)` returns false in the unchanged
state, without any bus transaction.  What a call returns when its read fails is the subject
of `ads1115_pollConversion_true_without_data`. -/
theorem ads1115_pollConversion_passes (T : I2CdevT σ) (w0 : Nat) :
    (∀ (n : Nat) (D : ADS1115) (s : World σ), ∃ k rs r D2 s2,
      ADS1115.pollConversion T w0 n D s = some (r, D2, s2)
      ∧ k ≤ n
      ∧ ADS1115.isConversionReadyTimes T w0 k D s = some (rs, D2, s2)
      ∧ rs.length = k
      ∧ (∃ evs, s2.log = s.log ++ evs ∧ evs.length = 3 * k ∧ requestCount evs = k)
      ∧ (r = true ↔ true ∈ rs)
      ∧ (∀ j, j + 1 < k → rs.getD j false = false)
      ∧ (r = false → k = n))
    ∧ ∀ (D : ADS1115) (s : World σ), ADS1115.pollConversion T w0 0 D s = some (false, D, s) := by
  refine ⟨?_, fun D s => rfl⟩
  intro n
  induction n with
  | zero =>
    intro D s
    exact ⟨0, [], false, D, s, rfl, le_refl _, rfl, rfl, ⟨[], by simp, rfl, rfl⟩, by simp,
      fun j hj => by omega, fun _ => rfl⟩
  | succ n ih =>
    intro D s
    obtain ⟨r0, b, s1, st, bytes, st2, e, hlog⟩ := ads1115_isConversionReady_total T D w0 s
    cases r0 with
    | true =>
      refine ⟨1, [true], true, { D with buffer := b }, s1, ?_, by omega, ?_, rfl,
        ⟨_, hlog, rfl, rfl⟩, by simp, fun j hj => by omega, fun h => Bool.noConfusion h⟩
      · simp only [ADS1115.pollConversion, e]
      · simp only [ADS1115.isConversionReadyTimes, e]
    | false =>
      obtain ⟨k, rs, r, D2, s2, h1, h2, h3, h4, ⟨evs, h5, h6, h7⟩, h8, h9, h10⟩ :=
        ih { D with buffer := b } s1
      refine ⟨k + 1, false :: rs, r, D2, s2, ?_, by omega, ?_, by simp [h4], ?_, ?_, ?_, ?_⟩
      · simp only [ADS1115.pollConversion, e, h1]
      · simp only [ADS1115.isConversionReadyTimes, e, h3]
      · refine ⟨[BusEvent.transmit D.devAddr [u8 ADS1115_RA_CONFIG] st,
          BusEvent.request D.devAddr 2 bytes, BusEvent.transmit D.devAddr [] st2] ++ evs,
          by rw [h5, hlog, List.append_assoc], ?_, ?_⟩
        · simp [h6]; omega
        · rw [requestCount_append, h7]; simp [requestCount]; omega
      · rw [h8]; simp
      · intro j hj
        cases j with
        | zero => rfl
        | succ j => simpa using h9 j (by omega)
      · intro h; have := h10 h; omega

/-- On the 16-bit register file, when no read times out, every poll with at least one try
returns bit 15 of CONFIG: true after the first read when the bit is set, false after all
the reads when it is clear. -/
theorem ads1115_pollConversion_wordRegs (T : I2CdevT RegFile) (hw : T.wire = wordRegs)
    (hT : NoTimeout T) (w0 : Nat) :
    ∀ (n : Nat) (D : ADS1115) (s : World RegFile), ∃ b s2,
      ADS1115.pollConversion T w0 (n + 1) D s
          = some ((s.dev.regs 1).testBit 15, { D with buffer := b }, s2)
        ∧ s2.dev.regs = s.dev.regs := by
  intro n
  induction n with
  | zero =>
    intro D s
    obtain ⟨b, s2, e, r⟩ := ads1115_isConversionReady_wordRegs T hw hT D w0 s
    refine ⟨b, s2, ?_, r⟩
    rcases Bool.eq_false_or_eq_true ((s.dev.regs 1).testBit 15) with h | h
    · rw [h] at e ⊢
      simp only [ADS1115.pollConversion, e]
    · rw [h] at e ⊢
      simp only [ADS1115.pollConversion, e]
  | succ n ih =>
    intro D s
    obtain ⟨b, s2, e, r⟩ := ads1115_isConversionReady_wordRegs T hw hT D w0 s
    rcases Bool.eq_false_or_eq_true ((s.dev.regs 1).testBit 15) with h | h
    · rw [h] at e ⊢
      exact ⟨b, s2, by simp only [ADS1115.pollConversion, e], r⟩
    · obtain ⟨b2, s3, e2, r2⟩ := ih { D with buffer := b } s2
      rw [h] at e ⊢
      rw [r, h] at e2
      refine ⟨b2, s3, ?_, r2.trans r⟩
      rw [ADS1115.pollConversion]
      simp only [e]
      exact e2

set_option maxRecDepth 100000 in
/-- C31, the code at the failing input.  The bus delivers no byte, CONFIG holds 0 (OS bit
clear) and the local `b` of `readBitW`, which the failed read leaves unfilled, holds
`0x8000`, under the default 1000 ms timeout on a clock that advances by one per reading.
The read of CONFIG fails: `readWord` returns 0 and the one request in the traffic delivers
no byte.  Yet `readBitW` stores bit 15 of the unfilled local, `isConversionReady` ignores the
status and returns true, and `pollConversion(1)` returns true although no read showed the
OS bit set. -/
theorem ads1115_pollConversion_true_without_data :
    (readWord (silentT (fun n => n) 1000) 0x48 ADS1115_RA_CONFIG (cell (u16 0x8000))
        (allRegs 0)).map (fun p => p.1) = some 0
    ∧ (readBitW (silentT (fun n => n) 1000) 0x48 ADS1115_RA_CONFIG ADS1115_CFG_OS_BIT 0x8000
        (allRegs 0)).map (fun p => (p.1, p.2.1)) = some (0, 0x8000)
    ∧ (ADS1115.pollConversion (silentT (fun n => n) 1000) 0x8000 1 (ADS1115.new 0x48 0)
        (allRegs 0)).map (fun p => (p.1, p.2.2.dev.regs ADS1115_RA_CONFIG, p.2.2.log))
      = some (true, 0, [BusEvent.transmit 0x48 [1] 0, BusEvent.request 0x48 2 [],
          BusEvent.transmit 0x48 [] 0]) := by
  decide

theorem u16ToI16_u16OfInt (t : Int) (h1 : -32768 ≤ t) (h2 : t ≤ 32767) :
    u16ToI16 (u16 (u16OfInt t)) = t := by
  simp only [u16ToI16, u16OfInt, u16]
  split_ifs <;> omega

theorem u16OfInt_encoding (t : Int) (h1 : -32768 ≤ t) (h2 : t ≤ 32767) :
    u16OfInt t = (if 0 ≤ t then t else t + 65536).toNat := by
  simp only [u16OfInt]
  split_ifs <;> omega

theorem threshold_round_trip (T : I2CdevT RegFile) (hw : T.wire = wordRegs) (hT : NoTimeout T)
    (a r b : Nat) (t : Int) (s : World RegFile) (h1 : -32768 ≤ t) (h2 : t ≤ 32767) :
    ∃ s1, writeWord T a r (u16OfInt t) s = some (true, s1)
      ∧ s1.log = s.log ++ [BusEvent.transmit a
          [u8 r, (if 0 ≤ t then t else t + 65536).toNat / 256,
            (if 0 ≤ t then t else t + 65536).toNat % 256] 0]
      ∧ ∃ buf s2, readWord T a r (cell b) s1 = some (1, buf, s2) ∧ u16ToI16 (buf 0) = t := by
  obtain ⟨s1, e1, r1, l1⟩ := writeWord_wordRegs T hw a r (u16OfInt t) s
  obtain ⟨s2, e2, _, _⟩ := readWord_wordRegs T hw hT a r (cell b) s1
  refine ⟨s1, e1, ?_, _, s2, e2, ?_⟩
  · rw [l1, ← u16OfInt_encoding t h1 h2]
    have hlt : u16OfInt t < 65536 := by simp only [u16OfInt]; omega
    have e3 : u16 (u16OfInt t) = u16OfInt t := by simp only [u16]; omega
    have hlt2 : u16OfInt t < 2 ^ 16 := hlt
    rw [e3, u8_shiftRight_eight _ hlt2]
    simp only [u8]
  · rw [setAt_same, r1, setAt_same, u16_idem, u16ToI16_u16OfInt t h1 h2]

/-- C32. Signed 16-bit threshold round trip: on the 16-bit register file, when no read
times out, for every `t` in -32768..32767, `setLowThreshold(t)` sends the register address
and the two bytes of the two's-complement encoding of `t`, high byte first, and
`getLowThreshold()` then returns `t`; likewise `setHighThreshold` and `getHighThreshold`.
Here no read times out when the timeout is disabled, or when every clock reading is less
than the timeout later than each of the two readings before it, as on any running clock
whose readings are under half a timeout apart. -/
theorem ads1115_threshold_round_trip (T : I2CdevT RegFile) (hw : T.wire = wordRegs)
    (hT : NoTimeout T) (D : ADS1115) (t : Int) (s : World RegFile)
    (h1 : -32768 ≤ t) (h2 : t ≤ 32767) :
    (∃ s1, D.setLowThreshold T t s = some (D, s1)
      ∧ s1.log = s.log ++ [BusEvent.transmit D.devAddr
          [ADS1115_RA_LO_THRESH, (if 0 ≤ t then t else t + 65536).toNat / 256,
            (if 0 ≤ t then t else t + 65536).toNat % 256] 0]
      ∧ ∃ D2 s2, D.getLowThreshold T s1 = some (t, D2, s2))
    ∧ (∃ s1, D.setHighThreshold T t s = some (D, s1)
      ∧ s1.log = s.log ++ [BusEvent.transmit D.devAddr
          [ADS1115_RA_HI_THRESH, (if 0 ≤ t then t else t + 65536).toNat / 256,
            (if 0 ≤ t then t else t + 65536).toNat % 256] 0]
      ∧ ∃ D2 s2, D.getHighThreshold T s1 = some (t, D2, s2)) := by
  constructor
  · obtain ⟨s1, e1, l1, buf, s2, e2, hv⟩ := threshold_round_trip T hw hT D.devAddr
      ADS1115_RA_LO_THRESH D.buffer t s h1 h2
    refine ⟨s1, by simp only [ADS1115.setLowThreshold, e1], l1, { D with buffer := buf 0 }, s2, ?_⟩
    simp only [ADS1115.getLowThreshold, e2, hv]
  · obtain ⟨s1, e1, l1, buf, s2, e2, hv⟩ := threshold_round_trip T hw hT D.devAddr
      ADS1115_RA_HI_THRESH D.buffer t s h1 h2
    refine ⟨s1, by simp only [ADS1115.setHighThreshold, e1], l1, { D with buffer := buf 0 }, s2, ?_⟩
    simp only [ADS1115.getHighThreshold, e2, hv]

/-- Witness for C32: the threshold -2, sent as `0xFF 0xFE`. -/
theorem ads1115_threshold_round_trip_witness :
    ∃ s1, (ADS1115.new 0x48 0).setLowThreshold (wordT (fun n => n) 1000) (-2) (allRegs 0)
        = some (ADS1115.new 0x48 0, s1)
      ∧ s1.log = (allRegs 0).log ++ [BusEvent.transmit (ADS1115.new 0x48 0).devAddr
          [ADS1115_RA_LO_THRESH, (if (0 : Int) ≤ -2 then (-2 : Int) else -2 + 65536).toNat / 256,
            (if (0 : Int) ≤ -2 then (-2 : Int) else -2 + 65536).toNat % 256] 0]
      ∧ ∃ D2 s2, (ADS1115.new 0x48 0).getLowThreshold (wordT (fun n => n) 1000) s1
          = some (-2, D2, s2) :=
  (ads1115_threshold_round_trip (wordT (fun n => n) 1000) rfl
    (Or.inr subU32_running) (ADS1115.new 0x48 0) (-2) (allRegs 0)
    (by decide) (by decide)).1

set_option maxRecDepth 100000 in
/-- C33, the code at the failing input: a driver whose cache agrees with a halted chip
(`clockHalt` cached true, SECONDS = `0x80`) satisfies `Inv`; `setClockRunning(true)` clears
bit 7 of SECONDS but leaves the cached `clockHalt` true, so `Inv` no longer holds, and the
following `setSeconds(30)` writes `0xB0`, halting the clock again.  In the same way
`setMode(1)` sets bit 6 of HOURS without touching the cached `mode12`, and the following
`setHours24(5)` writes `0x05`, back in 24-hour mode. -/
theorem ds1307_bit_setters_leave_cache_stale :
    DS1307.Inv ⟨0x68, 0, false, true⟩ (allRegs 0x80)
    ∧ (DS1307.setClockRunning (byteT (fun _ => 0) 1000) ⟨0x68, 0, false, true⟩ true 0
          (allRegs 0x80)).map
        (fun p => (p.1.clockHalt, p.2.dev.regs DS1307_RA_SECONDS, decide (DS1307.Inv p.1 p.2)))
        = some (true, 0x00, false)
    ∧ (DS1307.setClockRunning (byteT (fun _ => 0) 1000) ⟨0x68, 0, false, true⟩ true 0
          (allRegs 0x80)).map
        (fun p => (p.1.setSeconds (byteT (fun _ => 0) 1000) 30 p.2).2.dev.regs DS1307_RA_SECONDS)
        = some 0xB0
    ∧ DS1307.Inv ⟨0x68, 0, false, false⟩ (allRegs 0x00)
    ∧ (DS1307.setMode (byteT (fun _ => 0) 1000) ⟨0x68, 0, false, false⟩ 1 0
          (allRegs 0x00)).map
        (fun p => (p.1.mode12, p.2.dev.regs DS1307_RA_HOURS, decide (DS1307.Inv p.1 p.2)))
        = some (false, 0x40, false)
    ∧ (DS1307.setMode (byteT (fun _ => 0) 1000) ⟨0x68, 0, false, false⟩ 1 0
          (allRegs 0x00)).map
        (fun p => (p.1.setHours24 (byteT (fun _ => 0) 1000) 5 p.2).2.dev.regs DS1307_RA_HOURS)
        = some 0x05 := by
  decide

theorem ampm_bit_of_hours24Byte (m : Bool) (h : Nat) (hh : h ≤ 23) :
    (u8 (u8 (DS1307.hours24Byte m h)) &&& (1 <<< DS1307_HOURS_AMPM_BIT) ≠ 0)
      ↔ (if m then 12 ≤ h else 20 ≤ h) := by
  interval_cases h <;> cases m <;> decide

theorem ds1307_readReg_byteRegs (T : I2CdevT RegFile) (hw : T.wire = byteRegs)
    (hT : NoTimeout T) (D : DS1307) (reg : Nat) (s : World RegFile) :
    ∃ s2, D.readReg T reg s = some (1, { D with buffer := u8 (s.dev.regs (u8 reg)) }, s2)
      ∧ s2.dev.regs = s.dev.regs := by
  obtain ⟨s2, e, r, _⟩ := readByte_byteRegs T hw hT D.devAddr reg (cell (u8 D.buffer)) s
  exact ⟨s2, by simp only [DS1307.readReg, e, setAt_same], r⟩

theorem ds1307_setTime24_hours (T : I2CdevT RegFile) (hw : T.wire = byteRegs) (D : DS1307)
    (h m sec : Nat) (s : World RegFile) (hh : h ≤ 23) :
    (D.setTime24 T h m sec s).1 = D
      ∧ (D.setTime24 T h m sec s).2.dev.regs DS1307_RA_HOURS
          = u8 (DS1307.hours24Byte D.mode12 h) := by
  have e1 : (D.setSeconds T sec s).1 = D := by
    unfold DS1307.setSeconds; split_ifs <;> rfl
  have e2 : ∀ w : World RegFile, (D.setMinutes T m w).1 = D := by
    intro w; unfold DS1307.setMinutes; split_ifs <;> rfl
  have hn : ¬ h > 23 := by omega
  obtain ⟨s2, e3, r3, _⟩ := writeByte_byteRegs T hw D.devAddr DS1307_RA_HOURS
    (DS1307.hours24Byte D.mode12 h) (D.setMinutes T m (D.setSeconds T sec s).2).2
  simp only [DS1307.setTime24, e1, e2, DS1307.setHours24, if_neg hn, e3, r3]
  exact ⟨trivial, setAt_same _ _ _⟩

/-- The AM/PM output of `getTime12` after `setTime24(h, m, s)` on the 8-bit register file:
it is non-zero exactly for `h ≥ 12` in 12-hour mode and exactly for `h ≥ 20` in 24-hour mode,
where bit 5 of HOURS is the 20-hour digit. -/
theorem ds1307_getTime12_ampm (T : I2CdevT RegFile) (hw : T.wire = byteRegs)
    (hT : NoTimeout T) (D : DS1307) (h m sec b0 : Nat) (s : World RegFile) (hh : h ≤ 23) :
    ∃ hours minutes seconds ampm D2 s2,
      DS1307.getTime12 T (D.setTime24 T h m sec s).1 b0 (D.setTime24 T h m sec s).2
        = some ((hours, minutes, seconds, ampm), D2, s2)
      ∧ (ampm ≠ 0 ↔ (if D.mode12 then 12 ≤ h else 20 ≤ h)) := by
  obtain ⟨eD, eH⟩ := ds1307_setTime24_hours T hw D h m sec s hh
  generalize D.setTime24 T h m sec s = p at eD eH
  obtain ⟨D0, s0⟩ := p
  simp only at eD eH
  subst eD
  obtain ⟨s1, e1, r1⟩ := ds1307_readReg_byteRegs T hw hT D0 DS1307_RA_HOURS s0
  generalize hD1 : ({ D0 with
      buffer := u8 (s0.dev.regs (u8 DS1307_RA_HOURS)),
      mode12 := decide (u8 (s0.dev.regs (u8 DS1307_RA_HOURS)) &&& 0x40 ≠ 0) } : DS1307) = D1
  obtain ⟨s2, e2, r2⟩ := ds1307_readReg_byteRegs T hw hT D1 DS1307_RA_MINUTES s1
  generalize hD2 : ({ D1 with buffer := u8 (s1.dev.regs (u8 DS1307_RA_MINUTES)) } : DS1307)
    = D2 at e2
  obtain ⟨s3, e3, r3⟩ := ds1307_readReg_byteRegs T hw hT D2 DS1307_RA_SECONDS s2
  generalize hD3 : ({ D2 with
      buffer := u8 (s2.dev.regs (u8 DS1307_RA_SECONDS)),
      clockHalt := decide (u8 (s2.dev.regs (u8 DS1307_RA_SECONDS)) &&& 0x80 ≠ 0) } : DS1307) = D3
  obtain ⟨s4, e4, r4⟩ := readBit_byteRegs T hw hT D3.devAddr DS1307_RA_HOURS
    DS1307_HOURS_AMPM_BIT b0 s3
  have eh : D0.getHours12 T s0 = some (DS1307.hours12Of (u8 (s0.dev.regs (u8 DS1307_RA_HOURS))),
      D1, s1) := by
    simp only [DS1307.getHours12, e1, ← hD1]
  have em : D1.getMinutes T s1 = some (u8 ((D2.buffer &&& 0x0F) + ((D2.buffer &&& 0x70) >>> 4)
      * 10), D2, s2) := by
    simp only [DS1307.getMinutes, e2]
  have es : D2.getSeconds T s2 = some (u8 ((u8 (s2.dev.regs (u8 DS1307_RA_SECONDS)) &&& 0x0F)
      + ((u8 (s2.dev.regs (u8 DS1307_RA_SECONDS)) &&& 0x70) >>> 4) * 10), D3, s3) := by
    simp only [DS1307.getSeconds, e3, ← hD3]
  have ea : D3.getAMPM T b0 s3 = some (u8 (s3.dev.regs (u8 DS1307_RA_HOURS))
      &&& (1 <<< DS1307_HOURS_AMPM_BIT),
      { D3 with buffer := u8 (s3.dev.regs (u8 DS1307_RA_HOURS)) &&&
          (1 <<< DS1307_HOURS_AMPM_BIT) }, s4) := by
    simp only [DS1307.getAMPM, DS1307.readRegBit, e4]
  have key : DS1307.getTime12 T D0 b0 s0
      = some ((DS1307.hours12Of (u8 (s0.dev.regs (u8 DS1307_RA_HOURS))),
          u8 ((D2.buffer &&& 0x0F) + ((D2.buffer &&& 0x70) >>> 4) * 10),
          u8 ((u8 (s2.dev.regs (u8 DS1307_RA_SECONDS)) &&& 0x0F)
            + ((u8 (s2.dev.regs (u8 DS1307_RA_SECONDS)) &&& 0x70) >>> 4) * 10),
          u8 (s3.dev.regs (u8 DS1307_RA_HOURS)) &&& (1 <<< DS1307_HOURS_AMPM_BIT)),
        { D3 with buffer := u8 (s3.dev.regs (u8 DS1307_RA_HOURS)) &&&
            (1 <<< DS1307_HOURS_AMPM_BIT) }, s4) := by
    simp only [DS1307.getTime12, eh, em, es, ea]
  refine ⟨_, _, _, _, _, _, key, ?_⟩
  rw [r3, r2, r1, show u8 DS1307_RA_HOURS = DS1307_RA_HOURS from rfl, eH]
  exact ampm_bit_of_hours24Byte D0.mode12 h hh


set_option maxRecDepth 100000 in
/-- C34, the code at the failing input: on a chip in 24-hour mode, after
`setTime24(13, 0, 0)` the outputs of `getTime12` are hours 1, minutes 0, seconds 0 and
ampm 0, although 13 ≥ 12; after `setTime24(20, 0, 0)` ampm is 32. -/
theorem ds1307_getTime12_ampm_24h_mode :
    (DS1307.getTime12 (byteT (fun _ => 0) 1000)
        (DS1307.setTime24 (byteT (fun _ => 0) 1000) ⟨0x68, 0, false, false⟩ 13 0 0
          (allRegs 0)).1 0
        (DS1307.setTime24 (byteT (fun _ => 0) 1000) ⟨0x68, 0, false, false⟩ 13 0 0
          (allRegs 0)).2).map (fun p => p.1) = some (1, 0, 0, 0)
    ∧ (DS1307.getTime12 (byteT (fun _ => 0) 1000)
        (DS1307.setTime24 (byteT (fun _ => 0) 1000) ⟨0x68, 0, false, false⟩ 20 0 0
          (allRegs 0)).1 0
        (DS1307.setTime24 (byteT (fun _ => 0) 1000) ⟨0x68, 0, false, false⟩ 20 0 0
          (allRegs 0)).2).map (fun p => p.1) = some (8, 0, 0, 32) := by
  decide

set_option maxRecDepth 1000000 in
theorem month_length_all : ∀ leap < 2, ∀ r < 366, r < 365 + leap →
    (monthLoop 256 leap 1 r).map (fun p => decide (1 ≤ p.1 ∧ p.1 ≤ 12
      ∧ p.2 < (if leap ≠ 0 ∧ p.1 = 2 then 29 else daysInMonth.getD (p.1 - 1) 0))) = some true := by
  decide

theorem month_length (leap r : Nat) (hl : leap < 2) (hr : r < 365 + leap) :
    ∃ m d, monthLoop 256 leap 1 r = some (m, d) ∧ 1 ≤ m ∧ m ≤ 12
      ∧ d < (if leap ≠ 0 ∧ m = 2 then 29 else daysInMonth.getD (m - 1) 0) := by
  have h := month_length_all leap hl r (by omega) hr
  cases e1 : monthLoop 256 leap 1 r with
  | none => rw [e1] at h; exact Option.noConfusion h
  | some p =>
    obtain ⟨m, d⟩ := p
    rw [e1] at h
    simp only [Option.map_some', Option.some.injEq, decide_eq_true_eq] at h
    exact ⟨m, d, rfl, h⟩

theorem daysInMonth_le (i : Nat) : daysInMonth.getD i 0 ≤ 31 := by
  by_cases h : i < 12
  · interval_cases i <;> decide
  · rw [List.getD_eq_default _ _ (by simp only [daysInMonth, List.length]; omega)]
    omega

theorem u8_mod_sixty (x : Nat) : u8 (x % 60) ≤ 59 := by
  simp only [u8]; omega

theorem u8_mod_twentyfour (x : Nat) : u8 (x % 24) ≤ 23 := by
  simp only [u8]; omega

/-- C35. `DateTime(t)` always yields a well-formed calendar value: for every 32-bit
`t ≥ 946684800` both loops of the constructor leave within the fuel, every read of
`daysInMonth` falls inside the table (a read outside it would make the model return `none`),
and the fields satisfy `second() ≤ 59`, `minute() ≤ 59`, `hour() ≤ 23`, `1 ≤ month() ≤ 12` and
`1 ≤ day() ≤` the length of the month, which is 29 for February when the year offset is
divisible by 4 and the table value otherwise. -/
theorem datetime_well_formed (t : Nat) (h1 : 946684800 ≤ t) (h2 : t < 4294967296) :
    ∃ dt, DateTime.ofUnixtime t = some dt
      ∧ dt.second ≤ 59 ∧ dt.minute ≤ 59 ∧ dt.hour ≤ 23
      ∧ 1 ≤ dt.month ∧ dt.month ≤ 12
      ∧ 1 ≤ dt.day
      ∧ dt.day ≤ (if dt.month = 2 ∧ dt.yOff % 4 = 0 then 29
          else daysInMonth.getD (dt.month - 1) 0) := by
  have eT : subU32 t SECONDS_FROM_1970_TO_2000 = t - 946684800 := by
    simp only [subU32, u32, SECONDS_FROM_1970_TO_2000]; omega
  obtain ⟨T, hTdef⟩ : ∃ T, t - 946684800 = T := ⟨_, rfl⟩
  rw [hTdef] at eT
  have hT : T < 4294967296 := by omega
  have hN : u16 (T / 60 / 60 / 24) = T / 60 / 60 / 24 := by simp only [u16]; omega
  obtain ⟨y2, r, ey, hr, _, _⟩ := yearLoop_spec 256 0 (T / 60 / 60 / 24) (by omega)
    (by omega) (by omega)
  obtain ⟨m, d, em, hm1, hm2, hd⟩ :=
    month_length (if y2 % 4 = 0 then 1 else 0) r (by split_ifs <;> omega) hr
  have hcond : ((if y2 % 4 = 0 then 1 else 0) ≠ 0 ∧ m = 2) ↔ (m = 2 ∧ y2 % 4 = 0) := by
    by_cases hy : y2 % 4 = 0 <;> simp [hy]
  have hd' : d < (if m = 2 ∧ y2 % 4 = 0 then 29 else daysInMonth.getD (m - 1) 0) := by
    rw [← if_congr hcond rfl rfl]; exact hd
  have hle := daysInMonth_le (m - 1)
  have hd32 : d < 31 := by split_ifs at hd' <;> omega
  have e : u8 (d + 1) = d + 1 := by simp only [u8]; omega
  refine ⟨⟨y2, m, u8 (d + 1), u8 (T / 60 / 60 % 24), u8 (T / 60 % 60), u8 (T % 60)⟩, ?_, ?_, ?_,
    ?_, by simpa only [DateTime.month] using hm1, by simpa only [DateTime.month] using hm2,
    ?_, ?_⟩
  · rw [DateTime.ofUnixtime, ofUnixtimeFuel_eq 256 t T eT, hN, ey]
    simp only [em]
  · simp only [DateTime.second]; exact u8_mod_sixty _
  · simp only [DateTime.minute]; exact u8_mod_sixty _
  · simp only [DateTime.hour]; exact u8_mod_twentyfour _
  · simp only [DateTime.day, e]; omega
  · simp only [DateTime.day, DateTime.month, e]
    split_ifs at hd' ⊢ <;> omega

/-- Witness for C35: the largest 32-bit time, 2106-02-07 06:28:15. -/
theorem datetime_well_formed_witness :
    ∃ dt, DateTime.ofUnixtime 4294967295 = some dt
      ∧ dt.second ≤ 59 ∧ dt.minute ≤ 59 ∧ dt.hour ≤ 23
      ∧ 1 ≤ dt.month ∧ dt.month ≤ 12
      ∧ 1 ≤ dt.day
      ∧ dt.day ≤ (if dt.month = 2 ∧ dt.yOff % 4 = 0 then 29
          else daysInMonth.getD (dt.month - 1) 0) :=
  datetime_well_formed 4294967295 (by simp) (by simp)

end I2Cdev
